import Mathlib

/-!
# Verification of `OpTraits.h` — per-operator AD rules over an epoch-tagged graph

Shallow embedding of the operator rule table of `src/include/ad/OpTraits.h`:
the four passes (`forward`, `forward_dot`, `backward`, `hvp_backward`) of every
operator, the arity guards, and the epoch-tagged slot protocol.

Modelling conventions:
* IEEE-754 `double` is idealised as an arbitrary `LinearOrderedField` (witnesses
  instantiate it with `ℚ`).  Note that in such a field `x / 0 = 0`, which agrees
  with the source's explicit `b != 0` clamping guards.
* Transcendental library functions (`std::sin`, `std::exp`, `std::erf`, ...) and
  the constants `M_SQRT1_2`, `sqrt(2/M_PI)` are parameters, collected in a
  `RealFuns` bundle; the rule table is generic over them exactly as the source is
  generic over the C library.
* Node pointers become indices into the graph's node list; a null
  `shared_ptr` becomes `none`.  Dereferencing a null pointer is undefined
  behaviour in the source; reads through `none` are modelled by a default node
  and writes through `none` as a no-op (no claim depends on the value produced
  by such undefined reads).
* The epoch primitives `touch_epoch`, `set_epoch_value`, `ensure_epoch_zero`
  are declared in the external `ADGraph.h` and are modelled from the spec.
-/

namespace ChompAD

/-- Modelled from the spec: the external `Operator` enum (its declaration is an
external collaborator).  The seventeen tags of §6, plus `other k` standing for
any unknown/future tag routed to the no-op primary template. -/
inductive Operator where
  | cte | Var | Add | Subtract | Multiply | Divide
  | Sin | Cos | Tan | Exp | Log | Max
  | Tanh | Silu | Gelu | Relu | Softmax
  | other (k : Nat)
deriving DecidableEq

/-- Modelled from the spec: the node record of the external `ADGraph.h` —
operator tag, ordered input references, and the four scalar accumulators each
paired with an epoch tag. -/
structure ADNode (α : Type) where
  op : Operator
  inputs : List (Option Nat)
  value : α
  dot : α
  gradient : α
  grad_dot : α
  val_epoch : Nat
  dot_epoch : Nat
  grad_epoch : Nat
  gdot_epoch : Nat
deriving DecidableEq

/-- Modelled from the spec: the graph record — node storage plus the four
process-monotonic pass counters. -/
structure ADGraph (α : Type) where
  nodes : List (ADNode α)
  cur_val_epoch_ : Nat
  cur_dot_epoch_ : Nat
  cur_grad_epoch_ : Nat
  cur_gdot_epoch_ : Nat
deriving DecidableEq

variable {α : Type} [LinearOrderedField α]

/-- Default node used to model a read through an invalid reference. -/
def dfltNode : ADNode α :=
  { op := .other 0, inputs := [], value := 0, dot := 0, gradient := 0,
    grad_dot := 0, val_epoch := 0, dot_epoch := 0, grad_epoch := 0, gdot_epoch := 0 }

/-- Fetch node `i` of the graph. -/
def getN (g : ADGraph α) (i : Nat) : ADNode α := g.nodes.getD i dfltNode

/-- Update node `i` in place (mutation of `ADNode&`). -/
def updN (g : ADGraph α) (i : Nat) (f : ADNode α → ADNode α) : ADGraph α :=
  { g with nodes := g.nodes.set i (f (getN g i)) }

/-- Dereference an input handle (`none` models a null pointer, see header). -/
def deref (g : ADGraph α) (r : Option Nat) : ADNode α :=
  match r with
  | some i => getN g i
  | none => dfltNode

/-- `_safe_div` of OpTraits.h line 11: `(b != 0.0) ? (a / b) : 0.0`. -/
def _safe_div (a b : α) : α := if b ≠ 0 then a / b else 0

/-- `_unary_ok` line 14: exactly one input and it is non-null. -/
def _unary_ok (n : ADNode α) : Bool :=
  match n.inputs with
  | [some _] => true
  | _ => false

/-- `_binary_ok` line 17: exactly two inputs, both non-null. -/
def _binary_ok (n : ADNode α) : Bool :=
  match n.inputs with
  | [some _, some _] => true
  | _ => false

/-- `_nary_ok` line 20: nonempty input list (no null check). -/
def _nary_ok (n : ADNode α) : Bool := !n.inputs.isEmpty

/-- Modelled from the spec: `touch_epoch(tag, cur)` of the external ADGraph.h —
mark the slot live for the current pass, no other work. -/
def touch_epoch (_tag cur : Nat) : Nat := cur

/-- Modelled from the spec: `set_epoch_value(slot, tag, cur, v)` of the external
ADGraph.h — unconditionally store `v` and set the tag to `cur`; the pair is the
new (slot, tag). -/
def set_epoch_value (_slot : α) (_tag cur : Nat) (v : α) : α × Nat := (v, cur)

/-- Modelled from the spec: `ensure_epoch_zero(slot, tag, cur)` of the external
ADGraph.h — the value the returned reference exposes: the stored slot if the tag
is current, else `0` (lazily cleared). -/
def ensure_epoch_zero (slot : α) (tag cur : Nat) : α :=
  if tag = cur then slot else 0

/-- `set_epoch_value(n.value, n.val_epoch, g.cur_val_epoch_, v)`. -/
def setVal (g : ADGraph α) (j : Nat) (v : α) : ADGraph α :=
  updN g j fun nd =>
    { nd with value := (set_epoch_value nd.value nd.val_epoch g.cur_val_epoch_ v).1,
              val_epoch := (set_epoch_value nd.value nd.val_epoch g.cur_val_epoch_ v).2 }

/-- `set_epoch_value(n.dot, n.dot_epoch, g.cur_dot_epoch_, v)`. -/
def setDot (g : ADGraph α) (j : Nat) (v : α) : ADGraph α :=
  updN g j fun nd =>
    { nd with dot := (set_epoch_value nd.dot nd.dot_epoch g.cur_dot_epoch_ v).1,
              dot_epoch := (set_epoch_value nd.dot nd.dot_epoch g.cur_dot_epoch_ v).2 }

/-- `touch_epoch(n.val_epoch, g.cur_val_epoch_)`. -/
def touchVal (g : ADGraph α) (j : Nat) : ADGraph α :=
  updN g j fun nd => { nd with val_epoch := touch_epoch nd.val_epoch g.cur_val_epoch_ }

/-- `touch_epoch(n.dot_epoch, g.cur_dot_epoch_)`. -/
def touchDot (g : ADGraph α) (j : Nat) : ADGraph α :=
  updN g j fun nd => { nd with dot_epoch := touch_epoch nd.dot_epoch g.cur_dot_epoch_ }

/-- The side effect of taking an `ensure_epoch_zero` reference to
`inputs[i]->gradient`: lazily clear if stale and tag with the current counter. -/
def ensGrad (g : ADGraph α) (i : Nat) : ADGraph α :=
  updN g i fun nd =>
    { nd with gradient := ensure_epoch_zero nd.gradient nd.grad_epoch g.cur_grad_epoch_,
              grad_epoch := g.cur_grad_epoch_ }

/-- `ensure_epoch_zero` reference to `inputs[i]->grad_dot`. -/
def ensGDot (g : ADGraph α) (i : Nat) : ADGraph α :=
  updN g i fun nd =>
    { nd with grad_dot := ensure_epoch_zero nd.grad_dot nd.gdot_epoch g.cur_gdot_epoch_,
              gdot_epoch := g.cur_gdot_epoch_ }

/-- Plain `+=` through an already-ensured gradient reference. -/
def addGrad (g : ADGraph α) (i : Nat) (d : α) : ADGraph α :=
  updN g i fun nd => { nd with gradient := nd.gradient + d }

/-- Plain `+=` through an already-ensured grad_dot reference. -/
def addGDot (g : ADGraph α) (i : Nat) (d : α) : ADGraph α :=
  updN g i fun nd => { nd with grad_dot := nd.grad_dot + d }

/-- The statement form `ensure_epoch_zero(x.gradient, ...) += d` (the RHS `d`
is evaluated before the ensure side effect, per C++17 sequencing). -/
def accGrad (g : ADGraph α) (i : Nat) (d : α) : ADGraph α := addGrad (ensGrad g i) i d

/-- `ensure_epoch_zero(x.grad_dot, ...) += d`. -/
def accGDot (g : ADGraph α) (i : Nat) (d : α) : ADGraph α := addGDot (ensGDot g i) i d

/-- Accumulate through an input handle (`none` = null pointer, write unmodelled). -/
def accGradO (g : ADGraph α) (r : Option Nat) (d : α) : ADGraph α :=
  match r with
  | some i => accGrad g i d
  | none => g

/-- Accumulate `grad_dot` through an input handle. -/
def accGDotO (g : ADGraph α) (r : Option Nat) (d : α) : ADGraph α :=
  match r with
  | some i => accGDot g i d
  | none => g

/-- `ensGrad` through an input handle. -/
def ensGradO (g : ADGraph α) (r : Option Nat) : ADGraph α :=
  match r with
  | some i => ensGrad g i
  | none => g

/-- `ensGDot` through an input handle. -/
def ensGDotO (g : ADGraph α) (r : Option Nat) : ADGraph α :=
  match r with
  | some i => ensGDot g i
  | none => g

/-- `addGrad` through an input handle. -/
def addGradO (g : ADGraph α) (r : Option Nat) (d : α) : ADGraph α :=
  match r with
  | some i => addGrad g i d
  | none => g

/-- `addGDot` through an input handle. -/
def addGDotO (g : ADGraph α) (r : Option Nat) (d : α) : ADGraph α :=
  match r with
  | some i => addGDot g i d
  | none => g

/-- The bundle of C math library functions and constants the rule table calls.
The source is generic over the C library in exactly this sense. -/
structure RealFuns (α : Type) where
  sinF : α → α
  cosF : α → α
  tanF : α → α
  expF : α → α
  logF : α → α
  tanhF : α → α
  erfF : α → α
  msqrt1_2 : α
  sqrt_2_over_pi : α

/-- A unary rule: `f`, `df`, `d2` (OpTraits.h lines 61-64). -/
structure URule (α : Type) where
  f : α → α
  df : α → α
  d2 : α → α

/-- `SinRule` (line 141). -/
def SinRule (fs : RealFuns α) : URule α :=
  ⟨fun x => fs.sinF x, fun x => fs.cosF x, fun x => -fs.sinF x⟩

/-- `CosRule` (line 146). -/
def CosRule (fs : RealFuns α) : URule α :=
  ⟨fun x => fs.cosF x, fun x => -fs.sinF x, fun x => -fs.cosF x⟩

/-- `ExpRule` (line 151). -/
def ExpRule (fs : RealFuns α) : URule α :=
  ⟨fun x => fs.expF x, fun x => fs.expF x, fun x => fs.expF x⟩

/-- `LogRule` (line 158): guarded `1/x` and `-1/x²`. -/
def LogRule (fs : RealFuns α) : URule α :=
  ⟨fun x => fs.logF x,
   fun x => if x ≠ 0 then 1 / x else 0,
   fun x => if x ≠ 0 then -1 / (x * x) else 0⟩

/-- `TanRule` (line 172): guarded `sec²` and `2 sin/cos³`. -/
def TanRule (fs : RealFuns α) : URule α :=
  ⟨fun x => fs.tanF x,
   fun x => let c := fs.cosF x; if c ≠ 0 then 1 / (c * c) else 0,
   fun x =>
     let s := fs.sinF x
     let c := fs.cosF x
     if c ≠ 0 then 2 * s / (c * c * c) else 0⟩

/-- `TanhRule` (line 192). -/
def TanhRule (fs : RealFuns α) : URule α :=
  ⟨fun x => fs.tanhF x,
   fun x => let t := fs.tanhF x; 1 - t * t,
   fun x => let t := fs.tanhF x; let s2 := 1 - t * t; -2 * t * s2⟩

/-- `_sigmoid` (line 199): numerically stable sigmoid, branching on the sign. -/
def _sigmoid (fs : RealFuns α) (x : α) : α :=
  if x ≥ 0 then
    let z := fs.expF (-x)
    1 / (1 + z)
  else
    let z := fs.expF x
    z / (1 + z)

/-- `SiLURule` (line 211). -/
def SiLURule (fs : RealFuns α) : URule α :=
  ⟨fun x => let s := _sigmoid fs x; x * s,
   fun x => let s := _sigmoid fs x; s * (1 + x * (1 - s)),
   fun x =>
     let s := _sigmoid fs x
     let sp := s * (1 - s)
     sp * (2 + x * (1 - 2 * s))⟩

/-- `GELURule` (line 229): exact erf-based GELU. -/
def GELURule (fs : RealFuns α) : URule α :=
  ⟨fun x =>
     let z := x * fs.msqrt1_2
     1 / 2 * x * (1 + fs.erfF z),
   fun x =>
     let z := x * fs.msqrt1_2
     let A := fs.sqrt_2_over_pi * fs.expF (-(1 / 2) * x * x)
     1 / 2 * (1 + fs.erfF z) + 1 / 2 * x * A,
   fun x =>
     let A := fs.sqrt_2_over_pi * fs.expF (-(1 / 2) * x * x)
     A * (1 - 1 / 2 * x * x)⟩

/-- `ReluRule` (line 246). -/
def ReluRule : URule α :=
  ⟨fun x => if x > 0 then x else 0,
   fun x => if x > 0 then 1 else 0,
   fun _ => 0⟩

/-- A binary rule: `f`, first and second partials (OpTraits.h lines 394-400). -/
structure BRule (α : Type) where
  f : α → α → α
  dfa : α → α → α
  dfb : α → α → α
  d2aa : α → α → α
  d2ab : α → α → α
  d2bb : α → α → α

/-- `AddRule` (line 472). -/
def AddRule : BRule α :=
  ⟨fun a b => a + b, fun _ _ => 1, fun _ _ => 1,
   fun _ _ => 0, fun _ _ => 0, fun _ _ => 0⟩

/-- `SubRule` (line 481). -/
def SubRule : BRule α :=
  ⟨fun a b => a - b, fun _ _ => 1, fun _ _ => -1,
   fun _ _ => 0, fun _ _ => 0, fun _ _ => 0⟩

/-- `DivRule` (line 490): all derivatives gated on `b ≠ 0`. -/
def DivRule : BRule α :=
  ⟨fun a b => _safe_div a b,
   fun _ b => if b ≠ 0 then 1 / b else 0,
   fun a b => if b ≠ 0 then -a / (b * b) else 0,
   fun _ _ => 0,
   fun _ b => if b ≠ 0 then -1 / (b * b) else 0,
   fun a b => if b ≠ 0 then 2 * a / (b * b * b) else 0⟩

/-! ## Generic unary plumbing (`UnaryOp`, lines 71-118) -/

/-- `UnaryOp::forward` (line 74). -/
def UnaryOp.forward (R : URule α) (j : Nat) (g : ADGraph α) : ADGraph α :=
  match (getN g j).inputs with
  | [some ai] => setVal g j (R.f (getN g ai).value)
  | _ => g

/-- `UnaryOp::forward_dot` (line 82), generic path (no custom rule dot). -/
def UnaryOp.forward_dot (R : URule α) (j : Nat) (g : ADGraph α) : ADGraph α :=
  match (getN g j).inputs with
  | [some ai] => touchVal (setDot g j (R.df (getN g ai).value * (getN g ai).dot)) j
  | _ => g

/-- `UnaryOp::backward` (line 97). -/
def UnaryOp.backward (R : URule α) (j : Nat) (g : ADGraph α) : ADGraph α :=
  match (getN g j).inputs with
  | [some ai] => accGrad g ai ((getN g j).gradient * R.df (getN g ai).value)
  | _ => g

/-- `UnaryOp::hvp_backward` (line 105): ensure both references, then the two
compound adds, reads sequenced as in the source. -/
def UnaryOp.hvp_backward (R : URule α) (j : Nat) (g : ADGraph α) : ADGraph α :=
  match (getN g j).inputs with
  | [some ai] =>
      let g1 := ensGrad g ai
      let g2 := ensGDot g1 ai
      let x := (getN g2 ai).value
      let xdot := (getN g2 ai).dot
      let df := R.df x
      let d2 := R.d2 x
      let g3 := addGrad g2 ai ((getN g2 j).gradient * df)
      addGDot g3 ai ((getN g3 j).grad_dot * df + (getN g3 j).gradient * d2 * xdot)
  | _ => g

/-- `LogRule::forward_dot` (line 162): custom dot avoiding a recomputed log,
invoked under the template's `_unary_ok` guard. -/
def LogOp.forward_dot (j : Nat) (g : ADGraph α) : ADGraph α :=
  match (getN g j).inputs with
  | [some ai] =>
      let x := (getN g ai).value
      touchVal (setDot g j (if x ≠ 0 then (getN g ai).dot / x else 0)) j
  | _ => g

/-- `TanRule::forward_dot` (line 182): custom dot with the cos guard. -/
def TanOp.forward_dot (fs : RealFuns α) (j : Nat) (g : ADGraph α) : ADGraph α :=
  match (getN g j).inputs with
  | [some ai] =>
      let c := fs.cosF (getN g ai).value
      touchVal (setDot g j (if c ≠ 0 then (getN g ai).dot / (c * c) else 0)) j
  | _ => g

/-! ## Generic binary plumbing (`BinaryOp`, lines 404-468) -/

/-- `BinaryOp::forward` (line 407). -/
def BinaryOp.forward (R : BRule α) (j : Nat) (g : ADGraph α) : ADGraph α :=
  match (getN g j).inputs with
  | [some ai, some bi] => setVal g j (R.f (getN g ai).value (getN g bi).value)
  | _ => g

/-- `BinaryOp::forward_dot` (line 415), generic path. -/
def BinaryOp.forward_dot (R : BRule α) (j : Nat) (g : ADGraph α) : ADGraph α :=
  match (getN g j).inputs with
  | [some ai, some bi] =>
      let A := (getN g ai).value
      let B := (getN g bi).value
      touchVal (setDot g j (R.dfa A B * (getN g ai).dot + R.dfb A B * (getN g bi).dot)) j
  | _ => g

/-- `BinaryOp::backward` (line 431): `A`, `B`, `w` are snapshotted, then the two
accumulations run in order. -/
def BinaryOp.backward (R : BRule α) (j : Nat) (g : ADGraph α) : ADGraph α :=
  match (getN g j).inputs with
  | [some ai, some bi] =>
      let A := (getN g ai).value
      let B := (getN g bi).value
      let w := (getN g j).gradient
      accGrad (accGrad g ai (w * R.dfa A B)) bi (w * R.dfb A B)
  | _ => g

/-- `BinaryOp::hvp_backward` (line 442): ensure `ga, gb, gda, gdb` in order,
snapshot `w, wd`, then the four compound adds. -/
def BinaryOp.hvp_backward (R : BRule α) (j : Nat) (g : ADGraph α) : ADGraph α :=
  match (getN g j).inputs with
  | [some ai, some bi] =>
      let A := (getN g ai).value
      let B := (getN g bi).value
      let Ad := (getN g ai).dot
      let Bd := (getN g bi).dot
      let g1 := ensGDot (ensGDot (ensGrad (ensGrad g ai) bi) ai) bi
      let w := (getN g1 j).gradient
      let wd := (getN g1 j).grad_dot
      let g2 := addGrad g1 ai (w * R.dfa A B)
      let g3 := addGrad g2 bi (w * R.dfb A B)
      let g4 := addGDot g3 ai (wd * R.dfa A B + w * (R.d2aa A B * Ad + R.d2ab A B * Bd))
      addGDot g4 bi (wd * R.dfb A B + w * (R.d2ab A B * Ad + R.d2bb A B * Bd))
  | _ => g

/-- `DivRule::forward_dot` (line 503): custom `(ȧ·b − a·ḃ)/b²` with guard. -/
def DivOp.forward_dot (j : Nat) (g : ADGraph α) : ADGraph α :=
  match (getN g j).inputs with
  | [some ai, some bi] =>
      let d := (getN g bi).value
      touchVal
        (setDot g j
          (if d ≠ 0 then ((getN g ai).dot * d - (getN g ai).value * (getN g bi).dot) / (d * d)
           else 0)) j
  | _ => g

/-! ## Nullary ops (`cte`, `Var`, lines 32-55) -/

/-- `OpTraits<cte>::forward` (line 34). -/
def CteOp.forward (j : Nat) (g : ADGraph α) : ADGraph α := touchVal g j

/-- `OpTraits<cte>::forward_dot` (line 37): touch dot epoch then val epoch. -/
def CteOp.forward_dot (j : Nat) (g : ADGraph α) : ADGraph α := touchVal (touchDot g j) j

/-- `OpTraits<Var>::forward` (line 46). -/
def VarOp.forward (j : Nat) (g : ADGraph α) : ADGraph α := touchVal g j

/-- `OpTraits<Var>::forward_dot` (line 49). -/
def VarOp.forward_dot (j : Nat) (g : ADGraph α) : ADGraph α := touchVal (touchDot g j) j

/-! ## N-ary sum (`OpTraits<Add>`, lines 524-560) -/

/-- `OpTraits<Add>::forward` (line 526): sum all input values. -/
def AddOp.forward (j : Nat) (g : ADGraph α) : ADGraph α :=
  if _nary_ok (getN g j) then
    setVal g j ((getN g j).inputs.foldl (fun s r => s + (deref g r).value) 0)
  else g

/-- `OpTraits<Add>::forward_dot` (line 534): sum all input tangents. -/
def AddOp.forward_dot (j : Nat) (g : ADGraph α) : ADGraph α :=
  if _nary_ok (getN g j) then
    touchVal (setDot g j ((getN g j).inputs.foldl (fun sd r => sd + (deref g r).dot) 0)) j
  else g

/-- `OpTraits<Add>::backward` (line 543): broadcast `n.gradient` to every input
(`n.gradient` is read inside the loop, at each accumulation). -/
def AddOp.backward (j : Nat) (g : ADGraph α) : ADGraph α :=
  if _nary_ok (getN g j) then
    (getN g j).inputs.foldl (fun h r => accGradO h r (getN h j).gradient) g
  else g

/-- `OpTraits<Add>::hvp_backward` (line 550): additionally broadcast
`n.grad_dot` to every input's grad_dot. -/
def AddOp.hvp_backward (j : Nat) (g : ADGraph α) : ADGraph α :=
  if _nary_ok (getN g j) then
    (getN g j).inputs.foldl
      (fun h r =>
        let h1 := accGradO h r (getN h j).gradient
        accGDotO h1 r (getN h1 j).grad_dot)
      g
  else g

/-! ## N-ary multiply (`OpTraits<Multiply>`, lines 565-725) -/

/-- `build_prefix_suffix` (line 585), `pre` half: `pre[0]=1, pre[i+1]=pre[i]*vals[i]`. -/
def preList (vals : List α) : List α := List.scanl (fun p v => p * v) 1 vals

/-- `build_prefix_suffix` (line 585), `suf` half: `suf[m]=1, suf[i]=suf[i+1]*vals[i]`. -/
def sufList : List α → List α
  | [] => [1]
  | v :: vs =>
      let s := sufList vs
      (s.headD 1 * v) :: s

/-- `OpTraits<Multiply>::forward` (line 597): product of all input values. -/
def MulOp.forward (j : Nat) (g : ADGraph α) : ADGraph α :=
  if _nary_ok (getN g j) then
    setVal g j ((getN g j).inputs.foldl (fun p r => p * (deref g r).value) 1)
  else g

/-- `OpTraits<Multiply>::forward_dot` (line 605): `Σᵢ ẋᵢ·pre[i]·suf[i+1]`. -/
def MulOp.forward_dot (j : Nat) (g : ADGraph α) : ADGraph α :=
  if _nary_ok (getN g j) then
    let vals := (getN g j).inputs.map fun r => (deref g r).value
    let dots := (getN g j).inputs.map fun r => (deref g r).dot
    let pre := preList vals
    let suf := sufList vals
    let m := (getN g j).inputs.length
    let ds := (List.range m).foldl
      (fun ds i => ds + dots.getD i 0 * pre.getD i 1 * suf.getD (i + 1) 1) 0
    touchVal (setDot g j ds) j
  else g

/-- `OpTraits<Multiply>::backward` (line 626): `+= n.gradient · pre[i]·suf[i+1]`
(`n.gradient` read inside the loop). -/
def MulOp.backward (j : Nat) (g : ADGraph α) : ADGraph α :=
  if _nary_ok (getN g j) then
    let vals := (getN g j).inputs.map fun r => (deref g r).value
    let pre := preList vals
    let suf := sufList vals
    let m := (getN g j).inputs.length
    (List.range m).foldl
      (fun h i =>
        accGradO h ((getN g j).inputs.getD i none)
          ((getN h j).gradient * (pre.getD i 1 * suf.getD (i + 1) 1)))
      g
  else g

/-- The `mid_prod` inner loop of `OpTraits<Multiply>::hvp_backward`
(lines 701-706): multiply the segment, breaking early once the product is 0. -/
def midProdGo (vals : List α) : List Nat → α → α
  | [], acc => acc
  | t :: ts, acc =>
      let acc' := acc * vals.getD t 0
      if acc' = 0 then acc' else midProdGo vals ts acc'

/-- The excluded-segment product `vₐ₊₁·…·v_{b−1}` with the source's early exit. -/
def midProd (vals : List α) (a b : Nat) : α :=
  midProdGo vals (List.range' (a + 1) (b - (a + 1))) 1

/-- `OpTraits<Multiply>::hvp_backward` (line 643): binary fast path for `m = 2`,
general division-free path otherwise. -/
def MulOp.hvp_backward (j : Nat) (g : ADGraph α) : ADGraph α :=
  if _nary_ok (getN g j) then
    if (getN g j).inputs.length = 2 then
      let a := (getN g j).inputs.getD 0 none
      let b := (getN g j).inputs.getD 1 none
      let aval := (deref g a).value
      let bval := (deref g b).value
      let adot := (deref g a).dot
      let bdot := (deref g b).dot
      let ybar := (getN g j).gradient
      let ybdot := (getN g j).grad_dot
      let g1 := ensGDotO (ensGDotO (ensGradO (ensGradO g a) b) a) b
      let g2 := addGradO g1 a (ybar * bval)
      let g3 := addGradO g2 b (ybar * aval)
      let g4 := addGDotO g3 a (ybdot * bval + ybar * bdot)
      addGDotO g4 b (ybdot * aval + ybar * adot)
    else
      let m := (getN g j).inputs.length
      let vals := (getN g j).inputs.map fun r => (deref g r).value
      let dots := (getN g j).inputs.map fun r => (deref g r).dot
      let pre := preList vals
      let suf := sufList vals
      (List.range m).foldl
        (fun h i =>
          let P := pre.getD i 1 * suf.getD (i + 1) 1
          let sum_term := (List.range m).foldl
            (fun s k =>
              if k = i then s
              else
                let a := if i < k then i else k
                let b := if i < k then k else i
                s + dots.getD k 0 * (pre.getD a 1 * midProd vals a b * suf.getD (b + 1) 1))
            0
          let r := (getN g j).inputs.getD i none
          let h1 := ensGDotO (ensGradO h r) r
          let h2 := addGradO h1 r ((getN h1 j).gradient * P)
          addGDotO h2 r ((getN h2 j).grad_dot * P + (getN h2 j).gradient * sum_term))
        g
  else g

/-! ## Softmax (`OpTraits<Softmax>`, lines 258-367) -/

/-- The `xmax` scan (lines 269-270): the source initialises to `-∞` and takes
strict-greater updates; on the nonempty lists admitted by `_nary_ok` this is the
fold below seeded with the first element. -/
def xmaxOf : List α → α
  | [] => 0
  | v :: vs => vs.foldl (fun m x => if x > m then x else m) v

/-- The stable softmax vector recomputed identically in `forward_dot`,
`backward` and `hvp_backward` (lines 284-291, 307-313, 332-338):
`eᵢ = exp(xᵢ − xmax)`, `Z = Σ eᵢ` replaced by 1 if `Z ≤ 0`, `yᵢ = eᵢ / Z`. -/
def softmaxY (fs : RealFuns α) (x : List α) : List α :=
  let xmax := xmaxOf x
  let e := x.map fun v => fs.expF (v - xmax)
  let Z0 := e.foldl (· + ·) 0
  let Z := if Z0 ≤ 0 then 1 else Z0
  e.map fun v => v / Z

/-- `OpTraits<Softmax>::forward` (line 265): `exp(x₀−xmax) / (Z > 0 ? Z : 1)`. -/
def SoftmaxOp.forward (fs : RealFuns α) (j : Nat) (g : ADGraph α) : ADGraph α :=
  if _nary_ok (getN g j) then
    let x := (getN g j).inputs.map fun r => (deref g r).value
    let xmax := xmaxOf x
    let Z := x.foldl (fun z v => z + fs.expF (v - xmax)) 0
    setVal g j (fs.expF (x.getD 0 0 - xmax) / (if Z > 0 then Z else 1))
  else g

/-- `OpTraits<Softmax>::forward_dot` (line 277): `n.dot = y₀·(ẋ₀ − Σⱼ yⱼẋⱼ)`. -/
def SoftmaxOp.forward_dot (fs : RealFuns α) (j : Nat) (g : ADGraph α) : ADGraph α :=
  if _nary_ok (getN g j) then
    let x := (getN g j).inputs.map fun r => (deref g r).value
    let xd := (getN g j).inputs.map fun r => (deref g r).dot
    let y := softmaxY fs x
    let yi := y.getD 0 0
    let m := (getN g j).inputs.length
    let sdot := (List.range m).foldl (fun s k => s + y.getD k 0 * xd.getD k 0) 0
    touchVal (setDot g j (yi * (xd.getD 0 0 - sdot))) j
  else g

/-- `OpTraits<Softmax>::backward` (line 301): `∂y₀/∂xₖ = y₀(δ₀ₖ − yₖ)`,
accumulated with the snapshotted weight `w = n.gradient`. -/
def SoftmaxOp.backward (fs : RealFuns α) (j : Nat) (g : ADGraph α) : ADGraph α :=
  if _nary_ok (getN g j) then
    let x := (getN g j).inputs.map fun r => (deref g r).value
    let y := softmaxY fs x
    let yi := y.getD 0 0
    let w := (getN g j).gradient
    let m := (getN g j).inputs.length
    (List.range m).foldl
      (fun h k =>
        let dfk := yi * (if k = 0 then 1 else 0) - yi * y.getD k 0
        accGradO h ((getN g j).inputs.getD k none) (w * dfk))
      g
  else g

/-- `OpTraits<Softmax>::hvp_backward` (line 325): first-order term plus the
Hessian-vector column, with `w`, `wd` snapshotted before the loop. -/
def SoftmaxOp.hvp_backward (fs : RealFuns α) (j : Nat) (g : ADGraph α) : ADGraph α :=
  if _nary_ok (getN g j) then
    let x := (getN g j).inputs.map fun r => (deref g r).value
    let xd := (getN g j).inputs.map fun r => (deref g r).dot
    let y := softmaxY fs x
    let yi := y.getD 0 0
    let w := (getN g j).gradient
    let wd := (getN g j).grad_dot
    let m := (getN g j).inputs.length
    let sdot := (List.range m).foldl (fun s k => s + y.getD k 0 * xd.getD k 0) 0
    (List.range m).foldl
      (fun h k =>
        let dfk := yi * (if k = 0 then 1 else 0) - yi * y.getD k 0
        let Hvk :=
          if k = 0 then yi * (1 - 2 * yi) * (xd.getD 0 0 - sdot)
          else yi * y.getD k 0 * (2 * sdot - xd.getD 0 0 - xd.getD k 0)
        let r := (getN g j).inputs.getD k none
        let h1 := ensGDotO (ensGradO h r) r
        let h2 := addGradO h1 r (w * dfk)
        addGDotO h2 r (wd * dfk + w * Hvk))
      g
  else g

/-! ## Max (`OpTraits<Max>`, lines 730-774) -/

/-- `OpTraits<Max>::forward` (line 732): `a >= b ? a : b` — tie to the first. -/
def MaxOp.forward (j : Nat) (g : ADGraph α) : ADGraph α :=
  match (getN g j).inputs with
  | [some ai, some bi] =>
      let a := (getN g ai).value
      let b := (getN g bi).value
      setVal g j (if a ≥ b then a else b)
  | _ => g

/-- `OpTraits<Max>::forward_dot` (line 739): route the winner's tangent. -/
def MaxOp.forward_dot (j : Nat) (g : ADGraph α) : ADGraph α :=
  match (getN g j).inputs with
  | [some ai, some bi] =>
      touchVal
        (setDot g j
          (if (getN g ai).value ≥ (getN g bi).value then (getN g ai).dot else (getN g bi).dot)) j
  | _ => g

/-- `OpTraits<Max>::backward` (line 747): accumulate `n.gradient` into the
winner only. -/
def MaxOp.backward (j : Nat) (g : ADGraph α) : ADGraph α :=
  match (getN g j).inputs with
  | [some ai, some bi] =>
      if (getN g ai).value ≥ (getN g bi).value then accGrad g ai (getN g j).gradient
      else accGrad g bi (getN g j).gradient
  | _ => g

/-- `OpTraits<Max>::hvp_backward` (line 758): gradient and grad_dot both go to
the winner only. -/
def MaxOp.hvp_backward (j : Nat) (g : ADGraph α) : ADGraph α :=
  match (getN g j).inputs with
  | [some ai, some bi] =>
      if (getN g ai).value ≥ (getN g bi).value then
        let h1 := accGrad g ai (getN g j).gradient
        accGDot h1 ai (getN h1 j).grad_dot
      else
        let h1 := accGrad g bi (getN g j).gradient
        accGDot h1 bi (getN h1 j).grad_dot
  | _ => g

/-! ## Dispatch (closed-set switch per pass) and `op_name` -/

/-- Dispatch of the `forward` pass on the node's operator tag; unknown tags hit
the no-op primary template (lines 23-29). -/
def forwardStep (fs : RealFuns α) (j : Nat) (g : ADGraph α) : ADGraph α :=
  match (getN g j).op with
  | .cte => CteOp.forward j g
  | .Var => VarOp.forward j g
  | .Add => AddOp.forward j g
  | .Subtract => BinaryOp.forward SubRule j g
  | .Multiply => MulOp.forward j g
  | .Divide => BinaryOp.forward DivRule j g
  | .Sin => UnaryOp.forward (SinRule fs) j g
  | .Cos => UnaryOp.forward (CosRule fs) j g
  | .Tan => UnaryOp.forward (TanRule fs) j g
  | .Exp => UnaryOp.forward (ExpRule fs) j g
  | .Log => UnaryOp.forward (LogRule fs) j g
  | .Max => MaxOp.forward j g
  | .Tanh => UnaryOp.forward (TanhRule fs) j g
  | .Silu => UnaryOp.forward (SiLURule fs) j g
  | .Gelu => UnaryOp.forward (GELURule fs) j g
  | .Relu => UnaryOp.forward ReluRule j g
  | .Softmax => SoftmaxOp.forward fs j g
  | .other _ => g

/-- Dispatch of the `forward_dot` pass; `Log`, `Tan`, `Divide` use their custom
rule dots (the `requires` fast path of the templates). -/
def dotStep (fs : RealFuns α) (j : Nat) (g : ADGraph α) : ADGraph α :=
  match (getN g j).op with
  | .cte => CteOp.forward_dot j g
  | .Var => VarOp.forward_dot j g
  | .Add => AddOp.forward_dot j g
  | .Subtract => BinaryOp.forward_dot SubRule j g
  | .Multiply => MulOp.forward_dot j g
  | .Divide => DivOp.forward_dot j g
  | .Sin => UnaryOp.forward_dot (SinRule fs) j g
  | .Cos => UnaryOp.forward_dot (CosRule fs) j g
  | .Tan => TanOp.forward_dot fs j g
  | .Exp => UnaryOp.forward_dot (ExpRule fs) j g
  | .Log => LogOp.forward_dot j g
  | .Max => MaxOp.forward_dot j g
  | .Tanh => UnaryOp.forward_dot (TanhRule fs) j g
  | .Silu => UnaryOp.forward_dot (SiLURule fs) j g
  | .Gelu => UnaryOp.forward_dot (GELURule fs) j g
  | .Relu => UnaryOp.forward_dot ReluRule j g
  | .Softmax => SoftmaxOp.forward_dot fs j g
  | .other _ => g

/-- Dispatch of the `backward` pass. -/
def backStep (fs : RealFuns α) (j : Nat) (g : ADGraph α) : ADGraph α :=
  match (getN g j).op with
  | .cte => g
  | .Var => g
  | .Add => AddOp.backward j g
  | .Subtract => BinaryOp.backward SubRule j g
  | .Multiply => MulOp.backward j g
  | .Divide => BinaryOp.backward DivRule j g
  | .Sin => UnaryOp.backward (SinRule fs) j g
  | .Cos => UnaryOp.backward (CosRule fs) j g
  | .Tan => UnaryOp.backward (TanRule fs) j g
  | .Exp => UnaryOp.backward (ExpRule fs) j g
  | .Log => UnaryOp.backward (LogRule fs) j g
  | .Max => MaxOp.backward j g
  | .Tanh => UnaryOp.backward (TanhRule fs) j g
  | .Silu => UnaryOp.backward (SiLURule fs) j g
  | .Gelu => UnaryOp.backward (GELURule fs) j g
  | .Relu => UnaryOp.backward ReluRule j g
  | .Softmax => SoftmaxOp.backward fs j g
  | .other _ => g

/-- Dispatch of the `hvp_backward` pass. -/
def hvpStep (fs : RealFuns α) (j : Nat) (g : ADGraph α) : ADGraph α :=
  match (getN g j).op with
  | .cte => g
  | .Var => g
  | .Add => AddOp.hvp_backward j g
  | .Subtract => BinaryOp.hvp_backward SubRule j g
  | .Multiply => MulOp.hvp_backward j g
  | .Divide => BinaryOp.hvp_backward DivRule j g
  | .Sin => UnaryOp.hvp_backward (SinRule fs) j g
  | .Cos => UnaryOp.hvp_backward (CosRule fs) j g
  | .Tan => UnaryOp.hvp_backward (TanRule fs) j g
  | .Exp => UnaryOp.hvp_backward (ExpRule fs) j g
  | .Log => UnaryOp.hvp_backward (LogRule fs) j g
  | .Max => MaxOp.hvp_backward j g
  | .Tanh => UnaryOp.hvp_backward (TanhRule fs) j g
  | .Silu => UnaryOp.hvp_backward (SiLURule fs) j g
  | .Gelu => UnaryOp.hvp_backward (GELURule fs) j g
  | .Relu => UnaryOp.hvp_backward ReluRule j g
  | .Softmax => SoftmaxOp.hvp_backward fs j g
  | .other _ => g

/-- The four pass entry points, as one dispatchable kind. -/
inductive PassKind where
  | fwd | fwdDot | bwd | hvp
deriving DecidableEq

/-- Run one pass function on one node. -/
def runPass (fs : RealFuns α) : PassKind → Nat → ADGraph α → ADGraph α
  | .fwd => forwardStep fs
  | .fwdDot => dotStep fs
  | .bwd => backStep fs
  | .hvp => hvpStep fs

/-- `op_name` (line 779): closed switch over the tag, default "unknown". -/
def op_name : Operator → String
  | .Add => "add"
  | .Subtract => "subtract"
  | .Multiply => "multiply"
  | .Divide => "divide"
  | .Sin => "sin"
  | .Cos => "cos"
  | .Tan => "tan"
  | .Exp => "exp"
  | .Log => "log"
  | .Max => "max"
  | .Var => "var"
  | .cte => "cte"
  | .Tanh => "tanh"
  | .Silu => "silu"
  | .Gelu => "gelu"
  | .Relu => "relu"
  | .Softmax => "softmax"
  | .other _ => "unknown"

/-! ## The external scheduler's pass loops (modelled from the spec) -/

/-- Modelled from the spec: the external scheduler's forward sweep — visit the
nodes in topological order (indices ascending, inputs pointing downward). -/
def fwdSweep (fs : RealFuns α) (g : ADGraph α) : ADGraph α :=
  (List.range g.nodes.length).foldl (fun h j => forwardStep fs j h) g

/-- Modelled from the spec: the forward pass — bump the value counter, sweep. -/
def forwardPass (fs : RealFuns α) (g : ADGraph α) : ADGraph α :=
  fwdSweep fs { g with cur_val_epoch_ := g.cur_val_epoch_ + 1 }

/-- Modelled from the spec: the tangent sweep in topological order. -/
def dotSweep (fs : RealFuns α) (g : ADGraph α) : ADGraph α :=
  (List.range g.nodes.length).foldl (fun h j => dotStep fs j h) g

/-- Modelled from the spec: the forward_dot pass — bump the dot counter, sweep. -/
def dotPass (fs : RealFuns α) (g : ADGraph α) : ADGraph α :=
  dotSweep fs { g with cur_dot_epoch_ := g.cur_dot_epoch_ + 1 }

/-- Modelled from the spec: reverse-topological backward sweep — process node
`j`, then `j-1`, …, then `0`. -/
def revSweepAux (fs : RealFuns α) : Nat → ADGraph α → ADGraph α
  | 0, g => backStep fs 0 g
  | j + 1, g => revSweepAux fs j (backStep fs (j + 1) g)

/-- Modelled from the spec: the backward pass over a graph whose single output
is its last node — bump the gradient counter, seed `gradient_output = 1` through
`set_epoch_value`, then sweep in reverse topological order. -/
def backwardPass (fs : RealFuns α) (g : ADGraph α) : ADGraph α :=
  let g1 : ADGraph α := { g with cur_grad_epoch_ := g.cur_grad_epoch_ + 1 }
  let g2 := updN g1 (g1.nodes.length - 1) fun nd =>
    { nd with gradient := (set_epoch_value nd.gradient nd.grad_epoch g1.cur_grad_epoch_ 1).1,
              grad_epoch := (set_epoch_value nd.gradient nd.grad_epoch g1.cur_grad_epoch_ 1).2 }
  revSweepAux fs (g1.nodes.length - 1) g2

end ChompAD

/-! ## Basic lemmas on graph updates -/

namespace ChompAD

variable {α : Type} [LinearOrderedField α]

theorem length_updN (g : ADGraph α) (i : Nat) (f : ADNode α → ADNode α) :
    (updN g i f).nodes.length = g.nodes.length := List.length_set ..

theorem getN_updN (g : ADGraph α) (i : Nat) (f : ADNode α → ADNode α) (k : Nat) :
    getN (updN g i f) k =
      if i = k ∧ i < g.nodes.length then f (getN g i) else getN g k := by
  unfold getN updN
  simp only [List.getD_eq_getElem?_getD, List.getElem?_set]
  by_cases hik : i = k
  · subst hik
    by_cases hlen : i < g.nodes.length
    · have hg : getN g i = g.nodes[i] := by
        simp [getN, List.getD_eq_getElem?_getD, List.getElem?_eq_getElem hlen]
      simp [hlen, hg]
    · simp [hlen, List.getElem?_eq_none (Nat.le_of_not_lt hlen)]
  · simp [hik]

theorem getN_updN_self {g : ADGraph α} {i : Nat} {f : ADNode α → ADNode α}
    (h : i < g.nodes.length) : getN (updN g i f) i = f (getN g i) := by
  rw [getN_updN]; simp [h]

theorem getN_updN_ne {g : ADGraph α} {i : Nat} {f : ADNode α → ADNode α} {k : Nat}
    (h : i ≠ k) : getN (updN g i f) k = getN g k := by
  rw [getN_updN]; simp [h]

theorem updN_of_length_le {g : ADGraph α} {i : Nat} (f : ADNode α → ADNode α)
    (h : g.nodes.length ≤ i) : updN g i f = g := by
  unfold updN
  cases g with
  | mk nodes a b c d => simp [List.set_eq_of_length_le h]

@[simp] theorem updN_cur_val (g : ADGraph α) (i : Nat) (f : ADNode α → ADNode α) :
    (updN g i f).cur_val_epoch_ = g.cur_val_epoch_ := rfl

@[simp] theorem updN_cur_dot (g : ADGraph α) (i : Nat) (f : ADNode α → ADNode α) :
    (updN g i f).cur_dot_epoch_ = g.cur_dot_epoch_ := rfl

@[simp] theorem updN_cur_grad (g : ADGraph α) (i : Nat) (f : ADNode α → ADNode α) :
    (updN g i f).cur_grad_epoch_ = g.cur_grad_epoch_ := rfl

@[simp] theorem updN_cur_gdot (g : ADGraph α) (i : Nat) (f : ADNode α → ADNode α) :
    (updN g i f).cur_gdot_epoch_ = g.cur_gdot_epoch_ := rfl

/-- Structural frame: same length, same counters, same op and inputs per node. -/
def SameStruct (g g' : ADGraph α) : Prop :=
  g'.nodes.length = g.nodes.length ∧
  g'.cur_val_epoch_ = g.cur_val_epoch_ ∧
  g'.cur_dot_epoch_ = g.cur_dot_epoch_ ∧
  g'.cur_grad_epoch_ = g.cur_grad_epoch_ ∧
  g'.cur_gdot_epoch_ = g.cur_gdot_epoch_ ∧
  ∀ k, (getN g' k).op = (getN g k).op ∧ (getN g' k).inputs = (getN g k).inputs

def SameStruct.refl (g : ADGraph α) : SameStruct g g :=
  ⟨rfl, rfl, rfl, rfl, rfl, fun _ => ⟨rfl, rfl⟩⟩

def SameStruct.trans {g1 g2 g3 : ADGraph α}
    (h12 : SameStruct g1 g2) (h23 : SameStruct g2 g3) : SameStruct g1 g3 := by
  obtain ⟨l12, v12, d12, r12, t12, n12⟩ := h12
  obtain ⟨l23, v23, d23, r23, t23, n23⟩ := h23
  exact ⟨l23.trans l12, v23.trans v12, d23.trans d12, r23.trans r12, t23.trans t12,
    fun k => ⟨(n23 k).1.trans (n12 k).1, (n23 k).2.trans (n12 k).2⟩⟩

theorem sameStruct_updN (g : ADGraph α) (i : Nat) (f : ADNode α → ADNode α)
    (hf : ∀ nd, (f nd).op = nd.op ∧ (f nd).inputs = nd.inputs) :
    SameStruct g (updN g i f) := by
  refine ⟨length_updN g i f, rfl, rfl, rfl, rfl, fun k => ?_⟩
  rw [getN_updN]
  split
  next h => obtain ⟨hik, _⟩ := h; subst hik; exact hf _
  next => exact ⟨rfl, rfl⟩

/-- Value/dot frame: the reverse passes do not touch primal or tangent slots. -/
def SameVD (g g' : ADGraph α) : Prop :=
  ∀ k, (getN g' k).value = (getN g k).value ∧ (getN g' k).dot = (getN g k).dot ∧
       (getN g' k).val_epoch = (getN g k).val_epoch ∧
       (getN g' k).dot_epoch = (getN g k).dot_epoch

def SameVD.refl (g : ADGraph α) : SameVD g g := fun _ => ⟨rfl, rfl, rfl, rfl⟩

def SameVD.trans {g1 g2 g3 : ADGraph α}
    (h12 : SameVD g1 g2) (h23 : SameVD g2 g3) : SameVD g1 g3 := fun k =>
  ⟨((h23 k).1).trans (h12 k).1, ((h23 k).2.1).trans (h12 k).2.1,
   ((h23 k).2.2.1).trans (h12 k).2.2.1, ((h23 k).2.2.2).trans (h12 k).2.2.2⟩

theorem sameVD_updN (g : ADGraph α) (i : Nat) (f : ADNode α → ADNode α)
    (hf : ∀ nd, (f nd).value = nd.value ∧ (f nd).dot = nd.dot ∧
      (f nd).val_epoch = nd.val_epoch ∧ (f nd).dot_epoch = nd.dot_epoch) :
    SameVD g (updN g i f) := by
  intro k
  rw [getN_updN]
  split
  next h => obtain ⟨hik, _⟩ := h; subst hik; exact hf _
  next => exact ⟨rfl, rfl, rfl, rfl⟩

/-- Gradient frame: the forward passes do not touch adjoint slots. -/
def SameGrads (g g' : ADGraph α) : Prop :=
  ∀ k, (getN g' k).gradient = (getN g k).gradient ∧
       (getN g' k).grad_dot = (getN g k).grad_dot ∧
       (getN g' k).grad_epoch = (getN g k).grad_epoch ∧
       (getN g' k).gdot_epoch = (getN g k).gdot_epoch

def SameGrads.refl (g : ADGraph α) : SameGrads g g := fun _ => ⟨rfl, rfl, rfl, rfl⟩

def SameGrads.trans {g1 g2 g3 : ADGraph α}
    (h12 : SameGrads g1 g2) (h23 : SameGrads g2 g3) : SameGrads g1 g3 := fun k =>
  ⟨((h23 k).1).trans (h12 k).1, ((h23 k).2.1).trans (h12 k).2.1,
   ((h23 k).2.2.1).trans (h12 k).2.2.1, ((h23 k).2.2.2).trans (h12 k).2.2.2⟩

theorem sameGrads_updN (g : ADGraph α) (i : Nat) (f : ADNode α → ADNode α)
    (hf : ∀ nd, (f nd).gradient = nd.gradient ∧ (f nd).grad_dot = nd.grad_dot ∧
      (f nd).grad_epoch = nd.grad_epoch ∧ (f nd).gdot_epoch = nd.gdot_epoch) :
    SameGrads g (updN g i f) := by
  intro k
  rw [getN_updN]
  split
  next h => obtain ⟨hik, _⟩ := h; subst hik; exact hf _
  next => exact ⟨rfl, rfl, rfl, rfl⟩

/-- Fold a step function that preserves a reflexive-transitive relation. -/
theorem foldl_pres {β : Type} {P : ADGraph α → ADGraph α → Prop}
    (htrans : ∀ {a b c : ADGraph α}, P a b → P b c → P a c)
    (hrefl : ∀ a : ADGraph α, P a a)
    (l : List β) (step : ADGraph α → β → ADGraph α)
    (hstep : ∀ h x, x ∈ l → P h (step h x)) (g : ADGraph α) :
    P g (l.foldl step g) := by
  induction l generalizing g with
  | nil => exact hrefl g
  | cons x xs ih =>
      exact htrans (hstep g x (by simp))
        (ih (fun h y hy => hstep h y (by simp [hy])) (step g x))

end ChompAD

/-! ## Frame lemmas for the write primitives -/

namespace ChompAD

variable {α : Type} [LinearOrderedField α]

theorem sameStruct_setVal (g : ADGraph α) (j : Nat) (v : α) :
    SameStruct g (setVal g j v) := sameStruct_updN _ _ _ fun _ => ⟨rfl, rfl⟩

theorem sameStruct_setDot (g : ADGraph α) (j : Nat) (v : α) :
    SameStruct g (setDot g j v) := sameStruct_updN _ _ _ fun _ => ⟨rfl, rfl⟩

theorem sameStruct_touchVal (g : ADGraph α) (j : Nat) :
    SameStruct g (touchVal g j) := sameStruct_updN _ _ _ fun _ => ⟨rfl, rfl⟩

theorem sameStruct_touchDot (g : ADGraph α) (j : Nat) :
    SameStruct g (touchDot g j) := sameStruct_updN _ _ _ fun _ => ⟨rfl, rfl⟩

theorem sameStruct_ensGrad (g : ADGraph α) (i : Nat) :
    SameStruct g (ensGrad g i) := sameStruct_updN _ _ _ fun _ => ⟨rfl, rfl⟩

theorem sameStruct_ensGDot (g : ADGraph α) (i : Nat) :
    SameStruct g (ensGDot g i) := sameStruct_updN _ _ _ fun _ => ⟨rfl, rfl⟩

theorem sameStruct_addGrad (g : ADGraph α) (i : Nat) (d : α) :
    SameStruct g (addGrad g i d) := sameStruct_updN _ _ _ fun _ => ⟨rfl, rfl⟩

theorem sameStruct_addGDot (g : ADGraph α) (i : Nat) (d : α) :
    SameStruct g (addGDot g i d) := sameStruct_updN _ _ _ fun _ => ⟨rfl, rfl⟩

theorem sameStruct_accGrad (g : ADGraph α) (i : Nat) (d : α) :
    SameStruct g (accGrad g i d) :=
  (sameStruct_ensGrad g i).trans (sameStruct_addGrad _ i d)

theorem sameStruct_accGDot (g : ADGraph α) (i : Nat) (d : α) :
    SameStruct g (accGDot g i d) :=
  (sameStruct_ensGDot g i).trans (sameStruct_addGDot _ i d)

theorem sameStruct_accGradO (g : ADGraph α) (r : Option Nat) (d : α) :
    SameStruct g (accGradO g r d) := by
  cases r with
  | some i => exact sameStruct_accGrad g i d
  | none => exact SameStruct.refl g

theorem sameStruct_accGDotO (g : ADGraph α) (r : Option Nat) (d : α) :
    SameStruct g (accGDotO g r d) := by
  cases r with
  | some i => exact sameStruct_accGDot g i d
  | none => exact SameStruct.refl g

theorem sameStruct_ensGradO (g : ADGraph α) (r : Option Nat) :
    SameStruct g (ensGradO g r) := by
  cases r with
  | some i => exact sameStruct_ensGrad g i
  | none => exact SameStruct.refl g

theorem sameStruct_ensGDotO (g : ADGraph α) (r : Option Nat) :
    SameStruct g (ensGDotO g r) := by
  cases r with
  | some i => exact sameStruct_ensGDot g i
  | none => exact SameStruct.refl g

theorem sameStruct_addGradO (g : ADGraph α) (r : Option Nat) (d : α) :
    SameStruct g (addGradO g r d) := by
  cases r with
  | some i => exact sameStruct_addGrad g i d
  | none => exact SameStruct.refl g

theorem sameStruct_addGDotO (g : ADGraph α) (r : Option Nat) (d : α) :
    SameStruct g (addGDotO g r d) := by
  cases r with
  | some i => exact sameStruct_addGDot g i d
  | none => exact SameStruct.refl g

theorem sameVD_ensGrad (g : ADGraph α) (i : Nat) :
    SameVD g (ensGrad g i) := sameVD_updN _ _ _ fun _ => ⟨rfl, rfl, rfl, rfl⟩

theorem sameVD_ensGDot (g : ADGraph α) (i : Nat) :
    SameVD g (ensGDot g i) := sameVD_updN _ _ _ fun _ => ⟨rfl, rfl, rfl, rfl⟩

theorem sameVD_addGrad (g : ADGraph α) (i : Nat) (d : α) :
    SameVD g (addGrad g i d) := sameVD_updN _ _ _ fun _ => ⟨rfl, rfl, rfl, rfl⟩

theorem sameVD_addGDot (g : ADGraph α) (i : Nat) (d : α) :
    SameVD g (addGDot g i d) := sameVD_updN _ _ _ fun _ => ⟨rfl, rfl, rfl, rfl⟩

theorem sameVD_accGrad (g : ADGraph α) (i : Nat) (d : α) :
    SameVD g (accGrad g i d) := (sameVD_ensGrad g i).trans (sameVD_addGrad _ i d)

theorem sameVD_accGDot (g : ADGraph α) (i : Nat) (d : α) :
    SameVD g (accGDot g i d) := (sameVD_ensGDot g i).trans (sameVD_addGDot _ i d)

theorem sameVD_accGradO (g : ADGraph α) (r : Option Nat) (d : α) :
    SameVD g (accGradO g r d) := by
  cases r with
  | some i => exact sameVD_accGrad g i d
  | none => exact SameVD.refl g

theorem sameVD_accGDotO (g : ADGraph α) (r : Option Nat) (d : α) :
    SameVD g (accGDotO g r d) := by
  cases r with
  | some i => exact sameVD_accGDot g i d
  | none => exact SameVD.refl g

theorem sameVD_ensGradO (g : ADGraph α) (r : Option Nat) :
    SameVD g (ensGradO g r) := by
  cases r with
  | some i => exact sameVD_ensGrad g i
  | none => exact SameVD.refl g

theorem sameVD_ensGDotO (g : ADGraph α) (r : Option Nat) :
    SameVD g (ensGDotO g r) := by
  cases r with
  | some i => exact sameVD_ensGDot g i
  | none => exact SameVD.refl g

theorem sameVD_addGradO (g : ADGraph α) (r : Option Nat) (d : α) :
    SameVD g (addGradO g r d) := by
  cases r with
  | some i => exact sameVD_addGrad g i d
  | none => exact SameVD.refl g

theorem sameVD_addGDotO (g : ADGraph α) (r : Option Nat) (d : α) :
    SameVD g (addGDotO g r d) := by
  cases r with
  | some i => exact sameVD_addGDot g i d
  | none => exact SameVD.refl g

theorem sameGrads_setVal (g : ADGraph α) (j : Nat) (v : α) :
    SameGrads g (setVal g j v) := sameGrads_updN _ _ _ fun _ => ⟨rfl, rfl, rfl, rfl⟩

theorem sameGrads_setDot (g : ADGraph α) (j : Nat) (v : α) :
    SameGrads g (setDot g j v) := sameGrads_updN _ _ _ fun _ => ⟨rfl, rfl, rfl, rfl⟩

theorem sameGrads_touchVal (g : ADGraph α) (j : Nat) :
    SameGrads g (touchVal g j) := sameGrads_updN _ _ _ fun _ => ⟨rfl, rfl, rfl, rfl⟩

theorem sameGrads_touchDot (g : ADGraph α) (j : Nat) :
    SameGrads g (touchDot g j) := sameGrads_updN _ _ _ fun _ => ⟨rfl, rfl, rfl, rfl⟩

end ChompAD

/-! ## Frame lemmas for the operator pass bodies -/

namespace ChompAD

variable {α : Type} [LinearOrderedField α]

theorem sameStruct_UnaryOp_forward (R : URule α) (j : Nat) (g : ADGraph α) :
    SameStruct g (UnaryOp.forward R j g) := by
  unfold UnaryOp.forward
  split
  all_goals first
    | exact sameStruct_setVal _ _ _
    | exact SameStruct.refl g

theorem sameStruct_UnaryOp_forward_dot (R : URule α) (j : Nat) (g : ADGraph α) :
    SameStruct g (UnaryOp.forward_dot R j g) := by
  unfold UnaryOp.forward_dot
  split
  all_goals first
    | exact (sameStruct_setDot _ _ _).trans (sameStruct_touchVal _ _)
    | exact SameStruct.refl g

theorem sameStruct_LogOp_forward_dot (j : Nat) (g : ADGraph α) :
    SameStruct g (LogOp.forward_dot j g) := by
  unfold LogOp.forward_dot
  split
  all_goals first
    | exact (sameStruct_setDot _ _ _).trans (sameStruct_touchVal _ _)
    | exact SameStruct.refl g

theorem sameStruct_TanOp_forward_dot (fs : RealFuns α) (j : Nat) (g : ADGraph α) :
    SameStruct g (TanOp.forward_dot fs j g) := by
  unfold TanOp.forward_dot
  split
  all_goals first
    | exact (sameStruct_setDot _ _ _).trans (sameStruct_touchVal _ _)
    | exact SameStruct.refl g

theorem sameStruct_UnaryOp_backward (R : URule α) (j : Nat) (g : ADGraph α) :
    SameStruct g (UnaryOp.backward R j g) := by
  unfold UnaryOp.backward
  split
  all_goals first
    | exact sameStruct_accGrad _ _ _
    | exact SameStruct.refl g

theorem sameStruct_UnaryOp_hvp (R : URule α) (j : Nat) (g : ADGraph α) :
    SameStruct g (UnaryOp.hvp_backward R j g) := by
  unfold UnaryOp.hvp_backward
  split
  all_goals first
    | exact (((sameStruct_ensGrad _ _).trans (sameStruct_ensGDot _ _)).trans
        (sameStruct_addGrad _ _ _)).trans (sameStruct_addGDot _ _ _)
    | exact SameStruct.refl g

theorem sameStruct_BinaryOp_forward (R : BRule α) (j : Nat) (g : ADGraph α) :
    SameStruct g (BinaryOp.forward R j g) := by
  unfold BinaryOp.forward
  split
  all_goals first
    | exact sameStruct_setVal _ _ _
    | exact SameStruct.refl g

theorem sameStruct_BinaryOp_forward_dot (R : BRule α) (j : Nat) (g : ADGraph α) :
    SameStruct g (BinaryOp.forward_dot R j g) := by
  unfold BinaryOp.forward_dot
  split
  all_goals first
    | exact (sameStruct_setDot _ _ _).trans (sameStruct_touchVal _ _)
    | exact SameStruct.refl g

theorem sameStruct_DivOp_forward_dot (j : Nat) (g : ADGraph α) :
    SameStruct g (DivOp.forward_dot j g) := by
  unfold DivOp.forward_dot
  split
  all_goals first
    | exact (sameStruct_setDot _ _ _).trans (sameStruct_touchVal _ _)
    | exact SameStruct.refl g

theorem sameStruct_BinaryOp_backward (R : BRule α) (j : Nat) (g : ADGraph α) :
    SameStruct g (BinaryOp.backward R j g) := by
  unfold BinaryOp.backward
  split
  all_goals first
    | exact (sameStruct_accGrad _ _ _).trans (sameStruct_accGrad _ _ _)
    | exact SameStruct.refl g

theorem sameStruct_BinaryOp_hvp (R : BRule α) (j : Nat) (g : ADGraph α) :
    SameStruct g (BinaryOp.hvp_backward R j g) := by
  unfold BinaryOp.hvp_backward
  split
  all_goals first
    | exact (((((((sameStruct_ensGrad _ _).trans (sameStruct_ensGrad _ _)).trans
        (sameStruct_ensGDot _ _)).trans (sameStruct_ensGDot _ _)).trans
        (sameStruct_addGrad _ _ _)).trans (sameStruct_addGrad _ _ _)).trans
        (sameStruct_addGDot _ _ _)).trans (sameStruct_addGDot _ _ _)
    | exact SameStruct.refl g

theorem sameStruct_CteOp_forward (j : Nat) (g : ADGraph α) :
    SameStruct g (CteOp.forward j g) := sameStruct_touchVal g j

theorem sameStruct_CteOp_forward_dot (j : Nat) (g : ADGraph α) :
    SameStruct g (CteOp.forward_dot j g) :=
  (sameStruct_touchDot g j).trans (sameStruct_touchVal _ j)

theorem sameStruct_VarOp_forward (j : Nat) (g : ADGraph α) :
    SameStruct g (VarOp.forward j g) := sameStruct_touchVal g j

theorem sameStruct_VarOp_forward_dot (j : Nat) (g : ADGraph α) :
    SameStruct g (VarOp.forward_dot j g) :=
  (sameStruct_touchDot g j).trans (sameStruct_touchVal _ j)

theorem sameStruct_AddOp_forward (j : Nat) (g : ADGraph α) :
    SameStruct g (AddOp.forward j g) := by
  unfold AddOp.forward
  split
  · exact sameStruct_setVal _ _ _
  · exact SameStruct.refl g

theorem sameStruct_AddOp_forward_dot (j : Nat) (g : ADGraph α) :
    SameStruct g (AddOp.forward_dot j g) := by
  unfold AddOp.forward_dot
  split
  · exact (sameStruct_setDot _ _ _).trans (sameStruct_touchVal _ _)
  · exact SameStruct.refl g

theorem sameStruct_AddOp_backward (j : Nat) (g : ADGraph α) :
    SameStruct g (AddOp.backward j g) := by
  unfold AddOp.backward
  split
  · exact foldl_pres (fun h1 h2 => h1.trans h2) SameStruct.refl _ _
      (fun h r _ => sameStruct_accGradO h r _) g
  · exact SameStruct.refl g

theorem sameStruct_AddOp_hvp (j : Nat) (g : ADGraph α) :
    SameStruct g (AddOp.hvp_backward j g) := by
  unfold AddOp.hvp_backward
  split
  · exact foldl_pres (fun h1 h2 => h1.trans h2) SameStruct.refl _ _
      (fun h r _ => (sameStruct_accGradO h r _).trans (sameStruct_accGDotO _ r _)) g
  · exact SameStruct.refl g

theorem sameStruct_MulOp_forward (j : Nat) (g : ADGraph α) :
    SameStruct g (MulOp.forward j g) := by
  unfold MulOp.forward
  split
  · exact sameStruct_setVal _ _ _
  · exact SameStruct.refl g

theorem sameStruct_MulOp_forward_dot (j : Nat) (g : ADGraph α) :
    SameStruct g (MulOp.forward_dot j g) := by
  unfold MulOp.forward_dot
  split
  · exact (sameStruct_setDot _ _ _).trans (sameStruct_touchVal _ _)
  · exact SameStruct.refl g

theorem sameStruct_MulOp_backward (j : Nat) (g : ADGraph α) :
    SameStruct g (MulOp.backward j g) := by
  unfold MulOp.backward
  split
  · exact foldl_pres (fun h1 h2 => h1.trans h2) SameStruct.refl _ _
      (fun h i _ => sameStruct_accGradO h _ _) g
  · exact SameStruct.refl g

theorem sameStruct_MulOp_hvp (j : Nat) (g : ADGraph α) :
    SameStruct g (MulOp.hvp_backward j g) := by
  unfold MulOp.hvp_backward
  split
  · split
    · exact (((((((sameStruct_ensGradO _ _).trans (sameStruct_ensGradO _ _)).trans
        (sameStruct_ensGDotO _ _)).trans (sameStruct_ensGDotO _ _)).trans
        (sameStruct_addGradO _ _ _)).trans (sameStruct_addGradO _ _ _)).trans
        (sameStruct_addGDotO _ _ _)).trans (sameStruct_addGDotO _ _ _)
    · exact foldl_pres (fun h1 h2 => h1.trans h2) SameStruct.refl _ _
        (fun h i _ => (((sameStruct_ensGradO h _).trans (sameStruct_ensGDotO _ _)).trans
          (sameStruct_addGradO _ _ _)).trans (sameStruct_addGDotO _ _ _)) g
  · exact SameStruct.refl g

theorem sameStruct_SoftmaxOp_forward (fs : RealFuns α) (j : Nat) (g : ADGraph α) :
    SameStruct g (SoftmaxOp.forward fs j g) := by
  unfold SoftmaxOp.forward
  split
  · exact sameStruct_setVal _ _ _
  · exact SameStruct.refl g

theorem sameStruct_SoftmaxOp_forward_dot (fs : RealFuns α) (j : Nat) (g : ADGraph α) :
    SameStruct g (SoftmaxOp.forward_dot fs j g) := by
  unfold SoftmaxOp.forward_dot
  split
  · exact (sameStruct_setDot _ _ _).trans (sameStruct_touchVal _ _)
  · exact SameStruct.refl g

theorem sameStruct_SoftmaxOp_backward (fs : RealFuns α) (j : Nat) (g : ADGraph α) :
    SameStruct g (SoftmaxOp.backward fs j g) := by
  unfold SoftmaxOp.backward
  split
  · exact foldl_pres (fun h1 h2 => h1.trans h2) SameStruct.refl _ _
      (fun h k _ => sameStruct_accGradO h _ _) g
  · exact SameStruct.refl g

theorem sameStruct_SoftmaxOp_hvp (fs : RealFuns α) (j : Nat) (g : ADGraph α) :
    SameStruct g (SoftmaxOp.hvp_backward fs j g) := by
  unfold SoftmaxOp.hvp_backward
  split
  · exact foldl_pres (fun h1 h2 => h1.trans h2) SameStruct.refl _ _
      (fun h k _ => (((sameStruct_ensGradO h _).trans (sameStruct_ensGDotO _ _)).trans
        (sameStruct_addGradO _ _ _)).trans (sameStruct_addGDotO _ _ _)) g
  · exact SameStruct.refl g

theorem sameStruct_MaxOp_forward (j : Nat) (g : ADGraph α) :
    SameStruct g (MaxOp.forward j g) := by
  unfold MaxOp.forward
  split
  all_goals first
    | exact sameStruct_setVal _ _ _
    | exact SameStruct.refl g

theorem sameStruct_MaxOp_forward_dot (j : Nat) (g : ADGraph α) :
    SameStruct g (MaxOp.forward_dot j g) := by
  unfold MaxOp.forward_dot
  split
  all_goals first
    | exact (sameStruct_setDot _ _ _).trans (sameStruct_touchVal _ _)
    | exact SameStruct.refl g

theorem sameStruct_MaxOp_backward (j : Nat) (g : ADGraph α) :
    SameStruct g (MaxOp.backward j g) := by
  unfold MaxOp.backward
  split
  · split
    · exact sameStruct_accGrad _ _ _
    · exact sameStruct_accGrad _ _ _
  all_goals exact SameStruct.refl g

theorem sameStruct_MaxOp_hvp (j : Nat) (g : ADGraph α) :
    SameStruct g (MaxOp.hvp_backward j g) := by
  unfold MaxOp.hvp_backward
  split
  · split
    · exact (sameStruct_accGrad _ _ _).trans (sameStruct_accGDot _ _ _)
    · exact (sameStruct_accGrad _ _ _).trans (sameStruct_accGDot _ _ _)
  all_goals exact SameStruct.refl g

theorem sameStruct_forwardStep (fs : RealFuns α) (j : Nat) (g : ADGraph α) :
    SameStruct g (forwardStep fs j g) := by
  unfold forwardStep
  split
  all_goals first
    | exact SameStruct.refl g
    | exact sameStruct_CteOp_forward _ _
    | exact sameStruct_VarOp_forward _ _
    | exact sameStruct_AddOp_forward _ _
    | exact sameStruct_BinaryOp_forward _ _ _
    | exact sameStruct_MulOp_forward _ _
    | exact sameStruct_UnaryOp_forward _ _ _
    | exact sameStruct_MaxOp_forward _ _
    | exact sameStruct_SoftmaxOp_forward _ _ _

theorem sameStruct_dotStep (fs : RealFuns α) (j : Nat) (g : ADGraph α) :
    SameStruct g (dotStep fs j g) := by
  unfold dotStep
  split
  all_goals first
    | exact SameStruct.refl g
    | exact sameStruct_CteOp_forward_dot _ _
    | exact sameStruct_VarOp_forward_dot _ _
    | exact sameStruct_AddOp_forward_dot _ _
    | exact sameStruct_BinaryOp_forward_dot _ _ _
    | exact sameStruct_MulOp_forward_dot _ _
    | exact sameStruct_DivOp_forward_dot _ _
    | exact sameStruct_UnaryOp_forward_dot _ _ _
    | exact sameStruct_TanOp_forward_dot _ _ _
    | exact sameStruct_LogOp_forward_dot _ _
    | exact sameStruct_MaxOp_forward_dot _ _
    | exact sameStruct_SoftmaxOp_forward_dot _ _ _

theorem sameStruct_backStep (fs : RealFuns α) (j : Nat) (g : ADGraph α) :
    SameStruct g (backStep fs j g) := by
  unfold backStep
  split
  all_goals first
    | exact SameStruct.refl g
    | exact sameStruct_AddOp_backward _ _
    | exact sameStruct_BinaryOp_backward _ _ _
    | exact sameStruct_MulOp_backward _ _
    | exact sameStruct_UnaryOp_backward _ _ _
    | exact sameStruct_MaxOp_backward _ _
    | exact sameStruct_SoftmaxOp_backward _ _ _

theorem sameStruct_hvpStep (fs : RealFuns α) (j : Nat) (g : ADGraph α) :
    SameStruct g (hvpStep fs j g) := by
  unfold hvpStep
  split
  all_goals first
    | exact SameStruct.refl g
    | exact sameStruct_AddOp_hvp _ _
    | exact sameStruct_BinaryOp_hvp _ _ _
    | exact sameStruct_MulOp_hvp _ _
    | exact sameStruct_UnaryOp_hvp _ _ _
    | exact sameStruct_MaxOp_hvp _ _
    | exact sameStruct_SoftmaxOp_hvp _ _ _

end ChompAD

/-! ## Reverse passes preserve primal/tangent slots; forward passes preserve adjoints -/

namespace ChompAD

variable {α : Type} [LinearOrderedField α]

theorem sameVD_UnaryOp_backward (R : URule α) (j : Nat) (g : ADGraph α) :
    SameVD g (UnaryOp.backward R j g) := by
  unfold UnaryOp.backward
  split
  all_goals first
    | exact sameVD_accGrad _ _ _
    | exact SameVD.refl g

theorem sameVD_UnaryOp_hvp (R : URule α) (j : Nat) (g : ADGraph α) :
    SameVD g (UnaryOp.hvp_backward R j g) := by
  unfold UnaryOp.hvp_backward
  split
  all_goals first
    | exact (((sameVD_ensGrad _ _).trans (sameVD_ensGDot _ _)).trans
        (sameVD_addGrad _ _ _)).trans (sameVD_addGDot _ _ _)
    | exact SameVD.refl g

theorem sameVD_BinaryOp_backward (R : BRule α) (j : Nat) (g : ADGraph α) :
    SameVD g (BinaryOp.backward R j g) := by
  unfold BinaryOp.backward
  split
  all_goals first
    | exact (sameVD_accGrad _ _ _).trans (sameVD_accGrad _ _ _)
    | exact SameVD.refl g

theorem sameVD_BinaryOp_hvp (R : BRule α) (j : Nat) (g : ADGraph α) :
    SameVD g (BinaryOp.hvp_backward R j g) := by
  unfold BinaryOp.hvp_backward
  split
  all_goals first
    | exact (((((((sameVD_ensGrad _ _).trans (sameVD_ensGrad _ _)).trans
        (sameVD_ensGDot _ _)).trans (sameVD_ensGDot _ _)).trans
        (sameVD_addGrad _ _ _)).trans (sameVD_addGrad _ _ _)).trans
        (sameVD_addGDot _ _ _)).trans (sameVD_addGDot _ _ _)
    | exact SameVD.refl g

theorem sameVD_AddOp_backward (j : Nat) (g : ADGraph α) :
    SameVD g (AddOp.backward j g) := by
  unfold AddOp.backward
  split
  · exact foldl_pres (fun h1 h2 => h1.trans h2) SameVD.refl _ _
      (fun h r _ => sameVD_accGradO h r _) g
  · exact SameVD.refl g

theorem sameVD_AddOp_hvp (j : Nat) (g : ADGraph α) :
    SameVD g (AddOp.hvp_backward j g) := by
  unfold AddOp.hvp_backward
  split
  · exact foldl_pres (fun h1 h2 => h1.trans h2) SameVD.refl _ _
      (fun h r _ => (sameVD_accGradO h r _).trans (sameVD_accGDotO _ r _)) g
  · exact SameVD.refl g

theorem sameVD_MulOp_backward (j : Nat) (g : ADGraph α) :
    SameVD g (MulOp.backward j g) := by
  unfold MulOp.backward
  split
  · exact foldl_pres (fun h1 h2 => h1.trans h2) SameVD.refl _ _
      (fun h i _ => sameVD_accGradO h _ _) g
  · exact SameVD.refl g

theorem sameVD_MulOp_hvp (j : Nat) (g : ADGraph α) :
    SameVD g (MulOp.hvp_backward j g) := by
  unfold MulOp.hvp_backward
  split
  · split
    · exact (((((((sameVD_ensGradO _ _).trans (sameVD_ensGradO _ _)).trans
        (sameVD_ensGDotO _ _)).trans (sameVD_ensGDotO _ _)).trans
        (sameVD_addGradO _ _ _)).trans (sameVD_addGradO _ _ _)).trans
        (sameVD_addGDotO _ _ _)).trans (sameVD_addGDotO _ _ _)
    · exact foldl_pres (fun h1 h2 => h1.trans h2) SameVD.refl _ _
        (fun h i _ => (((sameVD_ensGradO h _).trans (sameVD_ensGDotO _ _)).trans
          (sameVD_addGradO _ _ _)).trans (sameVD_addGDotO _ _ _)) g
  · exact SameVD.refl g

theorem sameVD_SoftmaxOp_backward (fs : RealFuns α) (j : Nat) (g : ADGraph α) :
    SameVD g (SoftmaxOp.backward fs j g) := by
  unfold SoftmaxOp.backward
  split
  · exact foldl_pres (fun h1 h2 => h1.trans h2) SameVD.refl _ _
      (fun h k _ => sameVD_accGradO h _ _) g
  · exact SameVD.refl g

theorem sameVD_SoftmaxOp_hvp (fs : RealFuns α) (j : Nat) (g : ADGraph α) :
    SameVD g (SoftmaxOp.hvp_backward fs j g) := by
  unfold SoftmaxOp.hvp_backward
  split
  · exact foldl_pres (fun h1 h2 => h1.trans h2) SameVD.refl _ _
      (fun h k _ => (((sameVD_ensGradO h _).trans (sameVD_ensGDotO _ _)).trans
        (sameVD_addGradO _ _ _)).trans (sameVD_addGDotO _ _ _)) g
  · exact SameVD.refl g

theorem sameVD_MaxOp_backward (j : Nat) (g : ADGraph α) :
    SameVD g (MaxOp.backward j g) := by
  unfold MaxOp.backward
  split
  · split
    · exact sameVD_accGrad _ _ _
    · exact sameVD_accGrad _ _ _
  all_goals exact SameVD.refl g

theorem sameVD_MaxOp_hvp (j : Nat) (g : ADGraph α) :
    SameVD g (MaxOp.hvp_backward j g) := by
  unfold MaxOp.hvp_backward
  split
  · split
    · exact (sameVD_accGrad _ _ _).trans (sameVD_accGDot _ _ _)
    · exact (sameVD_accGrad _ _ _).trans (sameVD_accGDot _ _ _)
  all_goals exact SameVD.refl g

theorem sameVD_backStep (fs : RealFuns α) (j : Nat) (g : ADGraph α) :
    SameVD g (backStep fs j g) := by
  unfold backStep
  split
  all_goals first
    | exact SameVD.refl g
    | exact sameVD_AddOp_backward _ _
    | exact sameVD_BinaryOp_backward _ _ _
    | exact sameVD_MulOp_backward _ _
    | exact sameVD_UnaryOp_backward _ _ _
    | exact sameVD_MaxOp_backward _ _
    | exact sameVD_SoftmaxOp_backward _ _ _

theorem sameVD_hvpStep (fs : RealFuns α) (j : Nat) (g : ADGraph α) :
    SameVD g (hvpStep fs j g) := by
  unfold hvpStep
  split
  all_goals first
    | exact SameVD.refl g
    | exact sameVD_AddOp_hvp _ _
    | exact sameVD_BinaryOp_hvp _ _ _
    | exact sameVD_MulOp_hvp _ _
    | exact sameVD_UnaryOp_hvp _ _ _
    | exact sameVD_MaxOp_hvp _ _
    | exact sameVD_SoftmaxOp_hvp _ _ _

theorem sameGrads_UnaryOp_forward (R : URule α) (j : Nat) (g : ADGraph α) :
    SameGrads g (UnaryOp.forward R j g) := by
  unfold UnaryOp.forward
  split
  all_goals first
    | exact sameGrads_setVal _ _ _
    | exact SameGrads.refl g

theorem sameGrads_UnaryOp_forward_dot (R : URule α) (j : Nat) (g : ADGraph α) :
    SameGrads g (UnaryOp.forward_dot R j g) := by
  unfold UnaryOp.forward_dot
  split
  all_goals first
    | exact (sameGrads_setDot _ _ _).trans (sameGrads_touchVal _ _)
    | exact SameGrads.refl g

theorem sameGrads_LogOp_forward_dot (j : Nat) (g : ADGraph α) :
    SameGrads g (LogOp.forward_dot j g) := by
  unfold LogOp.forward_dot
  split
  all_goals first
    | exact (sameGrads_setDot _ _ _).trans (sameGrads_touchVal _ _)
    | exact SameGrads.refl g

theorem sameGrads_TanOp_forward_dot (fs : RealFuns α) (j : Nat) (g : ADGraph α) :
    SameGrads g (TanOp.forward_dot fs j g) := by
  unfold TanOp.forward_dot
  split
  all_goals first
    | exact (sameGrads_setDot _ _ _).trans (sameGrads_touchVal _ _)
    | exact SameGrads.refl g

theorem sameGrads_BinaryOp_forward (R : BRule α) (j : Nat) (g : ADGraph α) :
    SameGrads g (BinaryOp.forward R j g) := by
  unfold BinaryOp.forward
  split
  all_goals first
    | exact sameGrads_setVal _ _ _
    | exact SameGrads.refl g

theorem sameGrads_BinaryOp_forward_dot (R : BRule α) (j : Nat) (g : ADGraph α) :
    SameGrads g (BinaryOp.forward_dot R j g) := by
  unfold BinaryOp.forward_dot
  split
  all_goals first
    | exact (sameGrads_setDot _ _ _).trans (sameGrads_touchVal _ _)
    | exact SameGrads.refl g

theorem sameGrads_DivOp_forward_dot (j : Nat) (g : ADGraph α) :
    SameGrads g (DivOp.forward_dot j g) := by
  unfold DivOp.forward_dot
  split
  all_goals first
    | exact (sameGrads_setDot _ _ _).trans (sameGrads_touchVal _ _)
    | exact SameGrads.refl g

theorem sameGrads_AddOp_forward (j : Nat) (g : ADGraph α) :
    SameGrads g (AddOp.forward j g) := by
  unfold AddOp.forward
  split
  · exact sameGrads_setVal _ _ _
  · exact SameGrads.refl g

theorem sameGrads_AddOp_forward_dot (j : Nat) (g : ADGraph α) :
    SameGrads g (AddOp.forward_dot j g) := by
  unfold AddOp.forward_dot
  split
  · exact (sameGrads_setDot _ _ _).trans (sameGrads_touchVal _ _)
  · exact SameGrads.refl g

theorem sameGrads_MulOp_forward (j : Nat) (g : ADGraph α) :
    SameGrads g (MulOp.forward j g) := by
  unfold MulOp.forward
  split
  · exact sameGrads_setVal _ _ _
  · exact SameGrads.refl g

theorem sameGrads_MulOp_forward_dot (j : Nat) (g : ADGraph α) :
    SameGrads g (MulOp.forward_dot j g) := by
  unfold MulOp.forward_dot
  split
  · exact (sameGrads_setDot _ _ _).trans (sameGrads_touchVal _ _)
  · exact SameGrads.refl g

theorem sameGrads_SoftmaxOp_forward (fs : RealFuns α) (j : Nat) (g : ADGraph α) :
    SameGrads g (SoftmaxOp.forward fs j g) := by
  unfold SoftmaxOp.forward
  split
  · exact sameGrads_setVal _ _ _
  · exact SameGrads.refl g

theorem sameGrads_SoftmaxOp_forward_dot (fs : RealFuns α) (j : Nat) (g : ADGraph α) :
    SameGrads g (SoftmaxOp.forward_dot fs j g) := by
  unfold SoftmaxOp.forward_dot
  split
  · exact (sameGrads_setDot _ _ _).trans (sameGrads_touchVal _ _)
  · exact SameGrads.refl g

theorem sameGrads_MaxOp_forward (j : Nat) (g : ADGraph α) :
    SameGrads g (MaxOp.forward j g) := by
  unfold MaxOp.forward
  split
  all_goals first
    | exact sameGrads_setVal _ _ _
    | exact SameGrads.refl g

theorem sameGrads_MaxOp_forward_dot (j : Nat) (g : ADGraph α) :
    SameGrads g (MaxOp.forward_dot j g) := by
  unfold MaxOp.forward_dot
  split
  all_goals first
    | exact (sameGrads_setDot _ _ _).trans (sameGrads_touchVal _ _)
    | exact SameGrads.refl g

theorem sameGrads_CteOp_forward (j : Nat) (g : ADGraph α) :
    SameGrads g (CteOp.forward j g) := sameGrads_touchVal g j

theorem sameGrads_CteOp_forward_dot (j : Nat) (g : ADGraph α) :
    SameGrads g (CteOp.forward_dot j g) :=
  (sameGrads_touchDot g j).trans (sameGrads_touchVal _ j)

theorem sameGrads_VarOp_forward (j : Nat) (g : ADGraph α) :
    SameGrads g (VarOp.forward j g) := sameGrads_touchVal g j

theorem sameGrads_VarOp_forward_dot (j : Nat) (g : ADGraph α) :
    SameGrads g (VarOp.forward_dot j g) :=
  (sameGrads_touchDot g j).trans (sameGrads_touchVal _ j)

theorem sameGrads_forwardStep (fs : RealFuns α) (j : Nat) (g : ADGraph α) :
    SameGrads g (forwardStep fs j g) := by
  unfold forwardStep
  split
  all_goals first
    | exact SameGrads.refl g
    | exact sameGrads_CteOp_forward _ _
    | exact sameGrads_VarOp_forward _ _
    | exact sameGrads_AddOp_forward _ _
    | exact sameGrads_BinaryOp_forward _ _ _
    | exact sameGrads_MulOp_forward _ _
    | exact sameGrads_UnaryOp_forward _ _ _
    | exact sameGrads_MaxOp_forward _ _
    | exact sameGrads_SoftmaxOp_forward _ _ _

theorem sameGrads_dotStep (fs : RealFuns α) (j : Nat) (g : ADGraph α) :
    SameGrads g (dotStep fs j g) := by
  unfold dotStep
  split
  · exact sameGrads_CteOp_forward_dot _ _
  · exact sameGrads_VarOp_forward_dot _ _
  · exact sameGrads_AddOp_forward_dot _ _
  · exact sameGrads_BinaryOp_forward_dot _ _ _
  · exact sameGrads_MulOp_forward_dot _ _
  · exact sameGrads_DivOp_forward_dot _ _
  · exact sameGrads_UnaryOp_forward_dot _ _ _
  · exact sameGrads_UnaryOp_forward_dot _ _ _
  · exact sameGrads_TanOp_forward_dot _ _ _
  · exact sameGrads_UnaryOp_forward_dot _ _ _
  · exact sameGrads_LogOp_forward_dot _ _
  · exact sameGrads_MaxOp_forward_dot _ _
  · exact sameGrads_UnaryOp_forward_dot _ _ _
  · exact sameGrads_UnaryOp_forward_dot _ _ _
  · exact sameGrads_UnaryOp_forward_dot _ _ _
  · exact sameGrads_UnaryOp_forward_dot _ _ _
  · exact sameGrads_SoftmaxOp_forward_dot _ _ _
  · exact SameGrads.refl g

end ChompAD

/-! ## Arity guards: a failed guard makes the pass body a no-op -/

namespace ChompAD

variable {α : Type} [LinearOrderedField α]

/-- The guard each operator's pass bodies check before touching any slot:
`_unary_ok` for unary rules, `_binary_ok` for binary rules and `Max`,
`_nary_ok` for `Add`/`Multiply`/`Softmax`; the nullary ops and the no-op
primary template check nothing. -/
def arity_ok (n : ADNode α) : Bool :=
  match n.op with
  | .cte | .Var | .other _ => true
  | .Sin | .Cos | .Tan | .Exp | .Log | .Tanh | .Silu | .Gelu | .Relu => _unary_ok n
  | .Subtract | .Divide | .Max => _binary_ok n
  | .Add | .Multiply | .Softmax => _nary_ok n

theorem noop_unary_fwd (R : URule α) (j : Nat) (g : ADGraph α)
    (h : _unary_ok (getN g j) = false) : UnaryOp.forward R j g = g := by
  unfold UnaryOp.forward
  split
  all_goals try rfl
  rename_i ai heq
  simp [_unary_ok, heq] at h

theorem noop_unary_dot (R : URule α) (j : Nat) (g : ADGraph α)
    (h : _unary_ok (getN g j) = false) : UnaryOp.forward_dot R j g = g := by
  unfold UnaryOp.forward_dot
  split
  all_goals try rfl
  rename_i ai heq
  simp [_unary_ok, heq] at h

theorem noop_unary_bwd (R : URule α) (j : Nat) (g : ADGraph α)
    (h : _unary_ok (getN g j) = false) : UnaryOp.backward R j g = g := by
  unfold UnaryOp.backward
  split
  all_goals try rfl
  rename_i ai heq
  simp [_unary_ok, heq] at h

theorem noop_unary_hvp (R : URule α) (j : Nat) (g : ADGraph α)
    (h : _unary_ok (getN g j) = false) : UnaryOp.hvp_backward R j g = g := by
  unfold UnaryOp.hvp_backward
  split
  all_goals try rfl
  rename_i ai heq
  simp [_unary_ok, heq] at h

theorem noop_log_dot (j : Nat) (g : ADGraph α)
    (h : _unary_ok (getN g j) = false) : LogOp.forward_dot j g = g := by
  unfold LogOp.forward_dot
  split
  all_goals try rfl
  rename_i ai heq
  simp [_unary_ok, heq] at h

theorem noop_tan_dot (fs : RealFuns α) (j : Nat) (g : ADGraph α)
    (h : _unary_ok (getN g j) = false) : TanOp.forward_dot fs j g = g := by
  unfold TanOp.forward_dot
  split
  all_goals try rfl
  rename_i ai heq
  simp [_unary_ok, heq] at h

theorem noop_binary_fwd (R : BRule α) (j : Nat) (g : ADGraph α)
    (h : _binary_ok (getN g j) = false) : BinaryOp.forward R j g = g := by
  unfold BinaryOp.forward
  split
  all_goals try rfl
  rename_i ai bi heq
  simp [_binary_ok, heq] at h

theorem noop_binary_dot (R : BRule α) (j : Nat) (g : ADGraph α)
    (h : _binary_ok (getN g j) = false) : BinaryOp.forward_dot R j g = g := by
  unfold BinaryOp.forward_dot
  split
  all_goals try rfl
  rename_i ai bi heq
  simp [_binary_ok, heq] at h

theorem noop_binary_bwd (R : BRule α) (j : Nat) (g : ADGraph α)
    (h : _binary_ok (getN g j) = false) : BinaryOp.backward R j g = g := by
  unfold BinaryOp.backward
  split
  all_goals try rfl
  rename_i ai bi heq
  simp [_binary_ok, heq] at h

theorem noop_binary_hvp (R : BRule α) (j : Nat) (g : ADGraph α)
    (h : _binary_ok (getN g j) = false) : BinaryOp.hvp_backward R j g = g := by
  unfold BinaryOp.hvp_backward
  split
  all_goals try rfl
  rename_i ai bi heq
  simp [_binary_ok, heq] at h

theorem noop_div_dot (j : Nat) (g : ADGraph α)
    (h : _binary_ok (getN g j) = false) : DivOp.forward_dot j g = g := by
  unfold DivOp.forward_dot
  split
  all_goals try rfl
  rename_i ai bi heq
  simp [_binary_ok, heq] at h

theorem noop_max_fwd (j : Nat) (g : ADGraph α)
    (h : _binary_ok (getN g j) = false) : MaxOp.forward j g = g := by
  unfold MaxOp.forward
  split
  all_goals try rfl
  rename_i ai bi heq
  simp [_binary_ok, heq] at h

theorem noop_max_dot (j : Nat) (g : ADGraph α)
    (h : _binary_ok (getN g j) = false) : MaxOp.forward_dot j g = g := by
  unfold MaxOp.forward_dot
  split
  all_goals try rfl
  rename_i ai bi heq
  simp [_binary_ok, heq] at h

theorem noop_max_bwd (j : Nat) (g : ADGraph α)
    (h : _binary_ok (getN g j) = false) : MaxOp.backward j g = g := by
  unfold MaxOp.backward
  split
  all_goals try rfl
  rename_i ai bi heq
  simp [_binary_ok, heq] at h

theorem noop_max_hvp (j : Nat) (g : ADGraph α)
    (h : _binary_ok (getN g j) = false) : MaxOp.hvp_backward j g = g := by
  unfold MaxOp.hvp_backward
  split
  all_goals try rfl
  rename_i ai bi heq
  simp [_binary_ok, heq] at h

theorem noop_add_fwd (j : Nat) (g : ADGraph α)
    (h : _nary_ok (getN g j) = false) : AddOp.forward j g = g := by
  simp [AddOp.forward, h]

theorem noop_add_dot (j : Nat) (g : ADGraph α)
    (h : _nary_ok (getN g j) = false) : AddOp.forward_dot j g = g := by
  simp [AddOp.forward_dot, h]

theorem noop_add_bwd (j : Nat) (g : ADGraph α)
    (h : _nary_ok (getN g j) = false) : AddOp.backward j g = g := by
  simp [AddOp.backward, h]

theorem noop_add_hvp (j : Nat) (g : ADGraph α)
    (h : _nary_ok (getN g j) = false) : AddOp.hvp_backward j g = g := by
  simp [AddOp.hvp_backward, h]

theorem noop_mul_fwd (j : Nat) (g : ADGraph α)
    (h : _nary_ok (getN g j) = false) : MulOp.forward j g = g := by
  simp [MulOp.forward, h]

theorem noop_mul_dot (j : Nat) (g : ADGraph α)
    (h : _nary_ok (getN g j) = false) : MulOp.forward_dot j g = g := by
  simp [MulOp.forward_dot, h]

theorem noop_mul_bwd (j : Nat) (g : ADGraph α)
    (h : _nary_ok (getN g j) = false) : MulOp.backward j g = g := by
  simp [MulOp.backward, h]

theorem noop_mul_hvp (j : Nat) (g : ADGraph α)
    (h : _nary_ok (getN g j) = false) : MulOp.hvp_backward j g = g := by
  simp [MulOp.hvp_backward, h]

theorem noop_softmax_fwd (fs : RealFuns α) (j : Nat) (g : ADGraph α)
    (h : _nary_ok (getN g j) = false) : SoftmaxOp.forward fs j g = g := by
  simp [SoftmaxOp.forward, h]

theorem noop_softmax_dot (fs : RealFuns α) (j : Nat) (g : ADGraph α)
    (h : _nary_ok (getN g j) = false) : SoftmaxOp.forward_dot fs j g = g := by
  simp [SoftmaxOp.forward_dot, h]

theorem noop_softmax_bwd (fs : RealFuns α) (j : Nat) (g : ADGraph α)
    (h : _nary_ok (getN g j) = false) : SoftmaxOp.backward fs j g = g := by
  simp [SoftmaxOp.backward, h]

theorem noop_softmax_hvp (fs : RealFuns α) (j : Nat) (g : ADGraph α)
    (h : _nary_ok (getN g j) = false) : SoftmaxOp.hvp_backward fs j g = g := by
  simp [SoftmaxOp.hvp_backward, h]

theorem noop_forwardStep (fs : RealFuns α) (j : Nat) (g : ADGraph α)
    (h : arity_ok (getN g j) = false) : forwardStep fs j g = g := by
  unfold forwardStep
  cases hop : (getN g j).op
  all_goals simp only [arity_ok, hop] at h
  all_goals first
    | exact Bool.noConfusion h
    | exact noop_add_fwd j g h
    | exact noop_binary_fwd _ j g h
    | exact noop_mul_fwd j g h
    | exact noop_unary_fwd _ j g h
    | exact noop_max_fwd j g h
    | exact noop_softmax_fwd fs j g h

theorem noop_dotStep (fs : RealFuns α) (j : Nat) (g : ADGraph α)
    (h : arity_ok (getN g j) = false) : dotStep fs j g = g := by
  unfold dotStep
  cases hop : (getN g j).op
  all_goals simp only [arity_ok, hop] at h
  all_goals first
    | exact Bool.noConfusion h
    | exact noop_add_dot j g h
    | exact noop_binary_dot _ j g h
    | exact noop_mul_dot j g h
    | exact noop_div_dot j g h
    | exact noop_tan_dot fs j g h
    | exact noop_log_dot j g h
    | exact noop_unary_dot _ j g h
    | exact noop_max_dot j g h
    | exact noop_softmax_dot fs j g h

theorem noop_backStep (fs : RealFuns α) (j : Nat) (g : ADGraph α)
    (h : arity_ok (getN g j) = false) : backStep fs j g = g := by
  unfold backStep
  cases hop : (getN g j).op
  all_goals simp only [arity_ok, hop] at h
  all_goals first
    | exact Bool.noConfusion h
    | exact noop_add_bwd j g h
    | exact noop_binary_bwd _ j g h
    | exact noop_mul_bwd j g h
    | exact noop_unary_bwd _ j g h
    | exact noop_max_bwd j g h
    | exact noop_softmax_bwd fs j g h

theorem noop_hvpStep (fs : RealFuns α) (j : Nat) (g : ADGraph α)
    (h : arity_ok (getN g j) = false) : hvpStep fs j g = g := by
  unfold hvpStep
  cases hop : (getN g j).op
  all_goals simp only [arity_ok, hop] at h
  all_goals first
    | exact Bool.noConfusion h
    | exact noop_add_hvp j g h
    | exact noop_binary_hvp _ j g h
    | exact noop_mul_hvp j g h
    | exact noop_unary_hvp _ j g h
    | exact noop_max_hvp j g h
    | exact noop_softmax_hvp fs j g h

end ChompAD

/-! ## Pointwise computation lemmas for the primitives -/

namespace ChompAD

variable {α : Type} [LinearOrderedField α]

theorem getN_setVal_self {g : ADGraph α} {j : Nat} (v : α) (h : j < g.nodes.length) :
    getN (setVal g j v) j =
      { getN g j with value := v, val_epoch := g.cur_val_epoch_ } :=
  getN_updN_self h

theorem getN_setVal_ne {g : ADGraph α} {j k : Nat} (v : α) (h : j ≠ k) :
    getN (setVal g j v) k = getN g k := getN_updN_ne h

theorem getN_setDot_self {g : ADGraph α} {j : Nat} (v : α) (h : j < g.nodes.length) :
    getN (setDot g j v) j =
      { getN g j with dot := v, dot_epoch := g.cur_dot_epoch_ } :=
  getN_updN_self h

theorem getN_setDot_ne {g : ADGraph α} {j k : Nat} (v : α) (h : j ≠ k) :
    getN (setDot g j v) k = getN g k := getN_updN_ne h

theorem getN_touchVal_self {g : ADGraph α} {j : Nat} (h : j < g.nodes.length) :
    getN (touchVal g j) j = { getN g j with val_epoch := g.cur_val_epoch_ } :=
  getN_updN_self h

theorem getN_touchVal_ne {g : ADGraph α} {j k : Nat} (h : j ≠ k) :
    getN (touchVal g j) k = getN g k := getN_updN_ne h

theorem getN_touchDot_self {g : ADGraph α} {j : Nat} (h : j < g.nodes.length) :
    getN (touchDot g j) j = { getN g j with dot_epoch := g.cur_dot_epoch_ } :=
  getN_updN_self h

theorem getN_touchDot_ne {g : ADGraph α} {j k : Nat} (h : j ≠ k) :
    getN (touchDot g j) k = getN g k := getN_updN_ne h

theorem getN_ensGrad_self {g : ADGraph α} {i : Nat} (h : i < g.nodes.length) :
    getN (ensGrad g i) i =
      { getN g i with
        gradient := ensure_epoch_zero (getN g i).gradient (getN g i).grad_epoch g.cur_grad_epoch_,
        grad_epoch := g.cur_grad_epoch_ } :=
  getN_updN_self h

theorem getN_ensGrad_ne {g : ADGraph α} {i k : Nat} (h : i ≠ k) :
    getN (ensGrad g i) k = getN g k := getN_updN_ne h

theorem getN_ensGDot_self {g : ADGraph α} {i : Nat} (h : i < g.nodes.length) :
    getN (ensGDot g i) i =
      { getN g i with
        grad_dot := ensure_epoch_zero (getN g i).grad_dot (getN g i).gdot_epoch g.cur_gdot_epoch_,
        gdot_epoch := g.cur_gdot_epoch_ } :=
  getN_updN_self h

theorem getN_ensGDot_ne {g : ADGraph α} {i k : Nat} (h : i ≠ k) :
    getN (ensGDot g i) k = getN g k := getN_updN_ne h

theorem getN_addGrad_self {g : ADGraph α} {i : Nat} (d : α) (h : i < g.nodes.length) :
    getN (addGrad g i d) i = { getN g i with gradient := (getN g i).gradient + d } :=
  getN_updN_self h

theorem getN_addGrad_ne {g : ADGraph α} {i k : Nat} (d : α) (h : i ≠ k) :
    getN (addGrad g i d) k = getN g k := getN_updN_ne h

theorem getN_addGDot_self {g : ADGraph α} {i : Nat} (d : α) (h : i < g.nodes.length) :
    getN (addGDot g i d) i = { getN g i with grad_dot := (getN g i).grad_dot + d } :=
  getN_updN_self h

theorem getN_addGDot_ne {g : ADGraph α} {i k : Nat} (d : α) (h : i ≠ k) :
    getN (addGDot g i d) k = getN g k := getN_updN_ne h

theorem nodes_length_setVal (g : ADGraph α) (j : Nat) (v : α) :
    (setVal g j v).nodes.length = g.nodes.length := length_updN ..

theorem getN_accGrad_self {g : ADGraph α} {i : Nat} (d : α) (h : i < g.nodes.length) :
    getN (accGrad g i d) i =
      { getN g i with
        gradient := ensure_epoch_zero (getN g i).gradient (getN g i).grad_epoch g.cur_grad_epoch_ + d,
        grad_epoch := g.cur_grad_epoch_ } := by
  unfold accGrad
  have hl : i < (ensGrad g i).nodes.length := by
    simpa [ensGrad, length_updN] using h
  rw [getN_addGrad_self d hl, getN_ensGrad_self h]

theorem getN_accGrad_ne {g : ADGraph α} {i k : Nat} (d : α) (h : i ≠ k) :
    getN (accGrad g i d) k = getN g k := by
  unfold accGrad
  rw [getN_addGrad_ne d h, getN_ensGrad_ne h]

theorem getN_accGDot_self {g : ADGraph α} {i : Nat} (d : α) (h : i < g.nodes.length) :
    getN (accGDot g i d) i =
      { getN g i with
        grad_dot := ensure_epoch_zero (getN g i).grad_dot (getN g i).gdot_epoch g.cur_gdot_epoch_ + d,
        gdot_epoch := g.cur_gdot_epoch_ } := by
  unfold accGDot
  have hl : i < (ensGDot g i).nodes.length := by
    simpa [ensGDot, length_updN] using h
  rw [getN_addGDot_self d hl, getN_ensGDot_self h]

theorem getN_accGDot_ne {g : ADGraph α} {i k : Nat} (d : α) (h : i ≠ k) :
    getN (accGDot g i d) k = getN g k := by
  unfold accGDot
  rw [getN_addGDot_ne d h, getN_ensGDot_ne h]

end ChompAD

/-! ## Witness material: concrete instances over `ℚ` -/

namespace ChompAD

/-- A trivial function bundle over `ℚ` for witnesses that do not constrain it. -/
def fsQ : RealFuns ℚ :=
  { sinF := fun _ => 0, cosF := fun _ => 0, tanF := fun _ => 0, expF := fun _ => 0,
    logF := fun _ => 0, tanhF := fun _ => 0, erfF := fun _ => 0,
    msqrt1_2 := 0, sqrt_2_over_pi := 0 }

/-- Witness graph for C9: a single node with an unknown operator tag. -/
def gW9 : ADGraph ℚ :=
  ⟨[⟨.other 7, [], 5, 4, 3, 2, 0, 0, 0, 0⟩], 1, 1, 1, 1⟩

/-- Counterexample graph for C5: an `Add` node whose single input is null. -/
def gW5 : ADGraph ℚ :=
  ⟨[⟨.Add, [none], 3, 0, 0, 0, 0, 0, 0, 0⟩], 1, 1, 1, 1⟩

/-- Witness graph for the amended C5: a unary `Sin` node given two inputs. -/
def gW5b : ADGraph ℚ :=
  ⟨[⟨.Sin, [some 0, some 0], 1, 1, 1, 1, 0, 0, 0, 0⟩], 1, 1, 1, 1⟩

/-- C9: for every operator tag outside the seventeen specialized tags, all four
pass functions are no-ops — the whole graph (every slot, every epoch tag and
every counter) is left unchanged — and `op_name` returns "unknown". -/
theorem C9_unknown_op_noop (fs : RealFuns ℚ) (p : PassKind) (k j : Nat) (g : ADGraph ℚ)
    (hop : (getN g j).op = .other k) :
    runPass fs p j g = g ∧ op_name (getN g j).op = "unknown" := by
  refine ⟨?_, by rw [hop]; rfl⟩
  cases p
  · show forwardStep fs j g = g
    simp only [forwardStep, hop]
  · show dotStep fs j g = g
    simp only [dotStep, hop]
  · show backStep fs j g = g
    simp only [backStep, hop]
  · show hvpStep fs j g = g
    simp only [hvpStep, hop]

theorem C9_unknown_op_noop_witness :
    runPass fsQ .bwd 0 gW9 = gW9 ∧ op_name (getN gW9 0).op = "unknown" :=
  C9_unknown_op_noop fsQ .bwd 7 0 gW9 (by rfl)

/-- C5, counterexample: the claim promises a silent no-op whenever "any input
reference is null", but `_nary_ok` checks only nonemptiness, so an `Add` node
with the single input list `[null]` passes its guard and `forward` still writes
the node's value slot and tags its value epoch: the pass is not a no-op. -/
theorem C5_null_nary_counterexample :
    (getN gW5 0).op = .Add ∧ (getN gW5 0).inputs = [none] ∧
      forwardStep fsQ 0 gW5 ≠ gW5 := by
  refine ⟨rfl, rfl, fun heq => ?_⟩
  have hred : forwardStep fsQ 0 gW5 =
      setVal gW5 0 ((getN gW5 0).inputs.foldl (fun s r => s + (deref gW5 r).value) 0) := rfl
  have h1 : (getN (forwardStep fsQ 0 gW5) 0).val_epoch = 1 := by
    rw [hred, getN_setVal_self _ (by decide : 0 < gW5.nodes.length)]
    rfl
  rw [heq] at h1
  exact absurd h1 (by decide)

/-- C5, amended: for every operator with an arity rule and every pass function,
if the operator's own guard rejects the node — a unary rule given anything but
one non-null input, a binary rule given anything but two non-null inputs, an
n-ary rule given an empty input list — the pass returns without reading or
writing any slot or epoch tag: the graph is unchanged.  (The n-ary guard does
not check for null references; that part of the original claim fails, see the
counterexample.) -/
theorem C5_arity_guard_noop (fs : RealFuns ℚ) (p : PassKind) (j : Nat) (g : ADGraph ℚ)
    (h : arity_ok (getN g j) = false) : runPass fs p j g = g := by
  cases p
  · exact noop_forwardStep fs j g h
  · exact noop_dotStep fs j g h
  · exact noop_backStep fs j g h
  · exact noop_hvpStep fs j g h

theorem C5_arity_guard_noop_witness :
    arity_ok (getN gW5b 0) = false ∧ runPass fsQ .fwd 0 gW5b = gW5b :=
  ⟨by decide, C5_arity_guard_noop fsQ .fwd 0 gW5b (by decide)⟩

end ChompAD

/-! ## C6: the Divide rule -/

namespace ChompAD

variable {α : Type} [LinearOrderedField α]

/-- Witness graph for C6: `2 / 1` at node 2 (`6 / 2` values). -/
def gW6 : ADGraph ℚ :=
  ⟨[⟨.Var, [], 6, 1, 0, 0, 1, 1, 0, 0⟩,
    ⟨.Var, [], 2, 0, 0, 0, 1, 1, 0, 0⟩,
    ⟨.Divide, [some 0, some 1], 0, 0, 0, 0, 0, 0, 0, 0⟩], 1, 1, 1, 1⟩

/-- C6: for a `Divide` node with inputs `a`, `b`: forward produces `a/b` when
`b ≠ 0` and `0` when `b = 0` (in the embedding field `a/0 = 0`, so this is the
single equation `value = a/b` plus the explicit `b = 0` clause); the custom
forward_dot writes `(ȧ·b − a·ḃ)/b²` with the same clamp; and the first and
second partials of `DivRule` are `1/b`, `−a/b²`, `0`, `−1/b²`, `2a/b³`, each
returning `0` at `b = 0` rather than an infinity. -/
theorem C6_divide_rule (fs : RealFuns α) (j ai bi : Nat) (g : ADGraph α)
    (hop : (getN g j).op = .Divide)
    (hins : (getN g j).inputs = [some ai, some bi])
    (hlen : j < g.nodes.length) :
    (getN (forwardStep fs j g) j).value = (getN g ai).value / (getN g bi).value ∧
    ((getN g bi).value = 0 → (getN (forwardStep fs j g) j).value = 0) ∧
    (getN (dotStep fs j g) j).dot =
      ((getN g ai).dot * (getN g bi).value - (getN g ai).value * (getN g bi).dot) /
        ((getN g bi).value * (getN g bi).value) ∧
    ((getN g bi).value = 0 → (getN (dotStep fs j g) j).dot = 0) ∧
    DivRule.dfa (getN g ai).value (getN g bi).value = 1 / (getN g bi).value ∧
    DivRule.dfb (getN g ai).value (getN g bi).value =
      -(getN g ai).value / ((getN g bi).value * (getN g bi).value) ∧
    DivRule.d2aa (getN g ai).value (getN g bi).value = 0 ∧
    DivRule.d2ab (getN g ai).value (getN g bi).value =
      -1 / ((getN g bi).value * (getN g bi).value) ∧
    DivRule.d2bb (getN g ai).value (getN g bi).value =
      2 * (getN g ai).value / ((getN g bi).value * (getN g bi).value * (getN g bi).value) ∧
    ((getN g bi).value = 0 →
      DivRule.dfa (getN g ai).value 0 = 0 ∧ DivRule.dfb (getN g ai).value 0 = 0 ∧
      DivRule.d2ab (getN g ai).value 0 = 0 ∧ DivRule.d2bb (getN g ai).value 0 = 0) := by
  have hfwd : forwardStep fs j g =
      setVal g j (DivRule.f (getN g ai).value (getN g bi).value) := by
    simp only [forwardStep, hop, BinaryOp.forward, hins]
  have hdot : dotStep fs j g =
      touchVal
        (setDot g j
          (if (getN g bi).value ≠ 0 then
            ((getN g ai).dot * (getN g bi).value - (getN g ai).value * (getN g bi).dot) /
              ((getN g bi).value * (getN g bi).value)
           else 0)) j := by
    simp only [dotStep, hop, DivOp.forward_dot, hins]
  refine ⟨?_, ?_, ?_, ?_, ?_, ?_, rfl, ?_, ?_, ?_⟩
  · rw [hfwd, getN_setVal_self _ hlen]
    show DivRule.f (getN g ai).value (getN g bi).value = _
    unfold DivRule _safe_div
    by_cases hb : (getN g bi).value = 0
    · simp [hb]
    · simp [hb]
  · intro hb
    rw [hfwd, getN_setVal_self _ hlen]
    show DivRule.f (getN g ai).value (getN g bi).value = 0
    unfold DivRule _safe_div
    simp [hb]
  · rw [hdot, getN_touchVal_self (by simpa [setDot, length_updN] using hlen),
      getN_setDot_self _ hlen]
    by_cases hb : (getN g bi).value = 0
    · simp [hb]
    · simp [hb]
  · intro hb
    rw [hdot, getN_touchVal_self (by simpa [setDot, length_updN] using hlen),
      getN_setDot_self _ hlen]
    simp [hb]
  · show (if (getN g bi).value ≠ 0 then 1 / (getN g bi).value else 0) = _
    by_cases hb : (getN g bi).value = 0
    · simp [hb]
    · simp [hb]
  · show (if (getN g bi).value ≠ 0 then
        -(getN g ai).value / ((getN g bi).value * (getN g bi).value) else 0) = _
    by_cases hb : (getN g bi).value = 0
    · simp [hb]
    · simp [hb]
  · show (if (getN g bi).value ≠ 0 then
        -1 / ((getN g bi).value * (getN g bi).value) else 0) = _
    by_cases hb : (getN g bi).value = 0
    · simp [hb]
    · simp [hb]
  · show (if (getN g bi).value ≠ 0 then
        2 * (getN g ai).value /
          ((getN g bi).value * (getN g bi).value * (getN g bi).value) else 0) = _
    by_cases hb : (getN g bi).value = 0
    · simp [hb]
    · simp [hb]
  · intro hb
    refine ⟨?_, ?_, ?_, ?_⟩ <;> simp [DivRule]

theorem C6_divide_rule_witness :
    (getN (forwardStep fsQ 2 gW6) 2).value = (getN gW6 0).value / (getN gW6 1).value ∧
    (getN (forwardStep fsQ 2 gW6) 2).value = 3 := by
  have h := C6_divide_rule fsQ 2 0 1 gW6 rfl rfl (by decide)
  refine ⟨h.1, ?_⟩
  rw [h.1]
  norm_num [getN, gW6]

end ChompAD

/-! ## C7: binary Max — winner-take-all routing with ties to the first input -/

namespace ChompAD

variable {α : Type} [LinearOrderedField α]

/-- Witness graph for C7: `max` of two equal values (a tie). -/
def gW7 : ADGraph ℚ :=
  ⟨[⟨.Var, [], 3, 1, 0, 0, 1, 1, 0, 0⟩,
    ⟨.Var, [], 3, 5, 0, 0, 1, 1, 0, 0⟩,
    ⟨.Max, [some 0, some 1], 0, 0, 2, 4, 0, 0, 0, 0⟩], 1, 1, 1, 1⟩

/-- C7: for a binary `Max` node: forward produces `max(a,b)` with ties resolved
to the first input; forward_dot, backward and hvp_backward route the whole
tangent/adjoint/second-order contribution to the winning input (the first on
ties), while the losing input's node — all four slots and all four epoch tags —
is left completely unchanged. -/
theorem C7_max_routing (fs : RealFuns α) (j ai bi : Nat) (g : ADGraph α)
    (hop : (getN g j).op = .Max)
    (hins : (getN g j).inputs = [some ai, some bi])
    (hlen : j < g.nodes.length) (hai : ai < g.nodes.length) (hbi : bi < g.nodes.length)
    (haj : ai ≠ j) (hbj : bi ≠ j) (hab : ai ≠ bi) :
    (getN (forwardStep fs j g) j).value = max (getN g ai).value (getN g bi).value ∧
    ((getN g ai).value ≥ (getN g bi).value →
      (getN (forwardStep fs j g) j).value = (getN g ai).value) ∧
    ((getN g ai).value ≥ (getN g bi).value →
      (getN (dotStep fs j g) j).dot = (getN g ai).dot ∧
      (getN (backStep fs j g) ai).gradient =
        ensure_epoch_zero (getN g ai).gradient (getN g ai).grad_epoch g.cur_grad_epoch_ +
          (getN g j).gradient ∧
      getN (backStep fs j g) bi = getN g bi ∧
      (getN (hvpStep fs j g) ai).gradient =
        ensure_epoch_zero (getN g ai).gradient (getN g ai).grad_epoch g.cur_grad_epoch_ +
          (getN g j).gradient ∧
      (getN (hvpStep fs j g) ai).grad_dot =
        ensure_epoch_zero (getN g ai).grad_dot (getN g ai).gdot_epoch g.cur_gdot_epoch_ +
          (getN g j).grad_dot ∧
      getN (hvpStep fs j g) bi = getN g bi) ∧
    (¬ (getN g ai).value ≥ (getN g bi).value →
      (getN (dotStep fs j g) j).dot = (getN g bi).dot ∧
      (getN (backStep fs j g) bi).gradient =
        ensure_epoch_zero (getN g bi).gradient (getN g bi).grad_epoch g.cur_grad_epoch_ +
          (getN g j).gradient ∧
      getN (backStep fs j g) ai = getN g ai ∧
      (getN (hvpStep fs j g) bi).gradient =
        ensure_epoch_zero (getN g bi).gradient (getN g bi).grad_epoch g.cur_grad_epoch_ +
          (getN g j).gradient ∧
      (getN (hvpStep fs j g) bi).grad_dot =
        ensure_epoch_zero (getN g bi).grad_dot (getN g bi).gdot_epoch g.cur_gdot_epoch_ +
          (getN g j).grad_dot ∧
      getN (hvpStep fs j g) ai = getN g ai) := by
  have hfwd : forwardStep fs j g =
      setVal g j (if (getN g ai).value ≥ (getN g bi).value then (getN g ai).value
        else (getN g bi).value) := by
    simp only [forwardStep, hop, MaxOp.forward, hins]
  have hdot : dotStep fs j g =
      touchVal (setDot g j (if (getN g ai).value ≥ (getN g bi).value then (getN g ai).dot
        else (getN g bi).dot)) j := by
    simp only [dotStep, hop, MaxOp.forward_dot, hins]
  have hbwd : backStep fs j g =
      (if (getN g ai).value ≥ (getN g bi).value then accGrad g ai (getN g j).gradient
       else accGrad g bi (getN g j).gradient) := by
    simp only [backStep, hop, MaxOp.backward, hins]
  have hhvp : hvpStep fs j g =
      (if (getN g ai).value ≥ (getN g bi).value then
        accGDot (accGrad g ai (getN g j).gradient) ai
          (getN (accGrad g ai (getN g j).gradient) j).grad_dot
       else
        accGDot (accGrad g bi (getN g j).gradient) bi
          (getN (accGrad g bi (getN g j).gradient) j).grad_dot) := by
    simp only [hvpStep, hop, MaxOp.hvp_backward, hins]
  have hlen2 : ∀ v : α, j < (setDot g j v).nodes.length := fun v => by
    simpa [setDot, length_updN] using hlen
  have haA : ai < (accGrad g ai (getN g j).gradient).nodes.length := by
    simpa [accGrad, addGrad, ensGrad, length_updN] using hai
  have hbB : bi < (accGrad g bi (getN g j).gradient).nodes.length := by
    simpa [accGrad, addGrad, ensGrad, length_updN] using hbi
  refine ⟨?_, ?_, ?_, ?_⟩
  · rw [hfwd, getN_setVal_self _ hlen]
    show (if (getN g ai).value ≥ (getN g bi).value then (getN g ai).value
      else (getN g bi).value) = _
    rcases le_or_lt (getN g bi).value (getN g ai).value with h | h
    · rw [if_pos h, max_eq_left h]
    · rw [if_neg (not_le.mpr h), max_eq_right h.le]
  · intro h
    rw [hfwd, getN_setVal_self _ hlen]
    show (if (getN g ai).value ≥ (getN g bi).value then (getN g ai).value
      else (getN g bi).value) = _
    rw [if_pos h]
  · intro h
    have hwj : (getN (accGrad g ai (getN g j).gradient) j).grad_dot =
        (getN g j).grad_dot := by rw [getN_accGrad_ne _ haj]
    refine ⟨?_, ?_, ?_, ?_, ?_, ?_⟩
    · rw [hdot, getN_touchVal_self (hlen2 _), getN_setDot_self _ hlen]
      show (if (getN g ai).value ≥ (getN g bi).value then (getN g ai).dot
        else (getN g bi).dot) = _
      rw [if_pos h]
    · rw [hbwd, if_pos h, getN_accGrad_self _ hai]
    · rw [hbwd, if_pos h, getN_accGrad_ne _ hab]
    · rw [hhvp, if_pos h, hwj, getN_accGDot_self _ haA, getN_accGrad_self _ hai]
    · rw [hhvp, if_pos h, hwj, getN_accGDot_self _ haA, getN_accGrad_self _ hai]
      rfl
    · rw [hhvp, if_pos h, hwj, getN_accGDot_ne _ hab, getN_accGrad_ne _ hab]
  · intro h
    have hwj : (getN (accGrad g bi (getN g j).gradient) j).grad_dot =
        (getN g j).grad_dot := by rw [getN_accGrad_ne _ hbj]
    have hba : bi ≠ ai := fun e => hab e.symm
    refine ⟨?_, ?_, ?_, ?_, ?_, ?_⟩
    · rw [hdot, getN_touchVal_self (hlen2 _), getN_setDot_self _ hlen]
      show (if (getN g ai).value ≥ (getN g bi).value then (getN g ai).dot
        else (getN g bi).dot) = _
      rw [if_neg h]
    · rw [hbwd, if_neg h, getN_accGrad_self _ hbi]
    · rw [hbwd, if_neg h, getN_accGrad_ne _ hba]
    · rw [hhvp, if_neg h, hwj, getN_accGDot_self _ hbB, getN_accGrad_self _ hbi]
    · rw [hhvp, if_neg h, hwj, getN_accGDot_self _ hbB, getN_accGrad_self _ hbi]
      rfl
    · rw [hhvp, if_neg h, hwj, getN_accGDot_ne _ hba, getN_accGrad_ne _ hba]

theorem C7_max_routing_witness :
    (getN gW7 0).value = (getN gW7 1).value ∧
    (getN (forwardStep fsQ 2 gW7) 2).value = (getN gW7 0).value ∧
    (getN (dotStep fsQ 2 gW7) 2).dot = (getN gW7 0).dot ∧
    getN (backStep fsQ 2 gW7) 1 = getN gW7 1 := by
  have h := C7_max_routing fsQ 2 0 1 gW7 rfl rfl (by decide) (by decide) (by decide)
    (by decide) (by decide) (by decide)
  have htie : (getN gW7 0).value ≥ (getN gW7 1).value := le_refl _
  exact ⟨rfl, h.2.1 htie, (h.2.2.1 htie).1, (h.2.2.1 htie).2.2.1⟩

end ChompAD

/-! ## C3: stable softmax forward -/

namespace ChompAD

variable {α : Type} [LinearOrderedField α]

/-- The input value vector a softmax node reads. -/
def softmaxXs (g : ADGraph α) (j : Nat) : List α :=
  (getN g j).inputs.map fun r => (deref g r).value

/-- The max-shifted normaliser `Z = Σᵢ exp(xᵢ − xmax)` as a plain list sum. -/
def softmaxZ (fs : RealFuns α) (x : List α) : α :=
  (x.map fun v => fs.expF (v - xmaxOf x)).sum

/-- The max-shifted numerator `e₀ = exp(x₀ − xmax)`. -/
def softmaxE0 (fs : RealFuns α) (x : List α) : α :=
  fs.expF (x.getD 0 0 - xmaxOf x)

theorem foldl_max_mem (l : List α) (acc : α) :
    l.foldl (fun m x => if x > m then x else m) acc = acc ∨
      l.foldl (fun m x => if x > m then x else m) acc ∈ l := by
  induction l generalizing acc with
  | nil => exact Or.inl rfl
  | cons v vs ih =>
      simp only [List.foldl_cons]
      rcases ih (if v > acc then v else acc) with h | h
      · by_cases hv : v > acc
        · right
          rw [h, if_pos hv]
          exact List.mem_cons_self v vs
        · left
          rw [h, if_neg hv]
      · right
        exact List.mem_cons_of_mem v h

theorem acc_le_foldl_max (l : List α) (acc : α) :
    acc ≤ l.foldl (fun m x => if x > m then x else m) acc := by
  induction l generalizing acc with
  | nil => exact le_refl acc
  | cons v vs ih =>
      simp only [List.foldl_cons]
      refine le_trans ?_ (ih (if v > acc then v else acc))
      by_cases hv : v > acc
      · rw [if_pos hv]; exact le_of_lt hv
      · rw [if_neg hv]

theorem mem_le_foldl_max (l : List α) (acc : α) :
    ∀ v ∈ l, v ≤ l.foldl (fun m x => if x > m then x else m) acc := by
  induction l generalizing acc with
  | nil => intro v hv; cases hv
  | cons w ws ih =>
      intro v hv
      simp only [List.foldl_cons]
      rcases List.mem_cons.mp hv with h | h
      · subst h
        refine le_trans ?_ (acc_le_foldl_max ws (if v > acc then v else acc))
        by_cases hv0 : v > acc
        · rw [if_pos hv0]
        · rw [if_neg hv0]; exact le_of_not_lt hv0
      · exact ih (if w > acc then w else acc) v h

theorem xmaxOf_mem {l : List α} (h : l ≠ []) : xmaxOf l ∈ l := by
  cases l with
  | nil => exact absurd rfl h
  | cons v vs =>
      show vs.foldl (fun m x => if x > m then x else m) v ∈ v :: vs
      rcases foldl_max_mem vs v with h1 | h1
      · rw [h1]; exact List.mem_cons_self v vs
      · exact List.mem_cons_of_mem v h1

theorem le_xmaxOf {l : List α} : ∀ v ∈ l, v ≤ xmaxOf l := by
  cases l with
  | nil => intro v hv; cases hv
  | cons w ws =>
      intro v hv
      show v ≤ ws.foldl (fun m x => if x > m then x else m) w
      rcases List.mem_cons.mp hv with h | h
      · subst h; exact acc_le_foldl_max ws v
      · exact mem_le_foldl_max ws w v h

theorem foldl_add_map (e : α → α) (l : List α) (s : α) :
    l.foldl (fun z v => z + e v) s = s + (l.map e).sum := by
  induction l generalizing s with
  | nil => simp
  | cons v vs ih => simp [List.foldl_cons, ih, add_assoc]

/-- If `exp` is positive and `exp 0 = 1`, the max-shifted normaliser is `≥ 1`:
the maximal input contributes exactly `1` and every term is positive. -/
theorem one_le_softmaxZ (fs : RealFuns α) {x : List α} (hx : x ≠ [])
    (hpos : ∀ t, 0 < fs.expF t) (hone : fs.expF 0 = 1) :
    1 ≤ softmaxZ fs x := by
  unfold softmaxZ
  have hmem : fs.expF (xmaxOf x - xmaxOf x) ∈ x.map fun v => fs.expF (v - xmaxOf x) :=
    List.mem_map_of_mem _ (xmaxOf_mem hx)
  have h1 : fs.expF (xmaxOf x - xmaxOf x) = 1 := by rw [sub_self, hone]
  calc (1 : α) = fs.expF (xmaxOf x - xmaxOf x) := h1.symm
    _ ≤ (x.map fun v => fs.expF (v - xmaxOf x)).sum := by
        refine List.single_le_sum (fun y hy => ?_) _ hmem
        rcases List.mem_map.mp hy with ⟨v, _, rfl⟩
        exact le_of_lt (hpos _)

/-- C3: for a `Softmax` node with a nonempty input list, with the mathematical
facts `exp > 0` and `exp 0 = 1` about the C library's `exp`: forward writes
`e₀ / max(Z, 1)` where `e₀ = exp(x₀ − xmax)` and `Z = Σᵢ exp(xᵢ − xmax)`; the
degenerate branch `Z ≤ 0` (denominator replaced by 1) is unreachable because
`Z ≥ 1` — the maximal input contributes `exp 0 = 1` — so the value equals
`e₀ / Z` outright. -/
theorem C3_softmax_forward (fs : RealFuns α) (j : Nat) (g : ADGraph α)
    (hop : (getN g j).op = .Softmax)
    (hne : (getN g j).inputs ≠ [])
    (hlen : j < g.nodes.length)
    (hpos : ∀ t, 0 < fs.expF t) (hone : fs.expF 0 = 1) :
    1 ≤ softmaxZ fs (softmaxXs g j) ∧
    (getN (forwardStep fs j g) j).value =
      softmaxE0 fs (softmaxXs g j) / max (softmaxZ fs (softmaxXs g j)) 1 ∧
    (getN (forwardStep fs j g) j).value =
      softmaxE0 fs (softmaxXs g j) / softmaxZ fs (softmaxXs g j) := by
  have hx : softmaxXs g j ≠ [] := by
    unfold softmaxXs
    simpa [List.map_eq_nil] using hne
  have hZ : 1 ≤ softmaxZ fs (softmaxXs g j) := one_le_softmaxZ fs hx hpos hone
  have hok : _nary_ok (getN g j) = true := by
    simp [_nary_ok, List.isEmpty_iff, hne]
  have hfwd : forwardStep fs j g =
      setVal g j (fs.expF ((softmaxXs g j).getD 0 0 - xmaxOf (softmaxXs g j)) /
        (if (softmaxXs g j).foldl
              (fun z v => z + fs.expF (v - xmaxOf (softmaxXs g j))) 0 > 0 then
           (softmaxXs g j).foldl
              (fun z v => z + fs.expF (v - xmaxOf (softmaxXs g j))) 0
         else 1)) := by
    simp only [forwardStep, hop, SoftmaxOp.forward, hok, if_true, softmaxXs]
  have hfold : (softmaxXs g j).foldl
      (fun z v => z + fs.expF (v - xmaxOf (softmaxXs g j))) 0 =
      softmaxZ fs (softmaxXs g j) := by
    rw [foldl_add_map, zero_add]; rfl
  have hZpos : (0 : α) < softmaxZ fs (softmaxXs g j) := lt_of_lt_of_le one_pos hZ
  refine ⟨hZ, ?_, ?_⟩
  · rw [hfwd, getN_setVal_self _ hlen]
    show fs.expF ((softmaxXs g j).getD 0 0 - xmaxOf (softmaxXs g j)) /
        (if _ > 0 then _ else 1) = _
    rw [hfold, if_pos hZpos, max_eq_left hZ]
    rfl
  · rw [hfwd, getN_setVal_self _ hlen]
    show fs.expF ((softmaxXs g j).getD 0 0 - xmaxOf (softmaxXs g j)) /
        (if _ > 0 then _ else 1) = _
    rw [hfold, if_pos hZpos]
    rfl

/-- Function bundle whose `exp` is the constant 1: positive and `exp 0 = 1`. -/
def fsQ1 : RealFuns ℚ :=
  { sinF := fun _ => 0, cosF := fun _ => 0, tanF := fun _ => 0, expF := fun _ => 1,
    logF := fun _ => 0, tanhF := fun _ => 0, erfF := fun _ => 0,
    msqrt1_2 := 0, sqrt_2_over_pi := 0 }

/-- Witness graph for C3: a softmax node over two variables. -/
def gW3 : ADGraph ℚ :=
  ⟨[⟨.Var, [], 1, 0, 0, 0, 1, 1, 0, 0⟩,
    ⟨.Var, [], 2, 0, 0, 0, 1, 1, 0, 0⟩,
    ⟨.Softmax, [some 0, some 1], 0, 0, 0, 0, 0, 0, 0, 0⟩], 1, 1, 1, 1⟩

theorem C3_softmax_forward_witness :
    (∀ t : ℚ, 0 < fsQ1.expF t) ∧
    1 ≤ softmaxZ fsQ1 (softmaxXs gW3 2) ∧
    (getN (forwardStep fsQ1 2 gW3) 2).value =
      softmaxE0 fsQ1 (softmaxXs gW3 2) / max (softmaxZ fsQ1 (softmaxXs gW3 2)) 1 ∧
    (getN (forwardStep fsQ1 2 gW3) 2).value =
      softmaxE0 fsQ1 (softmaxXs gW3 2) / softmaxZ fsQ1 (softmaxXs gW3 2) :=
  ⟨fun _ => one_pos,
   C3_softmax_forward fsQ1 2 gW3 rfl (by decide) (by decide) (fun _ => one_pos) rfl⟩

end ChompAD

/-! ## C10: reverse passes write only into the inputs -/

namespace ChompAD

variable {α : Type} [LinearOrderedField α]

/-- Every node whose id is not among `ins` is completely untouched. -/
def UntouchedOutside (ins : List (Option Nat)) (g g' : ADGraph α) : Prop :=
  ∀ i, some i ∉ ins → getN g' i = getN g i

def UntouchedOutside.refl (ins : List (Option Nat)) (g : ADGraph α) :
    UntouchedOutside ins g g := fun _ _ => rfl

def UntouchedOutside.trans {ins : List (Option Nat)} {g1 g2 g3 : ADGraph α}
    (h12 : UntouchedOutside ins g1 g2) (h23 : UntouchedOutside ins g2 g3) :
    UntouchedOutside ins g1 g3 := fun i hi => (h23 i hi).trans (h12 i hi)

theorem untouched_updN {ins : List (Option Nat)} {g : ADGraph α} {i : Nat}
    (f : ADNode α → ADNode α) (hi : some i ∈ ins) :
    UntouchedOutside ins g (updN g i f) := by
  intro k hk
  exact getN_updN_ne fun e => hk (e ▸ hi)

theorem untouched_accGradO {ins : List (Option Nat)} {g : ADGraph α} {r : Option Nat}
    (hr : r ∈ ins) (d : α) : UntouchedOutside ins g (accGradO g r d) := by
  cases r with
  | some i =>
      exact (untouched_updN _ hr).trans (untouched_updN _ hr)
  | none => exact UntouchedOutside.refl ins g

theorem untouched_accGDotO {ins : List (Option Nat)} {g : ADGraph α} {r : Option Nat}
    (hr : r ∈ ins) (d : α) : UntouchedOutside ins g (accGDotO g r d) := by
  cases r with
  | some i =>
      exact (untouched_updN _ hr).trans (untouched_updN _ hr)
  | none => exact UntouchedOutside.refl ins g

theorem untouched_ensGradO {ins : List (Option Nat)} {g : ADGraph α} {r : Option Nat}
    (hr : r ∈ ins) : UntouchedOutside ins g (ensGradO g r) := by
  cases r with
  | some i => exact untouched_updN _ hr
  | none => exact UntouchedOutside.refl ins g

theorem untouched_ensGDotO {ins : List (Option Nat)} {g : ADGraph α} {r : Option Nat}
    (hr : r ∈ ins) : UntouchedOutside ins g (ensGDotO g r) := by
  cases r with
  | some i => exact untouched_updN _ hr
  | none => exact UntouchedOutside.refl ins g

theorem untouched_addGradO {ins : List (Option Nat)} {g : ADGraph α} {r : Option Nat}
    (hr : r ∈ ins) (d : α) : UntouchedOutside ins g (addGradO g r d) := by
  cases r with
  | some i => exact untouched_updN _ hr
  | none => exact UntouchedOutside.refl ins g

theorem untouched_addGDotO {ins : List (Option Nat)} {g : ADGraph α} {r : Option Nat}
    (hr : r ∈ ins) (d : α) : UntouchedOutside ins g (addGDotO g r d) := by
  cases r with
  | some i => exact untouched_updN _ hr
  | none => exact UntouchedOutside.refl ins g

theorem untouched_accGrad {ins : List (Option Nat)} {g : ADGraph α} {i : Nat}
    (hi : some i ∈ ins) (d : α) : UntouchedOutside ins g (accGrad g i d) :=
  (untouched_updN _ hi).trans (untouched_updN _ hi)

theorem untouched_accGDot {ins : List (Option Nat)} {g : ADGraph α} {i : Nat}
    (hi : some i ∈ ins) (d : α) : UntouchedOutside ins g (accGDot g i d) :=
  (untouched_updN _ hi).trans (untouched_updN _ hi)

theorem getD_mem_of_lt {l : List (Option Nat)} {k : Nat} (h : k < l.length) :
    l.getD k none ∈ l := by
  rw [List.getD_eq_getElem?_getD, List.getElem?_eq_getElem h]
  exact List.getElem_mem ..

theorem untouched_backStep (fs : RealFuns α) (j : Nat) (g : ADGraph α) :
    UntouchedOutside (getN g j).inputs g (backStep fs j g) := by
  unfold backStep
  split
  · exact UntouchedOutside.refl _ g
  · exact UntouchedOutside.refl _ g
  · -- Add
    unfold AddOp.backward
    split
    · exact foldl_pres (fun h1 h2 => h1.trans h2) (UntouchedOutside.refl _) _ _
        (fun h r hr => untouched_accGradO hr _) g
    · exact UntouchedOutside.refl _ g
  · -- Subtract
    unfold BinaryOp.backward
    split
    · rename_i ai bi heq
      exact (untouched_accGrad (by rw [heq]; simp) _).trans
        (untouched_accGrad (by rw [heq]; simp) _)
    · exact UntouchedOutside.refl _ g
  · -- Multiply
    unfold MulOp.backward
    split
    · refine foldl_pres (fun h1 h2 => h1.trans h2) (UntouchedOutside.refl _) _ _
        (fun h k hk => untouched_accGradO ?_ _) g
      exact getD_mem_of_lt (List.mem_range.mp hk)
    · exact UntouchedOutside.refl _ g
  · -- Divide
    unfold BinaryOp.backward
    split
    · rename_i ai bi heq
      exact (untouched_accGrad (by rw [heq]; simp) _).trans
        (untouched_accGrad (by rw [heq]; simp) _)
    · exact UntouchedOutside.refl _ g
  · unfold UnaryOp.backward
    split
    · rename_i ai heq
      exact untouched_accGrad (by rw [heq]; simp) _
    · exact UntouchedOutside.refl _ g
  · unfold UnaryOp.backward
    split
    · rename_i ai heq
      exact untouched_accGrad (by rw [heq]; simp) _
    · exact UntouchedOutside.refl _ g
  · unfold UnaryOp.backward
    split
    · rename_i ai heq
      exact untouched_accGrad (by rw [heq]; simp) _
    · exact UntouchedOutside.refl _ g
  · unfold UnaryOp.backward
    split
    · rename_i ai heq
      exact untouched_accGrad (by rw [heq]; simp) _
    · exact UntouchedOutside.refl _ g
  · unfold UnaryOp.backward
    split
    · rename_i ai heq
      exact untouched_accGrad (by rw [heq]; simp) _
    · exact UntouchedOutside.refl _ g
  · -- Max
    unfold MaxOp.backward
    split
    · rename_i ai bi heq
      split
      · exact untouched_accGrad (by rw [heq]; simp) _
      · exact untouched_accGrad (by rw [heq]; simp) _
    · exact UntouchedOutside.refl _ g
  · unfold UnaryOp.backward
    split
    · rename_i ai heq
      exact untouched_accGrad (by rw [heq]; simp) _
    · exact UntouchedOutside.refl _ g
  · unfold UnaryOp.backward
    split
    · rename_i ai heq
      exact untouched_accGrad (by rw [heq]; simp) _
    · exact UntouchedOutside.refl _ g
  · unfold UnaryOp.backward
    split
    · rename_i ai heq
      exact untouched_accGrad (by rw [heq]; simp) _
    · exact UntouchedOutside.refl _ g
  · unfold UnaryOp.backward
    split
    · rename_i ai heq
      exact untouched_accGrad (by rw [heq]; simp) _
    · exact UntouchedOutside.refl _ g
  · -- Softmax
    unfold SoftmaxOp.backward
    split
    · refine foldl_pres (fun h1 h2 => h1.trans h2) (UntouchedOutside.refl _) _ _
        (fun h k hk => untouched_accGradO ?_ _) g
      exact getD_mem_of_lt (List.mem_range.mp hk)
    · exact UntouchedOutside.refl _ g
  · exact UntouchedOutside.refl _ g

end ChompAD

namespace ChompAD

variable {α : Type} [LinearOrderedField α]

theorem untouched_hvpStep (fs : RealFuns α) (j : Nat) (g : ADGraph α) :
    UntouchedOutside (getN g j).inputs g (hvpStep fs j g) := by
  have unary : ∀ (R : URule α), UntouchedOutside (getN g j).inputs g
      (UnaryOp.hvp_backward R j g) := by
    intro R
    unfold UnaryOp.hvp_backward
    split
    · rename_i ai heq
      have hai : some ai ∈ (getN g j).inputs := by rw [heq]; simp
      exact (((untouched_updN _ hai).trans (untouched_updN _ hai)).trans
        (untouched_updN _ hai)).trans (untouched_updN _ hai)
    · exact UntouchedOutside.refl _ g
  have binary : ∀ (R : BRule α), UntouchedOutside (getN g j).inputs g
      (BinaryOp.hvp_backward R j g) := by
    intro R
    unfold BinaryOp.hvp_backward
    split
    · rename_i ai bi heq
      have hai : some ai ∈ (getN g j).inputs := by rw [heq]; simp
      have hbi : some bi ∈ (getN g j).inputs := by rw [heq]; simp
      exact (((((((untouched_updN _ hai).trans (untouched_updN _ hbi)).trans
        (untouched_updN _ hai)).trans (untouched_updN _ hbi)).trans
        (untouched_updN _ hai)).trans (untouched_updN _ hbi)).trans
        (untouched_updN _ hai)).trans (untouched_updN _ hbi)
    · exact UntouchedOutside.refl _ g
  unfold hvpStep
  split
  · exact UntouchedOutside.refl _ g
  · exact UntouchedOutside.refl _ g
  · -- Add
    unfold AddOp.hvp_backward
    split
    · exact foldl_pres (fun h1 h2 => h1.trans h2) (UntouchedOutside.refl _) _ _
        (fun h r hr => (untouched_accGradO hr _).trans (untouched_accGDotO hr _)) g
    · exact UntouchedOutside.refl _ g
  · exact binary _
  · -- Multiply
    unfold MulOp.hvp_backward
    split
    · split
      · rename_i hm
        have h0 : (getN g j).inputs.getD 0 none ∈ (getN g j).inputs :=
          getD_mem_of_lt (by rw [hm]; exact Nat.zero_lt_succ 1)
        have h1 : (getN g j).inputs.getD 1 none ∈ (getN g j).inputs :=
          getD_mem_of_lt (by rw [hm]; exact Nat.lt_succ_self 1)
        exact (((((((untouched_ensGradO h0).trans (untouched_ensGradO h1)).trans
          (untouched_ensGDotO h0)).trans (untouched_ensGDotO h1)).trans
          (untouched_addGradO h0 _)).trans (untouched_addGradO h1 _)).trans
          (untouched_addGDotO h0 _)).trans (untouched_addGDotO h1 _)
      · refine foldl_pres (fun h1 h2 => h1.trans h2) (UntouchedOutside.refl _) _ _
          (fun h k hk => ?_) g
        have hr : (getN g j).inputs.getD k none ∈ (getN g j).inputs :=
          getD_mem_of_lt (List.mem_range.mp hk)
        exact (((untouched_ensGradO hr).trans (untouched_ensGDotO hr)).trans
          (untouched_addGradO hr _)).trans (untouched_addGDotO hr _)
    · exact UntouchedOutside.refl _ g
  · exact binary _
  · exact unary _
  · exact unary _
  · exact unary _
  · exact unary _
  · exact unary _
  · -- Max
    unfold MaxOp.hvp_backward
    split
    · rename_i ai bi heq
      have hai : some ai ∈ (getN g j).inputs := by rw [heq]; simp
      have hbi : some bi ∈ (getN g j).inputs := by rw [heq]; simp
      split
      · exact (untouched_accGrad hai _).trans (untouched_accGDot hai _)
      · exact (untouched_accGrad hbi _).trans (untouched_accGDot hbi _)
    · exact UntouchedOutside.refl _ g
  · exact unary _
  · exact unary _
  · exact unary _
  · exact unary _
  · -- Softmax
    unfold SoftmaxOp.hvp_backward
    split
    · refine foldl_pres (fun h1 h2 => h1.trans h2) (UntouchedOutside.refl _) _ _
        (fun h k hk => ?_) g
      have hr : (getN g j).inputs.getD k none ∈ (getN g j).inputs :=
        getD_mem_of_lt (List.mem_range.mp hk)
      exact (((untouched_ensGradO hr).trans (untouched_ensGDotO hr)).trans
        (untouched_addGradO hr _)).trans (untouched_addGDotO hr _)
    · exact UntouchedOutside.refl _ g
  · exact UntouchedOutside.refl _ g

/-- Witness graph for C10: a multiply node with two inputs plus a bystander. -/
def gW10 : ADGraph ℚ :=
  ⟨[⟨.Var, [], 2, 1, 0, 0, 1, 1, 0, 0⟩,
    ⟨.Var, [], 5, 0, 0, 0, 1, 1, 0, 0⟩,
    ⟨.Var, [], 7, 0, 0, 0, 1, 1, 0, 0⟩,
    ⟨.Multiply, [some 0, some 1], 10, 3, 4, 6, 1, 1, 1, 1⟩], 1, 1, 1, 1⟩

/-- C10: for every operator, `backward` and `hvp_backward` leave the visited
node's own record — all four slots and all four epoch tags — unchanged (they
read its gradient and grad_dot only as weights), never touch any node's value,
dot or their tags, and write exclusively into the nodes referenced by the input
list.  The hypothesis that the node is not its own input is the DAG invariant
maintained by the external builder. -/
theorem C10_reverse_writes_only_inputs (fs : RealFuns α) (j : Nat) (g : ADGraph α)
    (hj : some j ∉ (getN g j).inputs) :
    getN (backStep fs j g) j = getN g j ∧
    getN (hvpStep fs j g) j = getN g j ∧
    (∀ i, some i ∉ (getN g j).inputs →
      getN (backStep fs j g) i = getN g i ∧ getN (hvpStep fs j g) i = getN g i) ∧
    SameVD g (backStep fs j g) ∧ SameVD g (hvpStep fs j g) :=
  ⟨untouched_backStep fs j g j hj, untouched_hvpStep fs j g j hj,
   fun i hi => ⟨untouched_backStep fs j g i hi, untouched_hvpStep fs j g i hi⟩,
   sameVD_backStep fs j g, sameVD_hvpStep fs j g⟩

theorem C10_reverse_writes_only_inputs_witness :
    some 3 ∉ (getN gW10 3).inputs ∧
    getN (backStep fsQ 3 gW10) 3 = getN gW10 3 ∧
    getN (hvpStep fsQ 3 gW10) 3 = getN gW10 3 ∧
    getN (backStep fsQ 3 gW10) 2 = getN gW10 2 := by
  have h := C10_reverse_writes_only_inputs fsQ 3 gW10 (by decide)
  exact ⟨by decide, h.1, h.2.1, (h.2.2.1 2 (by decide)).1⟩

end ChompAD

/-! ## C4: every slot a pass writes is tagged with the pass's current counter -/

namespace ChompAD

variable {α : Type} [LinearOrderedField α]

/-- `Tagged g g'`: `g'` differs from `g` only through writes that stamped the
affected slot's epoch tag with the graph's current counter for that slot's
pass; counters and length are untouched.  For each of the four slots: either
the (slot, tag) pair is exactly as before, or the tag now equals the current
counter. -/
def Tagged (g g' : ADGraph α) : Prop :=
  g'.nodes.length = g.nodes.length ∧
  g'.cur_val_epoch_ = g.cur_val_epoch_ ∧
  g'.cur_dot_epoch_ = g.cur_dot_epoch_ ∧
  g'.cur_grad_epoch_ = g.cur_grad_epoch_ ∧
  g'.cur_gdot_epoch_ = g.cur_gdot_epoch_ ∧
  ∀ k,
    ((getN g' k).value = (getN g k).value ∧ (getN g' k).val_epoch = (getN g k).val_epoch ∨
      (getN g' k).val_epoch = g.cur_val_epoch_) ∧
    ((getN g' k).dot = (getN g k).dot ∧ (getN g' k).dot_epoch = (getN g k).dot_epoch ∨
      (getN g' k).dot_epoch = g.cur_dot_epoch_) ∧
    ((getN g' k).gradient = (getN g k).gradient ∧
        (getN g' k).grad_epoch = (getN g k).grad_epoch ∨
      (getN g' k).grad_epoch = g.cur_grad_epoch_) ∧
    ((getN g' k).grad_dot = (getN g k).grad_dot ∧
        (getN g' k).gdot_epoch = (getN g k).gdot_epoch ∨
      (getN g' k).gdot_epoch = g.cur_gdot_epoch_)

def Tagged.refl (g : ADGraph α) : Tagged g g :=
  ⟨rfl, rfl, rfl, rfl, rfl, fun _ =>
    ⟨Or.inl ⟨rfl, rfl⟩, Or.inl ⟨rfl, rfl⟩, Or.inl ⟨rfl, rfl⟩, Or.inl ⟨rfl, rfl⟩⟩⟩

def Tagged.trans {g1 g2 g3 : ADGraph α} (h12 : Tagged g1 g2) (h23 : Tagged g2 g3) :
    Tagged g1 g3 := by
  obtain ⟨l12, v12, d12, r12, t12, n12⟩ := h12
  obtain ⟨l23, v23, d23, r23, t23, n23⟩ := h23
  refine ⟨l23.trans l12, v23.trans v12, d23.trans d12, r23.trans r12, t23.trans t12,
    fun k => ⟨?_, ?_, ?_, ?_⟩⟩
  · rcases (n23 k).1 with ⟨ha, hb⟩ | h
    · rcases (n12 k).1 with ⟨hc, hd⟩ | h'
      · exact Or.inl ⟨ha.trans hc, hb.trans hd⟩
      · exact Or.inr (hb.trans h')
    · exact Or.inr (h.trans v12)
  · rcases (n23 k).2.1 with ⟨ha, hb⟩ | h
    · rcases (n12 k).2.1 with ⟨hc, hd⟩ | h'
      · exact Or.inl ⟨ha.trans hc, hb.trans hd⟩
      · exact Or.inr (hb.trans h')
    · exact Or.inr (h.trans d12)
  · rcases (n23 k).2.2.1 with ⟨ha, hb⟩ | h
    · rcases (n12 k).2.2.1 with ⟨hc, hd⟩ | h'
      · exact Or.inl ⟨ha.trans hc, hb.trans hd⟩
      · exact Or.inr (hb.trans h')
    · exact Or.inr (h.trans r12)
  · rcases (n23 k).2.2.2 with ⟨ha, hb⟩ | h
    · rcases (n12 k).2.2.2 with ⟨hc, hd⟩ | h'
      · exact Or.inl ⟨ha.trans hc, hb.trans hd⟩
      · exact Or.inr (hb.trans h')
    · exact Or.inr (h.trans t12)

theorem tagged_updN (g : ADGraph α) (i : Nat) (f : ADNode α → ADNode α)
    (hf : ∀ nd,
      ((f nd).value = nd.value ∧ (f nd).val_epoch = nd.val_epoch ∨
        (f nd).val_epoch = g.cur_val_epoch_) ∧
      ((f nd).dot = nd.dot ∧ (f nd).dot_epoch = nd.dot_epoch ∨
        (f nd).dot_epoch = g.cur_dot_epoch_) ∧
      ((f nd).gradient = nd.gradient ∧ (f nd).grad_epoch = nd.grad_epoch ∨
        (f nd).grad_epoch = g.cur_grad_epoch_) ∧
      ((f nd).grad_dot = nd.grad_dot ∧ (f nd).gdot_epoch = nd.gdot_epoch ∨
        (f nd).gdot_epoch = g.cur_gdot_epoch_)) :
    Tagged g (updN g i f) := by
  refine ⟨length_updN g i f, rfl, rfl, rfl, rfl, fun k => ?_⟩
  rw [getN_updN]
  split
  · next hc =>
      obtain ⟨hik, _⟩ := hc
      subst hik
      exact hf (getN g i)
  · exact ⟨Or.inl ⟨rfl, rfl⟩, Or.inl ⟨rfl, rfl⟩, Or.inl ⟨rfl, rfl⟩, Or.inl ⟨rfl, rfl⟩⟩

theorem updN_updN_same (g : ADGraph α) (i : Nat) (f1 f2 : ADNode α → ADNode α) :
    updN (updN g i f1) i f2 = updN g i fun nd => f2 (f1 nd) := by
  by_cases h : i < g.nodes.length
  · have hst : getN (updN g i f1) i = f1 (getN g i) := getN_updN_self h
    show { updN g i f1 with
      nodes := (updN g i f1).nodes.set i (f2 (getN (updN g i f1) i)) } = _
    rw [hst]
    show { g with nodes := (g.nodes.set i (f1 (getN g i))).set i (f2 (f1 (getN g i))) } = _
    rw [List.set_set]
    rfl
  · rw [updN_of_length_le f1 (le_of_not_lt h), updN_of_length_le f2 (le_of_not_lt h),
      updN_of_length_le _ (le_of_not_lt h)]

theorem tagged_setVal (g : ADGraph α) (j : Nat) (v : α) : Tagged g (setVal g j v) :=
  tagged_updN g j _ fun nd =>
    ⟨Or.inr rfl, Or.inl ⟨rfl, rfl⟩, Or.inl ⟨rfl, rfl⟩, Or.inl ⟨rfl, rfl⟩⟩

theorem tagged_setDot (g : ADGraph α) (j : Nat) (v : α) : Tagged g (setDot g j v) :=
  tagged_updN g j _ fun nd =>
    ⟨Or.inl ⟨rfl, rfl⟩, Or.inr rfl, Or.inl ⟨rfl, rfl⟩, Or.inl ⟨rfl, rfl⟩⟩

theorem tagged_touchVal (g : ADGraph α) (j : Nat) : Tagged g (touchVal g j) :=
  tagged_updN g j _ fun nd =>
    ⟨Or.inr rfl, Or.inl ⟨rfl, rfl⟩, Or.inl ⟨rfl, rfl⟩, Or.inl ⟨rfl, rfl⟩⟩

theorem tagged_touchDot (g : ADGraph α) (j : Nat) : Tagged g (touchDot g j) :=
  tagged_updN g j _ fun nd =>
    ⟨Or.inl ⟨rfl, rfl⟩, Or.inr rfl, Or.inl ⟨rfl, rfl⟩, Or.inl ⟨rfl, rfl⟩⟩

theorem accGrad_eq_updN (g : ADGraph α) (i : Nat) (d : α) :
    accGrad g i d = updN g i fun nd =>
      { nd with gradient := ensure_epoch_zero nd.gradient nd.grad_epoch g.cur_grad_epoch_ + d,
                grad_epoch := g.cur_grad_epoch_ } := by
  unfold accGrad addGrad ensGrad
  rw [updN_updN_same]

theorem accGDot_eq_updN (g : ADGraph α) (i : Nat) (d : α) :
    accGDot g i d = updN g i fun nd =>
      { nd with grad_dot := ensure_epoch_zero nd.grad_dot nd.gdot_epoch g.cur_gdot_epoch_ + d,
                gdot_epoch := g.cur_gdot_epoch_ } := by
  unfold accGDot addGDot ensGDot
  rw [updN_updN_same]

theorem tagged_accGrad (g : ADGraph α) (i : Nat) (d : α) : Tagged g (accGrad g i d) := by
  rw [accGrad_eq_updN]
  exact tagged_updN g i _ fun nd =>
    ⟨Or.inl ⟨rfl, rfl⟩, Or.inl ⟨rfl, rfl⟩, Or.inr rfl, Or.inl ⟨rfl, rfl⟩⟩

theorem tagged_accGDot (g : ADGraph α) (i : Nat) (d : α) : Tagged g (accGDot g i d) := by
  rw [accGDot_eq_updN]
  exact tagged_updN g i _ fun nd =>
    ⟨Or.inl ⟨rfl, rfl⟩, Or.inl ⟨rfl, rfl⟩, Or.inl ⟨rfl, rfl⟩, Or.inr rfl⟩

theorem tagged_accGradO (g : ADGraph α) (r : Option Nat) (d : α) :
    Tagged g (accGradO g r d) := by
  cases r with
  | some i => exact tagged_accGrad g i d
  | none => exact Tagged.refl g

theorem tagged_accGDotO (g : ADGraph α) (r : Option Nat) (d : α) :
    Tagged g (accGDotO g r d) := by
  cases r with
  | some i => exact tagged_accGDot g i d
  | none => exact Tagged.refl g

/-- The ensure-ensure-add-add quadruple on one node, as one update. -/
theorem tagged_revQuad (g : ADGraph α) (i : Nat) (d1 d2 : α) :
    Tagged g (addGDot (addGrad (ensGDot (ensGrad g i) i) i d1) i d2) := by
  unfold addGDot addGrad ensGDot ensGrad
  rw [updN_updN_same, updN_updN_same, updN_updN_same]
  exact tagged_updN g i _ fun nd =>
    ⟨Or.inl ⟨rfl, rfl⟩, Or.inl ⟨rfl, rfl⟩, Or.inr rfl, Or.inr rfl⟩

theorem tagged_revQuadO (g : ADGraph α) (r : Option Nat) (d1 d2 : α) :
    Tagged g (addGDotO (addGradO (ensGDotO (ensGradO g r) r) r d1) r d2) := by
  cases r with
  | some i => exact tagged_revQuad g i d1 d2
  | none => exact Tagged.refl g

end ChompAD

namespace ChompAD

variable {α : Type} [LinearOrderedField α]

/-- Node `i`'s gradient tag is current (vacuous when out of range). -/
def GradTagged (g : ADGraph α) (i : Nat) : Prop :=
  i < g.nodes.length → (getN g i).grad_epoch = g.cur_grad_epoch_

/-- Node `i`'s grad_dot tag is current (vacuous when out of range). -/
def GDotTagged (g : ADGraph α) (i : Nat) : Prop :=
  i < g.nodes.length → (getN g i).gdot_epoch = g.cur_gdot_epoch_

theorem gradTagged_updN {g : ADGraph α} {i : Nat} (k : Nat) (f : ADNode α → ADNode α)
    (hf : ∀ nd, (f nd).grad_epoch = nd.grad_epoch ∨ (f nd).grad_epoch = g.cur_grad_epoch_)
    (h : GradTagged g i) : GradTagged (updN g k f) i := by
  intro hlt
  have hlt' : i < g.nodes.length := by
    simpa [length_updN] using hlt
  show _ = g.cur_grad_epoch_
  rw [getN_updN]
  split
  · next hc =>
      obtain ⟨hki, _⟩ := hc
      subst hki
      rcases hf (getN g k) with h1 | h1
      · rw [h1]; exact h hlt'
      · exact h1
  · exact h hlt'

theorem gdotTagged_updN {g : ADGraph α} {i : Nat} (k : Nat) (f : ADNode α → ADNode α)
    (hf : ∀ nd, (f nd).gdot_epoch = nd.gdot_epoch ∨ (f nd).gdot_epoch = g.cur_gdot_epoch_)
    (h : GDotTagged g i) : GDotTagged (updN g k f) i := by
  intro hlt
  have hlt' : i < g.nodes.length := by
    simpa [length_updN] using hlt
  show _ = g.cur_gdot_epoch_
  rw [getN_updN]
  split
  · next hc =>
      obtain ⟨hki, _⟩ := hc
      subst hki
      rcases hf (getN g k) with h1 | h1
      · rw [h1]; exact h hlt'
      · exact h1
  · exact h hlt'

theorem gradTagged_ensGrad_self (g : ADGraph α) (i : Nat) : GradTagged (ensGrad g i) i := by
  intro hlt
  have hlt' : i < g.nodes.length := by
    simpa [ensGrad, length_updN] using hlt
  rw [show getN (ensGrad g i) i = _ from getN_ensGrad_self hlt']
  rfl

theorem gdotTagged_ensGDot_self (g : ADGraph α) (i : Nat) : GDotTagged (ensGDot g i) i := by
  intro hlt
  have hlt' : i < g.nodes.length := by
    simpa [ensGDot, length_updN] using hlt
  rw [show getN (ensGDot g i) i = _ from getN_ensGDot_self hlt']
  rfl

theorem tagged_ensGrad (g : ADGraph α) (i : Nat) : Tagged g (ensGrad g i) :=
  tagged_updN g i _ fun _ =>
    ⟨Or.inl ⟨rfl, rfl⟩, Or.inl ⟨rfl, rfl⟩, Or.inr rfl, Or.inl ⟨rfl, rfl⟩⟩

theorem tagged_ensGDot (g : ADGraph α) (i : Nat) : Tagged g (ensGDot g i) :=
  tagged_updN g i _ fun _ =>
    ⟨Or.inl ⟨rfl, rfl⟩, Or.inl ⟨rfl, rfl⟩, Or.inl ⟨rfl, rfl⟩, Or.inr rfl⟩

theorem tagged_addGrad_of {g g' : ADGraph α} {i : Nat} (d : α) (h : Tagged g g')
    (htag : GradTagged g' i) : Tagged g (addGrad g' i d) := by
  obtain ⟨hlen, hv, hd, hr, ht, hk⟩ := h
  refine ⟨(length_updN g' i _).trans hlen, hv, hd, hr, ht, fun k => ?_⟩
  unfold addGrad
  rw [getN_updN]
  split
  · next hc =>
      obtain ⟨hik, hlt⟩ := hc
      subst hik
      exact ⟨(hk i).1, (hk i).2.1, Or.inr ((htag hlt).trans hr), (hk i).2.2.2⟩
  · exact hk k

theorem tagged_addGDot_of {g g' : ADGraph α} {i : Nat} (d : α) (h : Tagged g g')
    (htag : GDotTagged g' i) : Tagged g (addGDot g' i d) := by
  obtain ⟨hlen, hv, hd, hr, ht, hk⟩ := h
  refine ⟨(length_updN g' i _).trans hlen, hv, hd, hr, ht, fun k => ?_⟩
  unfold addGDot
  rw [getN_updN]
  split
  · next hc =>
      obtain ⟨hik, hlt⟩ := hc
      subst hik
      exact ⟨(hk i).1, (hk i).2.1, (hk i).2.2.1, Or.inr ((htag hlt).trans ht)⟩
  · exact hk k

/-- The interleaved ensure/add chain of the binary second-order bodies. -/
theorem tagged_twoIdxChain (g : ADGraph α) (ai bi : Nat) (d1 d2 d3 d4 : α) :
    Tagged g (addGDot (addGDot (addGrad (addGrad
      (ensGDot (ensGDot (ensGrad (ensGrad g ai) bi) ai) bi) ai d1) bi d2) ai d3) bi d4) := by
  have tE : Tagged g (ensGDot (ensGDot (ensGrad (ensGrad g ai) bi) ai) bi) :=
    (((tagged_ensGrad g ai).trans (tagged_ensGrad _ bi)).trans
      (tagged_ensGDot _ ai)).trans (tagged_ensGDot _ bi)
  have hga : GradTagged (ensGDot (ensGDot (ensGrad (ensGrad g ai) bi) ai) bi) ai :=
    gradTagged_updN bi _ (fun _ => Or.inl rfl)
      (gradTagged_updN ai _ (fun _ => Or.inl rfl)
        (gradTagged_updN bi _ (fun _ => Or.inr rfl)
          (gradTagged_ensGrad_self g ai)))
  have hgb : GradTagged (ensGDot (ensGDot (ensGrad (ensGrad g ai) bi) ai) bi) bi :=
    gradTagged_updN bi _ (fun _ => Or.inl rfl)
      (gradTagged_updN ai _ (fun _ => Or.inl rfl)
        (gradTagged_ensGrad_self (ensGrad g ai) bi))
  have hda : GDotTagged (ensGDot (ensGDot (ensGrad (ensGrad g ai) bi) ai) bi) ai :=
    gdotTagged_updN bi _ (fun _ => Or.inr rfl)
      (gdotTagged_ensGDot_self (ensGrad (ensGrad g ai) bi) ai)
  have hdb : GDotTagged (ensGDot (ensGDot (ensGrad (ensGrad g ai) bi) ai) bi) bi :=
    gdotTagged_ensGDot_self (ensGDot (ensGrad (ensGrad g ai) bi) ai) bi
  have t5 : Tagged g (addGrad (ensGDot (ensGDot (ensGrad (ensGrad g ai) bi) ai) bi) ai d1) :=
    tagged_addGrad_of d1 tE hga
  have hgb5 : GradTagged
      (addGrad (ensGDot (ensGDot (ensGrad (ensGrad g ai) bi) ai) bi) ai d1) bi :=
    gradTagged_updN ai _ (fun _ => Or.inl rfl) hgb
  have t6 : Tagged g (addGrad (addGrad
      (ensGDot (ensGDot (ensGrad (ensGrad g ai) bi) ai) bi) ai d1) bi d2) :=
    tagged_addGrad_of d2 t5 hgb5
  have hda6 : GDotTagged (addGrad (addGrad
      (ensGDot (ensGDot (ensGrad (ensGrad g ai) bi) ai) bi) ai d1) bi d2) ai :=
    gdotTagged_updN bi _ (fun _ => Or.inl rfl)
      (gdotTagged_updN ai _ (fun _ => Or.inl rfl) hda)
  have t7 : Tagged g (addGDot (addGrad (addGrad
      (ensGDot (ensGDot (ensGrad (ensGrad g ai) bi) ai) bi) ai d1) bi d2) ai d3) :=
    tagged_addGDot_of d3 t6 hda6
  have hdb7 : GDotTagged (addGDot (addGrad (addGrad
      (ensGDot (ensGDot (ensGrad (ensGrad g ai) bi) ai) bi) ai d1) bi d2) ai d3) bi :=
    gdotTagged_updN ai _ (fun _ => Or.inl rfl)
      (gdotTagged_updN bi _ (fun _ => Or.inl rfl)
        (gdotTagged_updN ai _ (fun _ => Or.inl rfl) hdb))
  exact tagged_addGDot_of d4 t7 hdb7

end ChompAD

namespace ChompAD

variable {α : Type} [LinearOrderedField α]

theorem tagged_forwardStep (fs : RealFuns α) (j : Nat) (g : ADGraph α) :
    Tagged g (forwardStep fs j g) := by
  have unary : ∀ R : URule α, Tagged g (UnaryOp.forward R j g) := by
    intro R
    unfold UnaryOp.forward
    split
    all_goals first
      | exact tagged_setVal _ _ _
      | exact Tagged.refl g
  have binary : ∀ R : BRule α, Tagged g (BinaryOp.forward R j g) := by
    intro R
    unfold BinaryOp.forward
    split
    all_goals first
      | exact tagged_setVal _ _ _
      | exact Tagged.refl g
  unfold forwardStep
  split
  · exact tagged_touchVal g j
  · exact tagged_touchVal g j
  · unfold AddOp.forward
    split
    · exact tagged_setVal _ _ _
    · exact Tagged.refl g
  · exact binary _
  · unfold MulOp.forward
    split
    · exact tagged_setVal _ _ _
    · exact Tagged.refl g
  · exact binary _
  · exact unary _
  · exact unary _
  · exact unary _
  · exact unary _
  · exact unary _
  · unfold MaxOp.forward
    split
    all_goals first
      | exact tagged_setVal _ _ _
      | exact Tagged.refl g
  · exact unary _
  · exact unary _
  · exact unary _
  · exact unary _
  · unfold SoftmaxOp.forward
    split
    · exact tagged_setVal _ _ _
    · exact Tagged.refl g
  · exact Tagged.refl g

theorem tagged_dotStep (fs : RealFuns α) (j : Nat) (g : ADGraph α) :
    Tagged g (dotStep fs j g) := by
  have unary : ∀ R : URule α, Tagged g (UnaryOp.forward_dot R j g) := by
    intro R
    unfold UnaryOp.forward_dot
    split
    all_goals first
      | exact (tagged_setDot _ _ _).trans (tagged_touchVal _ _)
      | exact Tagged.refl g
  unfold dotStep
  split
  · exact (tagged_touchDot g j).trans (tagged_touchVal _ j)
  · exact (tagged_touchDot g j).trans (tagged_touchVal _ j)
  · unfold AddOp.forward_dot
    split
    · exact (tagged_setDot _ _ _).trans (tagged_touchVal _ _)
    · exact Tagged.refl g
  · unfold BinaryOp.forward_dot
    split
    all_goals first
      | exact (tagged_setDot _ _ _).trans (tagged_touchVal _ _)
      | exact Tagged.refl g
  · unfold MulOp.forward_dot
    split
    · exact (tagged_setDot _ _ _).trans (tagged_touchVal _ _)
    · exact Tagged.refl g
  · unfold DivOp.forward_dot
    split
    all_goals first
      | exact (tagged_setDot _ _ _).trans (tagged_touchVal _ _)
      | exact Tagged.refl g
  · exact unary _
  · exact unary _
  · unfold TanOp.forward_dot
    split
    all_goals first
      | exact (tagged_setDot _ _ _).trans (tagged_touchVal _ _)
      | exact Tagged.refl g
  · exact unary _
  · unfold LogOp.forward_dot
    split
    all_goals first
      | exact (tagged_setDot _ _ _).trans (tagged_touchVal _ _)
      | exact Tagged.refl g
  · unfold MaxOp.forward_dot
    split
    all_goals first
      | exact (tagged_setDot _ _ _).trans (tagged_touchVal _ _)
      | exact Tagged.refl g
  · exact unary _
  · exact unary _
  · exact unary _
  · exact unary _
  · unfold SoftmaxOp.forward_dot
    split
    · exact (tagged_setDot _ _ _).trans (tagged_touchVal _ _)
    · exact Tagged.refl g
  · exact Tagged.refl g

theorem tagged_backStep (fs : RealFuns α) (j : Nat) (g : ADGraph α) :
    Tagged g (backStep fs j g) := by
  have unary : ∀ R : URule α, Tagged g (UnaryOp.backward R j g) := by
    intro R
    unfold UnaryOp.backward
    split
    all_goals first
      | exact tagged_accGrad _ _ _
      | exact Tagged.refl g
  have binary : ∀ R : BRule α, Tagged g (BinaryOp.backward R j g) := by
    intro R
    unfold BinaryOp.backward
    split
    all_goals first
      | exact (tagged_accGrad _ _ _).trans (tagged_accGrad _ _ _)
      | exact Tagged.refl g
  unfold backStep
  split
  · exact Tagged.refl g
  · exact Tagged.refl g
  · unfold AddOp.backward
    split
    · exact foldl_pres (fun h1 h2 => h1.trans h2) Tagged.refl _ _
        (fun h r _ => tagged_accGradO h r _) g
    · exact Tagged.refl g
  · exact binary _
  · unfold MulOp.backward
    split
    · exact foldl_pres (fun h1 h2 => h1.trans h2) Tagged.refl _ _
        (fun h k _ => tagged_accGradO h _ _) g
    · exact Tagged.refl g
  · exact binary _
  · exact unary _
  · exact unary _
  · exact unary _
  · exact unary _
  · exact unary _
  · unfold MaxOp.backward
    split
    · split
      · exact tagged_accGrad _ _ _
      · exact tagged_accGrad _ _ _
    · exact Tagged.refl g
  · exact unary _
  · exact unary _
  · exact unary _
  · exact unary _
  · unfold SoftmaxOp.backward
    split
    · exact foldl_pres (fun h1 h2 => h1.trans h2) Tagged.refl _ _
        (fun h k _ => tagged_accGradO h _ _) g
    · exact Tagged.refl g
  · exact Tagged.refl g

theorem tagged_hvpStep (fs : RealFuns α) (j : Nat) (g : ADGraph α) :
    Tagged g (hvpStep fs j g) := by
  have unary : ∀ R : URule α, Tagged g (UnaryOp.hvp_backward R j g) := by
    intro R
    unfold UnaryOp.hvp_backward
    split
    all_goals first
      | exact tagged_revQuad _ _ _ _
      | exact Tagged.refl g
  have binary : ∀ R : BRule α, Tagged g (BinaryOp.hvp_backward R j g) := by
    intro R
    unfold BinaryOp.hvp_backward
    split
    all_goals first
      | exact tagged_twoIdxChain _ _ _ _ _ _ _
      | exact Tagged.refl g
  unfold hvpStep
  split
  · exact Tagged.refl g
  · exact Tagged.refl g
  · unfold AddOp.hvp_backward
    split
    · exact foldl_pres (fun h1 h2 => h1.trans h2) Tagged.refl _ _
        (fun h r _ => (tagged_accGradO h r _).trans (tagged_accGDotO _ r _)) g
    · exact Tagged.refl g
  · exact binary _
  · unfold MulOp.hvp_backward
    split
    · split
      · cases ha : (getN g j).inputs.getD 0 none with
        | none =>
            cases hb : (getN g j).inputs.getD 1 none with
            | none => exact Tagged.refl g
            | some b1 => exact tagged_revQuad g b1 _ _
        | some a1 =>
            cases hb : (getN g j).inputs.getD 1 none with
            | none => exact tagged_revQuad g a1 _ _
            | some b1 => exact tagged_twoIdxChain g a1 b1 _ _ _ _
      · exact foldl_pres (fun h1 h2 => h1.trans h2) Tagged.refl _ _
          (fun h k _ => tagged_revQuadO h _ _ _) g
    · exact Tagged.refl g
  · exact binary _
  · exact unary _
  · exact unary _
  · exact unary _
  · exact unary _
  · exact unary _
  · unfold MaxOp.hvp_backward
    split
    · split
      · exact (tagged_accGrad _ _ _).trans (tagged_accGDot _ _ _)
      · exact (tagged_accGrad _ _ _).trans (tagged_accGDot _ _ _)
    · exact Tagged.refl g
  · exact unary _
  · exact unary _
  · exact unary _
  · exact unary _
  · unfold SoftmaxOp.hvp_backward
    split
    · exact foldl_pres (fun h1 h2 => h1.trans h2) Tagged.refl _ _
        (fun h k _ => tagged_revQuadO h _ _ _) g
    · exact Tagged.refl g
  · exact Tagged.refl g

end ChompAD

namespace ChompAD

variable {α : Type} [LinearOrderedField α]

/-- Known (specialized) operator tags. -/
def knownOp : Operator → Bool
  | .other _ => false
  | _ => true

/-- Operators whose backward/hvp_backward write every input's accumulators. -/
def broadcastsAll : Operator → Bool
  | .Add | .Subtract | .Multiply | .Divide | .Softmax
  | .Sin | .Cos | .Tan | .Exp | .Log | .Tanh | .Silu | .Gelu | .Relu => true
  | _ => false

theorem unary_ok_shape {n : ADNode α} (h : _unary_ok n = true) :
    ∃ ai, n.inputs = [some ai] := by
  unfold _unary_ok at h
  split at h
  · next ai heq => exact ⟨ai, heq⟩
  · exact Bool.noConfusion h

theorem binary_ok_shape {n : ADNode α} (h : _binary_ok n = true) :
    ∃ ai bi, n.inputs = [some ai, some bi] := by
  unfold _binary_ok at h
  split at h
  · next ai bi heq => exact ⟨ai, bi, heq⟩
  · exact Bool.noConfusion h

theorem gradTagged_accGrad_mono {h : ADGraph α} {i : Nat} (k : Nat) (d : α)
    (hh : GradTagged h i) : GradTagged (accGrad h k d) i := by
  rw [accGrad_eq_updN]
  exact gradTagged_updN k _ (fun _ => Or.inr rfl) hh

theorem gradTagged_accGrad_self (h : ADGraph α) (i : Nat) (d : α) :
    GradTagged (accGrad h i d) i := by
  rw [accGrad_eq_updN]
  intro hlt
  have hlt' : i < h.nodes.length := by
    simpa [length_updN] using hlt
  rw [getN_updN_self hlt']
  rfl

theorem gradTagged_accGDot_mono {h : ADGraph α} {i : Nat} (k : Nat) (d : α)
    (hh : GradTagged h i) : GradTagged (accGDot h k d) i := by
  rw [accGDot_eq_updN]
  exact gradTagged_updN k _ (fun _ => Or.inl rfl) hh

theorem gdotTagged_accGDot_mono {h : ADGraph α} {i : Nat} (k : Nat) (d : α)
    (hh : GDotTagged h i) : GDotTagged (accGDot h k d) i := by
  rw [accGDot_eq_updN]
  exact gdotTagged_updN k _ (fun _ => Or.inr rfl) hh

theorem gdotTagged_accGDot_self (h : ADGraph α) (i : Nat) (d : α) :
    GDotTagged (accGDot h i d) i := by
  rw [accGDot_eq_updN]
  intro hlt
  have hlt' : i < h.nodes.length := by
    simpa [length_updN] using hlt
  rw [getN_updN_self hlt']
  rfl

theorem gdotTagged_accGrad_mono {h : ADGraph α} {i : Nat} (k : Nat) (d : α)
    (hh : GDotTagged h i) : GDotTagged (accGrad h k d) i := by
  rw [accGrad_eq_updN]
  exact gdotTagged_updN k _ (fun _ => Or.inl rfl) hh

theorem gradTagged_accGradO_mono {h : ADGraph α} {i : Nat} (r : Option Nat) (d : α)
    (hh : GradTagged h i) : GradTagged (accGradO h r d) i := by
  cases r with
  | some k => exact gradTagged_accGrad_mono k d hh
  | none => exact hh

theorem gradTagged_accGDotO_mono {h : ADGraph α} {i : Nat} (r : Option Nat) (d : α)
    (hh : GradTagged h i) : GradTagged (accGDotO h r d) i := by
  cases r with
  | some k => exact gradTagged_accGDot_mono k d hh
  | none => exact hh

theorem gdotTagged_accGradO_mono {h : ADGraph α} {i : Nat} (r : Option Nat) (d : α)
    (hh : GDotTagged h i) : GDotTagged (accGradO h r d) i := by
  cases r with
  | some k => exact gdotTagged_accGrad_mono k d hh
  | none => exact hh

theorem gdotTagged_accGDotO_mono {h : ADGraph α} {i : Nat} (r : Option Nat) (d : α)
    (hh : GDotTagged h i) : GDotTagged (accGDotO h r d) i := by
  cases r with
  | some k => exact gdotTagged_accGDot_mono k d hh
  | none => exact hh

theorem gradTagged_revQuad_self (g : ADGraph α) (i : Nat) (d1 d2 : α) :
    GradTagged (addGDot (addGrad (ensGDot (ensGrad g i) i) i d1) i d2) i :=
  gradTagged_updN i _ (fun _ => Or.inl rfl)
    (gradTagged_updN i _ (fun _ => Or.inl rfl)
      (gradTagged_updN i _ (fun _ => Or.inl rfl)
        (gradTagged_ensGrad_self g i)))

theorem gdotTagged_revQuad_self (g : ADGraph α) (i : Nat) (d1 d2 : α) :
    GDotTagged (addGDot (addGrad (ensGDot (ensGrad g i) i) i d1) i d2) i :=
  gdotTagged_updN i _ (fun _ => Or.inl rfl)
    (gdotTagged_updN i _ (fun _ => Or.inl rfl)
      (gdotTagged_ensGDot_self (ensGrad g i) i))

theorem gradTagged_revQuad_mono {h : ADGraph α} {i : Nat} (k : Nat) (d1 d2 : α)
    (hh : GradTagged h i) :
    GradTagged (addGDot (addGrad (ensGDot (ensGrad h k) k) k d1) k d2) i :=
  gradTagged_updN k _ (fun _ => Or.inl rfl)
    (gradTagged_updN k _ (fun _ => Or.inl rfl)
      (gradTagged_updN k _ (fun _ => Or.inl rfl)
        (gradTagged_updN k _ (fun _ => Or.inr rfl) hh)))

theorem gdotTagged_revQuad_mono {h : ADGraph α} {i : Nat} (k : Nat) (d1 d2 : α)
    (hh : GDotTagged h i) :
    GDotTagged (addGDot (addGrad (ensGDot (ensGrad h k) k) k d1) k d2) i :=
  gdotTagged_updN k _ (fun _ => Or.inl rfl)
    (gdotTagged_updN k _ (fun _ => Or.inl rfl)
      (gdotTagged_updN k _ (fun _ => Or.inr rfl)
        (gdotTagged_updN k _ (fun _ => Or.inl rfl) hh)))

theorem gradTagged_revQuadO_mono {h : ADGraph α} {i : Nat} (r : Option Nat) (d1 d2 : α)
    (hh : GradTagged h i) :
    GradTagged (addGDotO (addGradO (ensGDotO (ensGradO h r) r) r d1) r d2) i := by
  cases r with
  | some k => exact gradTagged_revQuad_mono k d1 d2 hh
  | none => exact hh

theorem gdotTagged_revQuadO_mono {h : ADGraph α} {i : Nat} (r : Option Nat) (d1 d2 : α)
    (hh : GDotTagged h i) :
    GDotTagged (addGDotO (addGradO (ensGDotO (ensGradO h r) r) r d1) r d2) i := by
  cases r with
  | some k => exact gdotTagged_revQuad_mono k d1 d2 hh
  | none => exact hh

theorem gradTagged_foldl_pres {β : Type} (l : List β) (body : ADGraph α → β → ADGraph α)
    (hmono : ∀ h x, x ∈ l → ∀ i, GradTagged h i → GradTagged (body h x) i) :
    ∀ g i, GradTagged g i → GradTagged (l.foldl body g) i := by
  induction l with
  | nil => exact fun g i h => h
  | cons x xs ih =>
      intro g i h
      exact ih (fun h' y hy i' => hmono h' y (by simp [hy]) i')
        (body g x) i (hmono g x (by simp) i h)

theorem gdotTagged_foldl_pres {β : Type} (l : List β) (body : ADGraph α → β → ADGraph α)
    (hmono : ∀ h x, x ∈ l → ∀ i, GDotTagged h i → GDotTagged (body h x) i) :
    ∀ g i, GDotTagged g i → GDotTagged (l.foldl body g) i := by
  induction l with
  | nil => exact fun g i h => h
  | cons x xs ih =>
      intro g i h
      exact ih (fun h' y hy i' => hmono h' y (by simp [hy]) i')
        (body g x) i (hmono g x (by simp) i h)

theorem gradTagged_foldl_tags {β : Type} (P : β → Nat → Prop) (l : List β)
    (body : ADGraph α → β → ADGraph α)
    (hmono : ∀ h x, x ∈ l → ∀ i, GradTagged h i → GradTagged (body h x) i)
    (hstep : ∀ h x i, P x i → GradTagged (body h x) i) :
    ∀ g i, (∃ x ∈ l, P x i) → GradTagged (l.foldl body g) i := by
  induction l with
  | nil =>
      rintro g i ⟨x, hx, _⟩
      cases hx
  | cons x xs ih =>
      rintro g i ⟨y, hy, hPy⟩
      rcases List.mem_cons.mp hy with rfl | hmem
      · exact gradTagged_foldl_pres xs body
          (fun h' z hz i' => hmono h' z (by simp [hz]) i') (body g y) i
          (hstep g y i hPy)
      · exact ih (fun h' z hz i' => hmono h' z (by simp [hz]) i') (body g x) i
          ⟨y, hmem, hPy⟩

theorem gdotTagged_foldl_tags {β : Type} (P : β → Nat → Prop) (l : List β)
    (body : ADGraph α → β → ADGraph α)
    (hmono : ∀ h x, x ∈ l → ∀ i, GDotTagged h i → GDotTagged (body h x) i)
    (hstep : ∀ h x i, P x i → GDotTagged (body h x) i) :
    ∀ g i, (∃ x ∈ l, P x i) → GDotTagged (l.foldl body g) i := by
  induction l with
  | nil =>
      rintro g i ⟨x, hx, _⟩
      cases hx
  | cons x xs ih =>
      rintro g i ⟨y, hy, hPy⟩
      rcases List.mem_cons.mp hy with rfl | hmem
      · exact gdotTagged_foldl_pres xs body
          (fun h' z hz i' => hmono h' z (by simp [hz]) i') (body g y) i
          (hstep g y i hPy)
      · exact ih (fun h' z hz i' => hmono h' z (by simp [hz]) i') (body g x) i
          ⟨y, hmem, hPy⟩

theorem mem_exists_getD {l : List (Option Nat)} {i : Nat} (h : some i ∈ l) :
    ∃ k, k ∈ List.range l.length ∧ l.getD k none = some i := by
  rcases List.mem_iff_getElem.mp h with ⟨k, hk, hget⟩
  refine ⟨k, List.mem_range.mpr hk, ?_⟩
  rw [List.getD_eq_getElem?_getD, List.getElem?_eq_getElem hk, hget]
  rfl

end ChompAD

namespace ChompAD

variable {α : Type} [LinearOrderedField α]

theorem gradTagged_ensGrad_mono {h : ADGraph α} {i : Nat} (k : Nat)
    (hh : GradTagged h i) : GradTagged (ensGrad h k) i :=
  gradTagged_updN k _ (fun _ => Or.inr rfl) hh

theorem gradTagged_ensGDot_mono {h : ADGraph α} {i : Nat} (k : Nat)
    (hh : GradTagged h i) : GradTagged (ensGDot h k) i :=
  gradTagged_updN k _ (fun _ => Or.inl rfl) hh

theorem gradTagged_addGrad_mono {h : ADGraph α} {i : Nat} (k : Nat) (d : α)
    (hh : GradTagged h i) : GradTagged (addGrad h k d) i :=
  gradTagged_updN k _ (fun _ => Or.inl rfl) hh

theorem gradTagged_addGDot_mono {h : ADGraph α} {i : Nat} (k : Nat) (d : α)
    (hh : GradTagged h i) : GradTagged (addGDot h k d) i :=
  gradTagged_updN k _ (fun _ => Or.inl rfl) hh

theorem gdotTagged_ensGrad_mono {h : ADGraph α} {i : Nat} (k : Nat)
    (hh : GDotTagged h i) : GDotTagged (ensGrad h k) i :=
  gdotTagged_updN k _ (fun _ => Or.inl rfl) hh

theorem gdotTagged_ensGDot_mono {h : ADGraph α} {i : Nat} (k : Nat)
    (hh : GDotTagged h i) : GDotTagged (ensGDot h k) i :=
  gdotTagged_updN k _ (fun _ => Or.inr rfl) hh

theorem gdotTagged_addGrad_mono {h : ADGraph α} {i : Nat} (k : Nat) (d : α)
    (hh : GDotTagged h i) : GDotTagged (addGrad h k d) i :=
  gdotTagged_updN k _ (fun _ => Or.inl rfl) hh

theorem gdotTagged_addGDot_mono {h : ADGraph α} {i : Nat} (k : Nat) (d : α)
    (hh : GDotTagged h i) : GDotTagged (addGDot h k d) i :=
  gdotTagged_updN k _ (fun _ => Or.inl rfl) hh

theorem gradTagged_ensGradO_mono {h : ADGraph α} {i : Nat} (r : Option Nat)
    (hh : GradTagged h i) : GradTagged (ensGradO h r) i := by
  cases r with
  | some k => exact gradTagged_ensGrad_mono k hh
  | none => exact hh

theorem gradTagged_ensGDotO_mono {h : ADGraph α} {i : Nat} (r : Option Nat)
    (hh : GradTagged h i) : GradTagged (ensGDotO h r) i := by
  cases r with
  | some k => exact gradTagged_ensGDot_mono k hh
  | none => exact hh

theorem gradTagged_addGradO_mono {h : ADGraph α} {i : Nat} (r : Option Nat) (d : α)
    (hh : GradTagged h i) : GradTagged (addGradO h r d) i := by
  cases r with
  | some k => exact gradTagged_addGrad_mono k d hh
  | none => exact hh

theorem gradTagged_addGDotO_mono {h : ADGraph α} {i : Nat} (r : Option Nat) (d : α)
    (hh : GradTagged h i) : GradTagged (addGDotO h r d) i := by
  cases r with
  | some k => exact gradTagged_addGDot_mono k d hh
  | none => exact hh

theorem gdotTagged_ensGradO_mono {h : ADGraph α} {i : Nat} (r : Option Nat)
    (hh : GDotTagged h i) : GDotTagged (ensGradO h r) i := by
  cases r with
  | some k => exact gdotTagged_ensGrad_mono k hh
  | none => exact hh

theorem gdotTagged_ensGDotO_mono {h : ADGraph α} {i : Nat} (r : Option Nat)
    (hh : GDotTagged h i) : GDotTagged (ensGDotO h r) i := by
  cases r with
  | some k => exact gdotTagged_ensGDot_mono k hh
  | none => exact hh

theorem gdotTagged_addGradO_mono {h : ADGraph α} {i : Nat} (r : Option Nat) (d : α)
    (hh : GDotTagged h i) : GDotTagged (addGradO h r d) i := by
  cases r with
  | some k => exact gdotTagged_addGrad_mono k d hh
  | none => exact hh

theorem gdotTagged_addGDotO_mono {h : ADGraph α} {i : Nat} (r : Option Nat) (d : α)
    (hh : GDotTagged h i) : GDotTagged (addGDotO h r d) i := by
  cases r with
  | some k => exact gdotTagged_addGDot_mono k d hh
  | none => exact hh

theorem twoIdx_grad_fst (g : ADGraph α) (ai bi : Nat) (d1 d2 d3 d4 : α) :
    GradTagged (addGDot (addGDot (addGrad (addGrad
      (ensGDot (ensGDot (ensGrad (ensGrad g ai) bi) ai) bi) ai d1) bi d2) ai d3) bi d4) ai :=
  gradTagged_addGDot_mono bi d4
    (gradTagged_addGDot_mono ai d3
      (gradTagged_addGrad_mono bi d2
        (gradTagged_addGrad_mono ai d1
          (gradTagged_ensGDot_mono bi
            (gradTagged_ensGDot_mono ai
              (gradTagged_ensGrad_mono bi
                (gradTagged_ensGrad_self g ai)))))))

theorem twoIdx_grad_snd (g : ADGraph α) (ai bi : Nat) (d1 d2 d3 d4 : α) :
    GradTagged (addGDot (addGDot (addGrad (addGrad
      (ensGDot (ensGDot (ensGrad (ensGrad g ai) bi) ai) bi) ai d1) bi d2) ai d3) bi d4) bi :=
  gradTagged_addGDot_mono bi d4
    (gradTagged_addGDot_mono ai d3
      (gradTagged_addGrad_mono bi d2
        (gradTagged_addGrad_mono ai d1
          (gradTagged_ensGDot_mono bi
            (gradTagged_ensGDot_mono ai
              (gradTagged_ensGrad_self (ensGrad g ai) bi))))))

theorem twoIdx_gdot_fst (g : ADGraph α) (ai bi : Nat) (d1 d2 d3 d4 : α) :
    GDotTagged (addGDot (addGDot (addGrad (addGrad
      (ensGDot (ensGDot (ensGrad (ensGrad g ai) bi) ai) bi) ai d1) bi d2) ai d3) bi d4) ai :=
  gdotTagged_addGDot_mono bi d4
    (gdotTagged_addGDot_mono ai d3
      (gdotTagged_addGrad_mono bi d2
        (gdotTagged_addGrad_mono ai d1
          (gdotTagged_ensGDot_mono bi
            (gdotTagged_ensGDot_self (ensGrad (ensGrad g ai) bi) ai)))))

theorem twoIdx_gdot_snd (g : ADGraph α) (ai bi : Nat) (d1 d2 d3 d4 : α) :
    GDotTagged (addGDot (addGDot (addGrad (addGrad
      (ensGDot (ensGDot (ensGrad (ensGrad g ai) bi) ai) bi) ai d1) bi d2) ai d3) bi d4) bi :=
  gdotTagged_addGDot_mono bi d4
    (gdotTagged_addGDot_mono ai d3
      (gdotTagged_addGrad_mono bi d2
        (gdotTagged_addGrad_mono ai d1
          (gdotTagged_ensGDot_self (ensGDot (ensGrad (ensGrad g ai) bi) ai) bi))))

end ChompAD

namespace ChompAD

variable {α : Type} [LinearOrderedField α]

theorem mem_two {l : List (Option Nat)} {i : Nat} (hlen : l.length = 2)
    (h : some i ∈ l) : l.getD 0 none = some i ∨ l.getD 1 none = some i := by
  rcases mem_exists_getD h with ⟨k, hk, hget⟩
  have hk2 : k < 2 := by
    have := List.mem_range.mp hk
    omega
  rcases (by omega : k = 0 ∨ k = 1) with rfl | rfl
  · exact Or.inl hget
  · exact Or.inr hget

theorem unary_bwd_tag (R : URule α) (j : Nat) (g : ADGraph α) (i : Nat)
    (hok : _unary_ok (getN g j) = true) (hi : some i ∈ (getN g j).inputs) :
    GradTagged (UnaryOp.backward R j g) i := by
  obtain ⟨ai, hins⟩ := unary_ok_shape hok
  rw [hins] at hi
  simp only [List.mem_singleton, Option.some.injEq] at hi
  subst hi
  have hred : UnaryOp.backward R j g =
      accGrad g i ((getN g j).gradient * R.df (getN g i).value) := by
    simp only [UnaryOp.backward, hins]
  rw [hred]
  exact gradTagged_accGrad_self _ _ _

theorem binary_bwd_tag (R : BRule α) (j : Nat) (g : ADGraph α) (i : Nat)
    (hok : _binary_ok (getN g j) = true) (hi : some i ∈ (getN g j).inputs) :
    GradTagged (BinaryOp.backward R j g) i := by
  obtain ⟨ai, bi, hins⟩ := binary_ok_shape hok
  rw [hins] at hi
  simp only [List.mem_cons, List.mem_singleton, Option.some.injEq,
    List.not_mem_nil, or_false] at hi
  have hred : BinaryOp.backward R j g =
      accGrad (accGrad g ai ((getN g j).gradient * R.dfa (getN g ai).value (getN g bi).value))
        bi ((getN g j).gradient * R.dfb (getN g ai).value (getN g bi).value) := by
    simp only [BinaryOp.backward, hins]
  rw [hred]
  rcases hi with rfl | rfl
  · exact gradTagged_accGrad_mono bi _ (gradTagged_accGrad_self _ _ _)
  · exact gradTagged_accGrad_self _ _ _

theorem add_bwd_tag (j : Nat) (g : ADGraph α) (i : Nat)
    (hok : _nary_ok (getN g j) = true) (hi : some i ∈ (getN g j).inputs) :
    GradTagged (AddOp.backward j g) i := by
  have hred : AddOp.backward j g =
      (getN g j).inputs.foldl (fun h r => accGradO h r (getN h j).gradient) g := by
    simp only [AddOp.backward, hok, if_true]
  rw [hred]
  exact gradTagged_foldl_tags (fun r i' => r = some i') _ _
    (fun h r _ i' hh => gradTagged_accGradO_mono r _ hh)
    (fun h r i' hP => by rw [hP]; exact gradTagged_accGrad_self _ _ _)
    g i ⟨some i, hi, rfl⟩

theorem mul_bwd_tag (j : Nat) (g : ADGraph α) (i : Nat)
    (hok : _nary_ok (getN g j) = true) (hi : some i ∈ (getN g j).inputs) :
    GradTagged (MulOp.backward j g) i := by
  unfold MulOp.backward
  rw [if_pos hok]
  exact gradTagged_foldl_tags (fun k i' => (getN g j).inputs.getD k none = some i') _ _
    (fun h k _ i' hh => gradTagged_accGradO_mono _ _ hh)
    (fun h k i' hP => by rw [hP]; exact gradTagged_accGrad_self _ _ _)
    g i (mem_exists_getD hi)

theorem softmax_bwd_tag (fs : RealFuns α) (j : Nat) (g : ADGraph α) (i : Nat)
    (hok : _nary_ok (getN g j) = true) (hi : some i ∈ (getN g j).inputs) :
    GradTagged (SoftmaxOp.backward fs j g) i := by
  unfold SoftmaxOp.backward
  rw [if_pos hok]
  exact gradTagged_foldl_tags (fun k i' => (getN g j).inputs.getD k none = some i') _ _
    (fun h k _ i' hh => gradTagged_accGradO_mono _ _ hh)
    (fun h k i' hP => by rw [hP]; exact gradTagged_accGrad_self _ _ _)
    g i (mem_exists_getD hi)

theorem unary_hvp_tag (R : URule α) (j : Nat) (g : ADGraph α) (i : Nat)
    (hok : _unary_ok (getN g j) = true) (hi : some i ∈ (getN g j).inputs) :
    GradTagged (UnaryOp.hvp_backward R j g) i ∧
    GDotTagged (UnaryOp.hvp_backward R j g) i := by
  obtain ⟨ai, hins⟩ := unary_ok_shape hok
  rw [hins] at hi
  simp only [List.mem_singleton, Option.some.injEq] at hi
  subst hi
  unfold UnaryOp.hvp_backward
  rw [hins]
  exact ⟨gradTagged_revQuad_self _ _ _ _, gdotTagged_revQuad_self _ _ _ _⟩

theorem binary_hvp_tag (R : BRule α) (j : Nat) (g : ADGraph α) (i : Nat)
    (hok : _binary_ok (getN g j) = true) (hi : some i ∈ (getN g j).inputs) :
    GradTagged (BinaryOp.hvp_backward R j g) i ∧
    GDotTagged (BinaryOp.hvp_backward R j g) i := by
  obtain ⟨ai, bi, hins⟩ := binary_ok_shape hok
  rw [hins] at hi
  simp only [List.mem_cons, List.mem_singleton, Option.some.injEq,
    List.not_mem_nil, or_false] at hi
  unfold BinaryOp.hvp_backward
  rw [hins]
  rcases hi with rfl | rfl
  · exact ⟨twoIdx_grad_fst _ _ _ _ _ _ _, twoIdx_gdot_fst _ _ _ _ _ _ _⟩
  · exact ⟨twoIdx_grad_snd _ _ _ _ _ _ _, twoIdx_gdot_snd _ _ _ _ _ _ _⟩

theorem add_hvp_tag (j : Nat) (g : ADGraph α) (i : Nat)
    (hok : _nary_ok (getN g j) = true) (hi : some i ∈ (getN g j).inputs) :
    GradTagged (AddOp.hvp_backward j g) i ∧ GDotTagged (AddOp.hvp_backward j g) i := by
  unfold AddOp.hvp_backward
  rw [if_pos hok]
  constructor
  · exact gradTagged_foldl_tags (fun r i' => r = some i') _ _
      (fun h r _ i' hh =>
        gradTagged_accGDotO_mono r _ (gradTagged_accGradO_mono r _ hh))
      (fun h r i' hP => by
        rw [hP]
        exact gradTagged_accGDotO_mono _ _ (gradTagged_accGrad_self _ _ _))
      g i ⟨some i, hi, rfl⟩
  · exact gdotTagged_foldl_tags (fun r i' => r = some i') _ _
      (fun h r _ i' hh =>
        gdotTagged_accGDotO_mono r _ (gdotTagged_accGradO_mono r _ hh))
      (fun h r i' hP => by
        rw [hP]
        exact gdotTagged_accGDot_self _ _ _)
      g i ⟨some i, hi, rfl⟩

theorem mul_hvp_tag (j : Nat) (g : ADGraph α) (i : Nat)
    (hok : _nary_ok (getN g j) = true) (hi : some i ∈ (getN g j).inputs) :
    GradTagged (MulOp.hvp_backward j g) i ∧ GDotTagged (MulOp.hvp_backward j g) i := by
  unfold MulOp.hvp_backward
  rw [if_pos hok]
  split
  · next hm =>
      rcases mem_two hm hi with ha | hb
      · rw [ha]
        constructor
        · exact gradTagged_addGDotO_mono _ _ (gradTagged_addGDotO_mono _ _
            (gradTagged_addGradO_mono _ _ (gradTagged_addGradO_mono _ _
              (gradTagged_ensGDotO_mono _ (gradTagged_ensGDotO_mono _
                (gradTagged_ensGradO_mono _ (gradTagged_ensGrad_self g i)))))))
        · exact gdotTagged_addGDotO_mono _ _ (gdotTagged_addGDotO_mono _ _
            (gdotTagged_addGradO_mono _ _ (gdotTagged_addGradO_mono _ _
              (gdotTagged_ensGDotO_mono _
                (gdotTagged_ensGDot_self (ensGradO (ensGrad g i) _) i)))))
      · rw [hb]
        constructor
        · exact gradTagged_addGDotO_mono _ _ (gradTagged_addGDotO_mono _ _
            (gradTagged_addGradO_mono _ _ (gradTagged_addGradO_mono _ _
              (gradTagged_ensGDotO_mono _ (gradTagged_ensGDotO_mono _
                (gradTagged_ensGrad_self (ensGradO g _) i))))))
        · exact gdotTagged_addGDotO_mono _ _ (gdotTagged_addGDotO_mono _ _
            (gdotTagged_addGradO_mono _ _ (gdotTagged_addGradO_mono _ _
              (gdotTagged_ensGDot_self (ensGDotO (ensGradO (ensGradO g _) _) _) i))))
  · constructor
    · exact gradTagged_foldl_tags (fun k i' => (getN g j).inputs.getD k none = some i') _ _
        (fun h k _ i' hh => gradTagged_revQuadO_mono _ _ _ hh)
        (fun h k i' hP => by rw [hP]; exact gradTagged_revQuad_self _ _ _ _)
        g i (mem_exists_getD hi)
    · exact gdotTagged_foldl_tags (fun k i' => (getN g j).inputs.getD k none = some i') _ _
        (fun h k _ i' hh => gdotTagged_revQuadO_mono _ _ _ hh)
        (fun h k i' hP => by rw [hP]; exact gdotTagged_revQuad_self _ _ _ _)
        g i (mem_exists_getD hi)

theorem softmax_hvp_tag (fs : RealFuns α) (j : Nat) (g : ADGraph α) (i : Nat)
    (hok : _nary_ok (getN g j) = true) (hi : some i ∈ (getN g j).inputs) :
    GradTagged (SoftmaxOp.hvp_backward fs j g) i ∧
    GDotTagged (SoftmaxOp.hvp_backward fs j g) i := by
  unfold SoftmaxOp.hvp_backward
  rw [if_pos hok]
  constructor
  · exact gradTagged_foldl_tags (fun k i' => (getN g j).inputs.getD k none = some i') _ _
      (fun h k _ i' hh => gradTagged_revQuadO_mono _ _ _ hh)
      (fun h k i' hP => by rw [hP]; exact gradTagged_revQuad_self _ _ _ _)
      g i (mem_exists_getD hi)
  · exact gdotTagged_foldl_tags (fun k i' => (getN g j).inputs.getD k none = some i') _ _
      (fun h k _ i' hh => gdotTagged_revQuadO_mono _ _ _ hh)
      (fun h k i' hP => by rw [hP]; exact gdotTagged_revQuad_self _ _ _ _)
      g i (mem_exists_getD hi)

end ChompAD

namespace ChompAD

variable {α : Type} [LinearOrderedField α]

theorem unary_fwd_form (R : URule α) (j : Nat) (g : ADGraph α)
    (hok : _unary_ok (getN g j) = true) : ∃ v, UnaryOp.forward R j g = setVal g j v := by
  obtain ⟨ai, hins⟩ := unary_ok_shape hok
  exact ⟨R.f (getN g ai).value, by simp only [UnaryOp.forward, hins]⟩

theorem binary_fwd_form (R : BRule α) (j : Nat) (g : ADGraph α)
    (hok : _binary_ok (getN g j) = true) : ∃ v, BinaryOp.forward R j g = setVal g j v := by
  obtain ⟨ai, bi, hins⟩ := binary_ok_shape hok
  exact ⟨R.f (getN g ai).value (getN g bi).value, by simp only [BinaryOp.forward, hins]⟩

theorem max_fwd_form (j : Nat) (g : ADGraph α)
    (hok : _binary_ok (getN g j) = true) : ∃ v, MaxOp.forward j g = setVal g j v := by
  obtain ⟨ai, bi, hins⟩ := binary_ok_shape hok
  exact ⟨if (getN g ai).value ≥ (getN g bi).value then (getN g ai).value
    else (getN g bi).value, by simp only [MaxOp.forward, hins]⟩

theorem add_fwd_form (j : Nat) (g : ADGraph α)
    (hok : _nary_ok (getN g j) = true) : ∃ v, AddOp.forward j g = setVal g j v :=
  ⟨_, by rw [AddOp.forward, if_pos hok]⟩

theorem mul_fwd_form (j : Nat) (g : ADGraph α)
    (hok : _nary_ok (getN g j) = true) : ∃ v, MulOp.forward j g = setVal g j v :=
  ⟨_, by rw [MulOp.forward, if_pos hok]⟩

theorem softmax_fwd_form (fs : RealFuns α) (j : Nat) (g : ADGraph α)
    (hok : _nary_ok (getN g j) = true) : ∃ v, SoftmaxOp.forward fs j g = setVal g j v :=
  ⟨_, by rw [SoftmaxOp.forward, if_pos hok]⟩

theorem unary_dot_form (R : URule α) (j : Nat) (g : ADGraph α)
    (hok : _unary_ok (getN g j) = true) :
    ∃ v, UnaryOp.forward_dot R j g = touchVal (setDot g j v) j := by
  obtain ⟨ai, hins⟩ := unary_ok_shape hok
  exact ⟨R.df (getN g ai).value * (getN g ai).dot, by simp only [UnaryOp.forward_dot, hins]⟩

theorem log_dot_form (j : Nat) (g : ADGraph α)
    (hok : _unary_ok (getN g j) = true) :
    ∃ v, LogOp.forward_dot j g = touchVal (setDot g j v) j := by
  obtain ⟨ai, hins⟩ := unary_ok_shape hok
  exact ⟨if (getN g ai).value ≠ 0 then (getN g ai).dot / (getN g ai).value else 0,
    by simp only [LogOp.forward_dot, hins]⟩

theorem tan_dot_form (fs : RealFuns α) (j : Nat) (g : ADGraph α)
    (hok : _unary_ok (getN g j) = true) :
    ∃ v, TanOp.forward_dot fs j g = touchVal (setDot g j v) j := by
  obtain ⟨ai, hins⟩ := unary_ok_shape hok
  exact ⟨if fs.cosF (getN g ai).value ≠ 0 then
      (getN g ai).dot / (fs.cosF (getN g ai).value * fs.cosF (getN g ai).value) else 0,
    by simp only [TanOp.forward_dot, hins]⟩

theorem binary_dot_form (R : BRule α) (j : Nat) (g : ADGraph α)
    (hok : _binary_ok (getN g j) = true) :
    ∃ v, BinaryOp.forward_dot R j g = touchVal (setDot g j v) j := by
  obtain ⟨ai, bi, hins⟩ := binary_ok_shape hok
  exact ⟨R.dfa (getN g ai).value (getN g bi).value * (getN g ai).dot +
      R.dfb (getN g ai).value (getN g bi).value * (getN g bi).dot,
    by simp only [BinaryOp.forward_dot, hins]⟩

theorem div_dot_form (j : Nat) (g : ADGraph α)
    (hok : _binary_ok (getN g j) = true) :
    ∃ v, DivOp.forward_dot j g = touchVal (setDot g j v) j := by
  obtain ⟨ai, bi, hins⟩ := binary_ok_shape hok
  exact ⟨if (getN g bi).value ≠ 0 then
      ((getN g ai).dot * (getN g bi).value - (getN g ai).value * (getN g bi).dot) /
        ((getN g bi).value * (getN g bi).value) else 0,
    by simp only [DivOp.forward_dot, hins]⟩

theorem max_dot_form (j : Nat) (g : ADGraph α)
    (hok : _binary_ok (getN g j) = true) :
    ∃ v, MaxOp.forward_dot j g = touchVal (setDot g j v) j := by
  obtain ⟨ai, bi, hins⟩ := binary_ok_shape hok
  exact ⟨if (getN g ai).value ≥ (getN g bi).value then (getN g ai).dot else (getN g bi).dot,
    by simp only [MaxOp.forward_dot, hins]⟩

theorem add_dot_form (j : Nat) (g : ADGraph α)
    (hok : _nary_ok (getN g j) = true) :
    ∃ v, AddOp.forward_dot j g = touchVal (setDot g j v) j :=
  ⟨_, by rw [AddOp.forward_dot, if_pos hok]⟩

theorem mul_dot_form (j : Nat) (g : ADGraph α)
    (hok : _nary_ok (getN g j) = true) :
    ∃ v, MulOp.forward_dot j g = touchVal (setDot g j v) j :=
  ⟨_, by rw [MulOp.forward_dot, if_pos hok]⟩

theorem softmax_dot_form (fs : RealFuns α) (j : Nat) (g : ADGraph α)
    (hok : _nary_ok (getN g j) = true) :
    ∃ v, SoftmaxOp.forward_dot fs j g = touchVal (setDot g j v) j :=
  ⟨_, by rw [SoftmaxOp.forward_dot, if_pos hok]⟩

theorem val_form_tag (g : ADGraph α) (j : Nat) (v : α) (hlen : j < g.nodes.length) :
    (getN (setVal g j v) j).val_epoch = g.cur_val_epoch_ := by
  rw [getN_setVal_self _ hlen]

theorem dot_form_tags (g : ADGraph α) (j : Nat) (v : α) (hlen : j < g.nodes.length) :
    (getN (touchVal (setDot g j v) j) j).val_epoch = g.cur_val_epoch_ ∧
    (getN (touchVal (setDot g j v) j) j).dot_epoch = g.cur_dot_epoch_ := by
  have hl2 : j < (setDot g j v).nodes.length := by
    simpa [setDot, length_updN] using hlen
  rw [getN_touchVal_self hl2, getN_setDot_self _ hlen]
  exact ⟨rfl, rfl⟩

theorem live_fwdStep (fs : RealFuns α) (j : Nat) (g : ADGraph α)
    (hok : arity_ok (getN g j) = true) (hkn : knownOp (getN g j).op = true)
    (hlen : j < g.nodes.length) :
    (getN (forwardStep fs j g) j).val_epoch = g.cur_val_epoch_ := by
  unfold forwardStep
  cases hop : (getN g j).op
  all_goals simp only [arity_ok, knownOp, hop] at hok hkn
  · rw [show CteOp.forward j g = touchVal g j from rfl, getN_touchVal_self hlen]
  · rw [show VarOp.forward j g = touchVal g j from rfl, getN_touchVal_self hlen]
  · obtain ⟨v, hv⟩ := add_fwd_form j g hok
    rw [hv]; exact val_form_tag g j v hlen
  · obtain ⟨v, hv⟩ := binary_fwd_form SubRule j g hok
    rw [hv]; exact val_form_tag g j v hlen
  · obtain ⟨v, hv⟩ := mul_fwd_form j g hok
    rw [hv]; exact val_form_tag g j v hlen
  · obtain ⟨v, hv⟩ := binary_fwd_form DivRule j g hok
    rw [hv]; exact val_form_tag g j v hlen
  · obtain ⟨v, hv⟩ := unary_fwd_form (SinRule fs) j g hok
    rw [hv]; exact val_form_tag g j v hlen
  · obtain ⟨v, hv⟩ := unary_fwd_form (CosRule fs) j g hok
    rw [hv]; exact val_form_tag g j v hlen
  · obtain ⟨v, hv⟩ := unary_fwd_form (TanRule fs) j g hok
    rw [hv]; exact val_form_tag g j v hlen
  · obtain ⟨v, hv⟩ := unary_fwd_form (ExpRule fs) j g hok
    rw [hv]; exact val_form_tag g j v hlen
  · obtain ⟨v, hv⟩ := unary_fwd_form (LogRule fs) j g hok
    rw [hv]; exact val_form_tag g j v hlen
  · obtain ⟨v, hv⟩ := max_fwd_form j g hok
    rw [hv]; exact val_form_tag g j v hlen
  · obtain ⟨v, hv⟩ := unary_fwd_form (TanhRule fs) j g hok
    rw [hv]; exact val_form_tag g j v hlen
  · obtain ⟨v, hv⟩ := unary_fwd_form (SiLURule fs) j g hok
    rw [hv]; exact val_form_tag g j v hlen
  · obtain ⟨v, hv⟩ := unary_fwd_form (GELURule fs) j g hok
    rw [hv]; exact val_form_tag g j v hlen
  · obtain ⟨v, hv⟩ := unary_fwd_form ReluRule j g hok
    rw [hv]; exact val_form_tag g j v hlen
  · obtain ⟨v, hv⟩ := softmax_fwd_form fs j g hok
    rw [hv]; exact val_form_tag g j v hlen
  · exact Bool.noConfusion hkn

theorem live_dotStep (fs : RealFuns α) (j : Nat) (g : ADGraph α)
    (hok : arity_ok (getN g j) = true) (hkn : knownOp (getN g j).op = true)
    (hlen : j < g.nodes.length) :
    (getN (dotStep fs j g) j).val_epoch = g.cur_val_epoch_ ∧
    (getN (dotStep fs j g) j).dot_epoch = g.cur_dot_epoch_ := by
  have cte_tags : ∀ h : ADGraph α, j < h.nodes.length →
      (getN (touchVal (touchDot h j) j) j).val_epoch = h.cur_val_epoch_ ∧
      (getN (touchVal (touchDot h j) j) j).dot_epoch = h.cur_dot_epoch_ := by
    intro h hl
    have hl2 : j < (touchDot h j).nodes.length := by
      simpa [touchDot, length_updN] using hl
    rw [getN_touchVal_self hl2, getN_touchDot_self hl]
    exact ⟨rfl, rfl⟩
  unfold dotStep
  cases hop : (getN g j).op
  all_goals simp only [arity_ok, knownOp, hop] at hok hkn
  · exact cte_tags g hlen
  · exact cte_tags g hlen
  · obtain ⟨v, hv⟩ := add_dot_form j g hok
    rw [hv]; exact dot_form_tags g j v hlen
  · obtain ⟨v, hv⟩ := binary_dot_form SubRule j g hok
    rw [hv]; exact dot_form_tags g j v hlen
  · obtain ⟨v, hv⟩ := mul_dot_form j g hok
    rw [hv]; exact dot_form_tags g j v hlen
  · obtain ⟨v, hv⟩ := div_dot_form j g hok
    rw [hv]; exact dot_form_tags g j v hlen
  · obtain ⟨v, hv⟩ := unary_dot_form (SinRule fs) j g hok
    rw [hv]; exact dot_form_tags g j v hlen
  · obtain ⟨v, hv⟩ := unary_dot_form (CosRule fs) j g hok
    rw [hv]; exact dot_form_tags g j v hlen
  · obtain ⟨v, hv⟩ := tan_dot_form fs j g hok
    rw [hv]; exact dot_form_tags g j v hlen
  · obtain ⟨v, hv⟩ := unary_dot_form (ExpRule fs) j g hok
    rw [hv]; exact dot_form_tags g j v hlen
  · obtain ⟨v, hv⟩ := log_dot_form j g hok
    rw [hv]; exact dot_form_tags g j v hlen
  · obtain ⟨v, hv⟩ := max_dot_form j g hok
    rw [hv]; exact dot_form_tags g j v hlen
  · obtain ⟨v, hv⟩ := unary_dot_form (TanhRule fs) j g hok
    rw [hv]; exact dot_form_tags g j v hlen
  · obtain ⟨v, hv⟩ := unary_dot_form (SiLURule fs) j g hok
    rw [hv]; exact dot_form_tags g j v hlen
  · obtain ⟨v, hv⟩ := unary_dot_form (GELURule fs) j g hok
    rw [hv]; exact dot_form_tags g j v hlen
  · obtain ⟨v, hv⟩ := unary_dot_form ReluRule j g hok
    rw [hv]; exact dot_form_tags g j v hlen
  · obtain ⟨v, hv⟩ := softmax_dot_form fs j g hok
    rw [hv]; exact dot_form_tags g j v hlen
  · exact Bool.noConfusion hkn

theorem bwd_tags (fs : RealFuns α) (j : Nat) (g : ADGraph α)
    (hok : arity_ok (getN g j) = true) (hb : broadcastsAll (getN g j).op = true)
    (i : Nat) (hi : some i ∈ (getN g j).inputs) : GradTagged (backStep fs j g) i := by
  unfold backStep
  cases hop : (getN g j).op
  all_goals simp only [arity_ok, broadcastsAll, hop] at hok hb
  all_goals first
    | exact Bool.noConfusion hb
    | exact unary_bwd_tag _ j g i hok hi
    | exact binary_bwd_tag _ j g i hok hi
    | exact add_bwd_tag j g i hok hi
    | exact mul_bwd_tag j g i hok hi
    | exact softmax_bwd_tag fs j g i hok hi

theorem hvp_tags (fs : RealFuns α) (j : Nat) (g : ADGraph α)
    (hok : arity_ok (getN g j) = true) (hb : broadcastsAll (getN g j).op = true)
    (i : Nat) (hi : some i ∈ (getN g j).inputs) :
    GradTagged (hvpStep fs j g) i ∧ GDotTagged (hvpStep fs j g) i := by
  unfold hvpStep
  cases hop : (getN g j).op
  all_goals simp only [arity_ok, broadcastsAll, hop] at hok hb
  all_goals first
    | exact Bool.noConfusion hb
    | exact unary_hvp_tag _ j g i hok hi
    | exact binary_hvp_tag _ j g i hok hi
    | exact add_hvp_tag j g i hok hi
    | exact mul_hvp_tag j g i hok hi
    | exact softmax_hvp_tag fs j g i hok hi

end ChompAD

namespace ChompAD

variable {α : Type} [LinearOrderedField α]

/-- Witness graph for C4: two variables feeding a Multiply node. -/
def gW4 : ADGraph ℚ :=
  ⟨[⟨.Var, [], 2, 1, 0, 0, 1, 1, 0, 0⟩,
    ⟨.Var, [], 5, 0, 0, 0, 1, 1, 0, 0⟩,
    ⟨.Multiply, [some 0, some 1], 0, 0, 3, 4, 0, 0, 1, 1⟩], 1, 1, 1, 1⟩

/-- C4: for every pass function (forward, forward_dot, backward, hvp_backward)
of every operator and every node satisfying the operator's arity predicate:
(safety) every slot the pass changes has its epoch tag stamped with the graph's
current counter for that slot's pass, counters and node count untouched; and
(liveness) the slots the pass is specified to write are indeed stamped — the
node's own value tag after forward, its value and dot tags after forward_dot
(for every specialized operator), and each input's gradient tag after backward
resp. gradient and grad_dot tags after hvp_backward (for every operator that
broadcasts to all inputs, i.e. all specialized operators except cte, Var and
Max, whose reverse passes write no input resp. only the winning input). -/
theorem C4_epoch_tags (fs : RealFuns α) (p : PassKind) (j : Nat) (g : ADGraph α)
    (hok : arity_ok (getN g j) = true) :
    Tagged g (runPass fs p j g) ∧
    (knownOp (getN g j).op = true → j < g.nodes.length →
      (p = .fwd → (getN (runPass fs p j g) j).val_epoch = g.cur_val_epoch_) ∧
      (p = .fwdDot →
        (getN (runPass fs p j g) j).val_epoch = g.cur_val_epoch_ ∧
        (getN (runPass fs p j g) j).dot_epoch = g.cur_dot_epoch_)) ∧
    (broadcastsAll (getN g j).op = true →
      ∀ i, some i ∈ (getN g j).inputs →
        (p = .bwd → GradTagged (runPass fs p j g) i) ∧
        (p = .hvp →
          GradTagged (runPass fs p j g) i ∧ GDotTagged (runPass fs p j g) i)) := by
  refine ⟨?_, ?_, ?_⟩
  · cases p
    · exact tagged_forwardStep fs j g
    · exact tagged_dotStep fs j g
    · exact tagged_backStep fs j g
    · exact tagged_hvpStep fs j g
  · intro hkn hlen
    constructor
    · rintro rfl
      exact live_fwdStep fs j g hok hkn hlen
    · rintro rfl
      exact live_dotStep fs j g hok hkn hlen
  · intro hb i hi
    constructor
    · rintro rfl
      exact bwd_tags fs j g hok hb i hi
    · rintro rfl
      exact hvp_tags fs j g hok hb i hi

theorem C4_epoch_tags_witness :
    arity_ok (getN gW4 2) = true ∧
    Tagged gW4 (runPass fsQ .hvp 2 gW4) ∧
    GradTagged (runPass fsQ .hvp 2 gW4) 0 ∧
    GDotTagged (runPass fsQ .hvp 2 gW4) 1 ∧
    (getN (runPass fsQ .fwd 2 gW4) 2).val_epoch = gW4.cur_val_epoch_ := by
  have h := C4_epoch_tags fsQ .hvp 2 gW4 (by decide)
  have hf := C4_epoch_tags fsQ .fwd 2 gW4 (by decide)
  refine ⟨by decide, h.1, ?_, ?_, ?_⟩
  · exact ((h.2.2 (by decide) 0 (by decide)).2 rfl).1
  · exact ((h.2.2 (by decide) 1 (by decide)).2 rfl).2
  · exact (hf.2.1 (by decide) (by decide)).1 rfl

end ChompAD

namespace ChompAD

variable {α : Type} [LinearOrderedField α]

/-- Two graphs with equal counters, equal node count and pointwise equal node
records are equal. -/
theorem adGraph_ext {g1 g2 : ADGraph α}
    (hlen : g1.nodes.length = g2.nodes.length)
    (hn : ∀ k, getN g1 k = getN g2 k)
    (hv : g1.cur_val_epoch_ = g2.cur_val_epoch_)
    (hd : g1.cur_dot_epoch_ = g2.cur_dot_epoch_)
    (hg : g1.cur_grad_epoch_ = g2.cur_grad_epoch_)
    (ht : g1.cur_gdot_epoch_ = g2.cur_gdot_epoch_) : g1 = g2 := by
  cases g1 with
  | mk n1 a1 b1 c1 d1 =>
  cases g2 with
  | mk n2 a2 b2 c2 d2 =>
  obtain rfl : a1 = a2 := hv
  obtain rfl : b1 = b2 := hd
  obtain rfl : c1 = c2 := hg
  obtain rfl : d1 = d2 := ht
  have hn2 : n1 = n2 := by
    apply List.ext_getElem hlen
    intro i h1 h2
    have h := hn i
    simpa [getN, List.getD_eq_getElem?_getD, List.getElem?_eq_getElem h1,
      List.getElem?_eq_getElem h2] using h
  rw [hn2]

/-- C8: for an `Add` node with exactly two non-null, in-range, non-self
inputs (duplicates `ai = bi` allowed), the n-ary `Add` specialization's four
pass functions produce exactly the same resulting graph — the same slot
values and the same epoch-tag updates — as the generic binary template
instantiated with `AddRule` (f = a + b, dfa = dfb = 1, all second partials 0)
run on the same node and graph state. -/
theorem C8_add_matches_binary (j ai bi : Nat) (g : ADGraph α)
    (hins : (getN g j).inputs = [some ai, some bi])
    (ha : ai ≠ j) (hb : bi ≠ j)
    (hal : ai < g.nodes.length) (hbl : bi < g.nodes.length) :
    AddOp.forward j g = BinaryOp.forward AddRule j g ∧
    AddOp.forward_dot j g = BinaryOp.forward_dot AddRule j g ∧
    AddOp.backward j g = BinaryOp.backward AddRule j g ∧
    AddOp.hvp_backward j g = BinaryOp.hvp_backward AddRule j g := by
  have hga : ∀ (g' : ADGraph α) (d : α), getN (accGrad g' ai d) j = getN g' j :=
    fun g' d => getN_accGrad_ne d ha
  have hgb : ∀ (g' : ADGraph α) (d : α), getN (accGrad g' bi d) j = getN g' j :=
    fun g' d => getN_accGrad_ne d hb
  have hdda : ∀ (g' : ADGraph α) (d : α), getN (accGDot g' ai d) j = getN g' j :=
    fun g' d => getN_accGDot_ne d ha
  have hddb : ∀ (g' : ADGraph α) (d : α), getN (accGDot g' bi d) j = getN g' j :=
    fun g' d => getN_accGDot_ne d hb
  have hea : ∀ g' : ADGraph α, getN (ensGrad g' ai) j = getN g' j :=
    fun g' => getN_ensGrad_ne ha
  have heb : ∀ g' : ADGraph α, getN (ensGrad g' bi) j = getN g' j :=
    fun g' => getN_ensGrad_ne hb
  have hfa : ∀ g' : ADGraph α, getN (ensGDot g' ai) j = getN g' j :=
    fun g' => getN_ensGDot_ne ha
  have hfb : ∀ g' : ADGraph α, getN (ensGDot g' bi) j = getN g' j :=
    fun g' => getN_ensGDot_ne hb
  refine ⟨?_, ?_, ?_, ?_⟩
  · simp only [AddOp.forward, BinaryOp.forward, _nary_ok, hins, List.isEmpty_cons,
      Bool.not_false, if_true, List.foldl_cons, List.foldl_nil, deref, AddRule, zero_add]
  · simp only [AddOp.forward_dot, BinaryOp.forward_dot, _nary_ok, hins, List.isEmpty_cons,
      Bool.not_false, if_true, List.foldl_cons, List.foldl_nil, deref, AddRule,
      zero_add, one_mul]
  · simp only [AddOp.backward, BinaryOp.backward, _nary_ok, hins, List.isEmpty_cons,
      Bool.not_false, if_true, List.foldl_cons, List.foldl_nil, accGradO, AddRule,
      mul_one, hga]
  · simp only [AddOp.hvp_backward, BinaryOp.hvp_backward, _nary_ok, hins, List.isEmpty_cons,
      Bool.not_false, if_true, List.foldl_cons, List.foldl_nil, accGradO, accGDotO,
      AddRule, mul_one, zero_mul, zero_add, mul_zero, add_zero,
      hga, hgb, hdda, hddb, hea, heb, hfa, hfb]
    apply adGraph_ext
    · simp only [accGrad, accGDot, addGrad, addGDot, ensGrad, ensGDot, length_updN]
    · intro k
      simp only [accGrad, accGDot, addGrad, addGDot, ensGrad, ensGDot]
      simp only [getN_updN, length_updN, updN_cur_grad, updN_cur_gdot, hal, hbl, and_true]
      by_cases hak : ai = k
      · by_cases hbk : bi = k
        · simp [hak, hbk, ensure_epoch_zero]
        · simp [hak, hbk, ensure_epoch_zero]
      · by_cases hbk : bi = k
        · simp [hak, hbk, ensure_epoch_zero]
        · simp [hak, hbk]
    · rfl
    · rfl
    · rfl
    · rfl

def gW8 : ADGraph ℚ :=
  ⟨[⟨.Var, [], 2, 1, 0, 0, 1, 1, 0, 0⟩,
    ⟨.Var, [], 5, 3, 0, 0, 1, 1, 0, 0⟩,
    ⟨.Add, [some 0, some 1], 0, 0, 4, 6, 0, 0, 1, 1⟩], 1, 1, 1, 1⟩

theorem C8_add_matches_binary_witness :
    (getN gW8 2).inputs = [some 0, some 1] ∧
    AddOp.forward 2 gW8 = BinaryOp.forward AddRule 2 gW8 ∧
    AddOp.forward_dot 2 gW8 = BinaryOp.forward_dot AddRule 2 gW8 ∧
    AddOp.backward 2 gW8 = BinaryOp.backward AddRule 2 gW8 ∧
    AddOp.hvp_backward 2 gW8 = BinaryOp.hvp_backward AddRule 2 gW8 := by
  have h := C8_add_matches_binary 2 0 1 gW8 (by decide) (by decide) (by decide)
    (by decide) (by decide)
  exact ⟨by decide, h.1, h.2.1, h.2.2.1, h.2.2.2⟩

end ChompAD

namespace ChompAD

variable {α : Type} [LinearOrderedField α]

/-! ## C2: the claim's mathematical excluded products -/

/-- Product of all entries of `vals` except position `i` (mask it to 1). -/
def prodExcept (vals : List α) (i : Nat) : α := (vals.set i 1).prod

/-- Product of all entries of `vals` except positions `i` and `k`. -/
def prodExcept2 (vals : List α) (i k : Nat) : α := ((vals.set i 1).set k 1).prod

/-- The claim's second-order cross sum: over k different from i, the tangent of
input k times the product of all values excluding positions i and k. -/
def crossSum (vals dots : List α) (i : Nat) : α :=
  ((List.range vals.length).map fun k =>
    if k = i then 0 else dots.getD k 0 * prodExcept2 vals i k).sum

theorem scanl_mul_getD (l : List α) :
    ∀ (b : α) (a : Nat), a ≤ l.length →
      (List.scanl (fun p v => p * v) b l).getD a 1 = b * (l.take a).prod := by
  induction l with
  | nil =>
      intro b a ha
      have h0 : a = 0 := Nat.le_zero.mp ha
      subst h0
      simp [List.scanl]
  | cons v vs ih =>
      intro b a ha
      cases a with
      | zero => simp [List.scanl]
      | succ a2 =>
          simp only [List.scanl, List.getD_cons_succ, List.take_succ_cons, List.prod_cons]
          rw [ih (b * v) a2 (by simpa using ha), mul_assoc]

theorem preList_getD (vals : List α) (a : Nat) (h : a ≤ vals.length) :
    (preList vals).getD a 1 = (vals.take a).prod := by
  simpa [preList] using scanl_mul_getD vals 1 a h

theorem headD_getD {β : Type} (l : List β) (d : β) : l.headD d = l.getD 0 d := by
  cases l <;> rfl

theorem sufList_getD (vals : List α) :
    ∀ (a : Nat), a ≤ vals.length → (sufList vals).getD a 1 = (vals.drop a).prod := by
  induction vals with
  | nil =>
      intro a ha
      have h0 : a = 0 := Nat.le_zero.mp ha
      subst h0
      simp [sufList]
  | cons v vs ih =>
      intro a ha
      cases a with
      | zero =>
          simp only [sufList, List.getD_cons_zero, List.drop_zero, List.prod_cons]
          rw [headD_getD, ih 0 (Nat.zero_le _), List.drop_zero]
          exact mul_comm _ _
      | succ a2 =>
          simp only [sufList, List.getD_cons_succ, List.drop_succ_cons]
          exact ih a2 (Nat.le_of_succ_le_succ ha)

theorem midProdGo_eq (vals : List α) :
    ∀ (ts : List Nat) (acc : α),
      midProdGo vals ts acc = acc * (ts.map fun t => vals.getD t 0).prod := by
  intro ts
  induction ts with
  | nil => intro acc; simp [midProdGo]
  | cons t ts ih =>
      intro acc
      simp only [midProdGo, List.map_cons, List.prod_cons]
      by_cases h : acc * vals.getD t 0 = 0
      · rw [if_pos h, ← mul_assoc, h, zero_mul]
      · rw [if_neg h, ih, mul_assoc]

theorem map_getD_range' (vals : List α) :
    ∀ (n s : Nat), s + n ≤ vals.length →
      ((List.range' s n).map fun t => vals.getD t 0) = (vals.drop s).take n := by
  intro n
  induction n with
  | zero => intro s _; simp
  | succ n ih =>
      intro s hs
      have hsl : s < vals.length := by omega
      rw [List.range'_succ, List.map_cons, List.drop_eq_getElem_cons hsl,
        List.take_succ_cons, List.getD_eq_getElem vals 0 hsl, ih (s + 1) (by omega)]

theorem midProd_eq (vals : List α) (a b : Nat) (hb : b ≤ vals.length) :
    midProd vals a b = ((vals.drop (a + 1)).take (b - (a + 1))).prod := by
  unfold midProd
  rw [midProdGo_eq, one_mul]
  by_cases hab : a + 1 ≤ b
  · rw [map_getD_range' vals (b - (a + 1)) (a + 1) (by omega)]
  · have h0 : b - (a + 1) = 0 := by omega
    rw [h0]
    simp

theorem prodExcept_eq (vals : List α) (i : Nat) (h : i < vals.length) :
    prodExcept vals i = (vals.take i).prod * (vals.drop (i + 1)).prod := by
  unfold prodExcept
  rw [List.set_eq_take_cons_drop _ h, List.prod_append, List.prod_cons, one_mul]

theorem prodExcept2_split (vals : List α) {a b : Nat} (hab : a < b) (hb : b < vals.length) :
    prodExcept2 vals a b =
      (vals.take a).prod * ((vals.drop (a + 1)).take (b - (a + 1))).prod *
        (vals.drop (b + 1)).prod := by
  unfold prodExcept2
  have hb2 : b < (vals.set a 1).length := by simpa using hb
  rw [List.set_eq_take_cons_drop _ hb2, List.prod_append, List.prod_cons, one_mul,
    List.drop_set_of_lt _ _ (by omega : a < b + 1), List.set_take]
  have ha2 : a < (vals.take b).length := by
    simp only [List.length_take]
    omega
  rw [List.set_eq_take_cons_drop _ ha2, List.prod_append, List.prod_cons, one_mul,
    List.take_take, min_eq_left (le_of_lt hab), List.drop_take]

theorem prodExcept2_comm (vals : List α) (i k : Nat) (h : i ≠ k) :
    prodExcept2 vals i k = prodExcept2 vals k i := by
  unfold prodExcept2
  rw [List.set_comm 1 1 vals h]

theorem foldl_skip_sum (p : Nat) (f : Nat → α) :
    ∀ (l : List Nat) (s : α),
      l.foldl (fun s2 k => if k = p then s2 else s2 + f k) s =
        s + (l.map fun k => if k = p then 0 else f k).sum := by
  intro l
  induction l with
  | nil => intro s; simp
  | cons k ks ih =>
      intro s
      by_cases h : k = p
      · simp only [List.foldl_cons, List.map_cons, List.sum_cons, if_pos h, ih, zero_add]
      · simp only [List.foldl_cons, List.map_cons, List.sum_cons, if_neg h, ih, add_assoc]

end ChompAD

namespace ChompAD

variable {α : Type} [LinearOrderedField α]

/-- `P_wo_i = pre[i] * suf[i+1]` (OpTraits.h line 690). -/
def mulP (pre suf : List α) (i : Nat) : α := pre.getD i 1 * suf.getD (i + 1) 1

/-- The inner `sum_term` loop of `Multiply::hvp_backward` (lines 693-713). -/
def mulS (m : Nat) (vals dots pre suf : List α) (i : Nat) : α :=
  (List.range m).foldl
    (fun s k =>
      if k = i then s
      else
        let a := if i < k then i else k
        let b := if i < k then k else i
        s + dots.getD k 0 * (pre.getD a 1 * midProd vals a b * suf.getD (b + 1) 1))
    0

/-- One iteration of the outer loop of `Multiply::hvp_backward` (lines 689-722)
on the general path, with the snapshotted `vals/dots/pre/suf` abstracted. -/
def mulHvpStep (j m : Nat) (g : ADGraph α) (vals dots pre suf : List α)
    (h : ADGraph α) (i : Nat) : ADGraph α :=
  let r := (getN g j).inputs.getD i none
  let h1 := ensGDotO (ensGradO h r) r
  let h2 := addGradO h1 r ((getN h1 j).gradient * mulP pre suf i)
  addGDotO h2 r
    ((getN h2 j).grad_dot * mulP pre suf i + (getN h2 j).gradient * mulS m vals dots pre suf i)

theorem mulHvp_as_foldl (j : Nat) (g : ADGraph α)
    (hok : _nary_ok (getN g j) = true) (hne2 : ¬ (getN g j).inputs.length = 2) :
    MulOp.hvp_backward j g =
      (List.range (getN g j).inputs.length).foldl
        (mulHvpStep j (getN g j).inputs.length g
          ((getN g j).inputs.map fun r => (deref g r).value)
          ((getN g j).inputs.map fun r => (deref g r).dot)
          (preList ((getN g j).inputs.map fun r => (deref g r).value))
          (sufList ((getN g j).inputs.map fun r => (deref g r).value)))
        g := by
  unfold MulOp.hvp_backward
  rw [if_pos hok, if_neg hne2]
  rfl

theorem mulHvpStep_pres (j m : Nat) (g : ADGraph α) (vals dots pre suf : List α)
    (h : ADGraph α) (i : Nat) :
    (mulHvpStep j m g vals dots pre suf h i).nodes.length = h.nodes.length ∧
    (mulHvpStep j m g vals dots pre suf h i).cur_grad_epoch_ = h.cur_grad_epoch_ ∧
    (mulHvpStep j m g vals dots pre suf h i).cur_gdot_epoch_ = h.cur_gdot_epoch_ := by
  simp only [mulHvpStep]
  cases hr : (getN g j).inputs.getD i none with
  | none => exact ⟨rfl, rfl, rfl⟩
  | some u =>
      simp only [ensGradO, ensGDotO, addGradO, addGDotO, ensGrad, ensGDot, addGrad, addGDot,
        length_updN, updN_cur_grad, updN_cur_gdot]
      exact ⟨trivial, trivial, trivial⟩

theorem mulHvpStep_frame (j m : Nat) (g : ADGraph α) (vals dots pre suf : List α)
    (h : ADGraph α) (i t : Nat)
    (ht : ∀ u, (getN g j).inputs.getD i none = some u → u ≠ t) :
    getN (mulHvpStep j m g vals dots pre suf h i) t = getN h t := by
  simp only [mulHvpStep]
  cases hr : (getN g j).inputs.getD i none with
  | none => rfl
  | some u =>
      have hut : u ≠ t := ht u hr
      simp only [ensGradO, ensGDotO, addGradO, addGDotO]
      rw [getN_addGDot_ne _ hut, getN_addGrad_ne _ hut, getN_ensGDot_ne hut,
        getN_ensGrad_ne hut]

theorem mulHvpStep_write (j m : Nat) (g : ADGraph α) (vals dots pre suf : List α)
    (h : ADGraph α) (i u : Nat)
    (hr : (getN g j).inputs.getD i none = some u) (huj : u ≠ j)
    (hul : u < h.nodes.length) :
    (getN (mulHvpStep j m g vals dots pre suf h i) u).gradient =
      ensure_epoch_zero (getN h u).gradient (getN h u).grad_epoch h.cur_grad_epoch_ +
        (getN h j).gradient * mulP pre suf i ∧
    (getN (mulHvpStep j m g vals dots pre suf h i) u).grad_dot =
      ensure_epoch_zero (getN h u).grad_dot (getN h u).gdot_epoch h.cur_gdot_epoch_ +
        ((getN h j).grad_dot * mulP pre suf i +
          (getN h j).gradient * mulS m vals dots pre suf i) := by
  simp only [mulHvpStep, hr, ensGradO, ensGDotO, addGradO, addGDotO]
  have hl1 : u < (ensGrad h u).nodes.length := by
    simpa [ensGrad, length_updN] using hul
  have hl2 : u < (ensGDot (ensGrad h u) u).nodes.length := by
    simpa [ensGDot, ensGrad, length_updN] using hul
  have hj1 : getN (ensGDot (ensGrad h u) u) j = getN h j := by
    rw [getN_ensGDot_ne huj, getN_ensGrad_ne huj]
  rw [hj1]
  have hj2 : ∀ d : α, getN (addGrad (ensGDot (ensGrad h u) u) u d) j = getN h j := by
    intro d
    rw [getN_addGrad_ne _ huj, hj1]
  rw [hj2]
  have hl3 : ∀ d : α, u < (addGrad (ensGDot (ensGrad h u) u) u d).nodes.length := by
    intro d
    simpa [addGrad, length_updN] using hl2
  constructor
  · rw [getN_addGDot_self _ (hl3 _), getN_addGrad_self _ hl2, getN_ensGDot_self hl1,
      getN_ensGrad_self hul]
  · rw [getN_addGDot_self _ (hl3 _), getN_addGrad_self _ hl2, getN_ensGDot_self hl1,
      getN_ensGrad_self hul]
    rfl

theorem mulP_eq_prodExcept (V : List α) (p : Nat) (hp : p < V.length) :
    mulP (preList V) (sufList V) p = prodExcept V p := by
  unfold mulP
  rw [preList_getD _ _ (le_of_lt hp), sufList_getD _ _ (by omega), prodExcept_eq _ _ hp]

theorem mulS_eq_crossSum (V D : List α) (p : Nat) (hp : p < V.length) :
    mulS V.length V D (preList V) (sufList V) p = crossSum V D p := by
  unfold mulS crossSum
  rw [foldl_skip_sum p
    (fun k => D.getD k 0 *
      ((preList V).getD (if p < k then p else k) 1 *
        midProd V (if p < k then p else k) (if p < k then k else p) *
        (sufList V).getD ((if p < k then k else p) + 1) 1)), zero_add]
  refine congrArg List.sum (List.map_congr_left ?_)
  intro k hk
  have hkm : k < V.length := List.mem_range.mp hk
  by_cases hkp : k = p
  · rw [if_pos hkp, if_pos hkp]
  · rw [if_neg hkp, if_neg hkp]
    refine congrArg (D.getD k 0 * ·) ?_
    by_cases hpk : p < k
    · simp only [if_pos hpk]
      rw [preList_getD V p (le_of_lt hp), midProd_eq V p k (le_of_lt hkm),
        sufList_getD V (k + 1) (by omega), prodExcept2_split V hpk hkm]
    · have hkp2 : k < p := by omega
      simp only [if_neg hpk]
      rw [preList_getD V k (by omega), midProd_eq V k p (le_of_lt hp),
        sufList_getD V (p + 1) (by omega), prodExcept2_comm V p k (fun e => hkp e.symm),
        prodExcept2_split V hkp2 hp]

end ChompAD

namespace ChompAD

variable {α : Type} [LinearOrderedField α]

theorem mulHvp_prefix (j m : Nat) (g : ADGraph α) (vals dots pre suf : List α)
    (L : List Nat) (h0 : ADGraph α) (t : Nat)
    (ht : ∀ x ∈ L, ∀ u, (getN g j).inputs.getD x none = some u → u ≠ t) :
    getN (L.foldl (mulHvpStep j m g vals dots pre suf) h0) t = getN h0 t ∧
    (L.foldl (mulHvpStep j m g vals dots pre suf) h0).cur_grad_epoch_ = h0.cur_grad_epoch_ ∧
    (L.foldl (mulHvpStep j m g vals dots pre suf) h0).cur_gdot_epoch_ = h0.cur_gdot_epoch_ ∧
    (L.foldl (mulHvpStep j m g vals dots pre suf) h0).nodes.length = h0.nodes.length := by
  refine foldl_pres
    (P := fun a b => getN b t = getN a t ∧ b.cur_grad_epoch_ = a.cur_grad_epoch_ ∧
      b.cur_gdot_epoch_ = a.cur_gdot_epoch_ ∧ b.nodes.length = a.nodes.length)
    ?_ ?_ L _ ?_ h0
  · intro a b c hab hbc
    exact ⟨hbc.1.trans hab.1, hbc.2.1.trans hab.2.1, hbc.2.2.1.trans hab.2.2.1,
      hbc.2.2.2.trans hab.2.2.2⟩
  · intro a
    exact ⟨rfl, rfl, rfl, rfl⟩
  · intro h x hx
    obtain ⟨hl, hgr, hgd⟩ := mulHvpStep_pres j m g vals dots pre suf h x
    exact ⟨mulHvpStep_frame j m g vals dots pre suf h x t (ht x hx), hgr, hgd, hl⟩

/-- C2: for an n-ary `Multiply` node with `m ≥ 3` distinct, non-null, in-range
inputs, `hvp_backward` accumulates into input `p`'s grad_dot exactly
`grad_dot_n · Π_{l≠p} v_l  +  gradient_n · Σ_{k≠p} ẋ_k · Π_{l∉{p,k}} v_l`
(on top of the lazily-zeroed previous accumulator), with the excluded-pair
products equal to the exact mathematical products even when values are zero —
the division-free `pre/mid/suf` computation with its early exit is proven equal
to the masked products `prodExcept`/`prodExcept2`.  The gradient slot likewise
receives exactly `gradient_n · Π_{l≠p} v_l`. -/
theorem C2_multiply_hvp (j : Nat) (g : ADGraph α) (idxs : List Nat)
    (hins : (getN g j).inputs = idxs.map some)
    (hm : 3 ≤ idxs.length) (hnd : idxs.Nodup) (hj : j ∉ idxs)
    (hrange : ∀ t ∈ idxs, t < g.nodes.length)
    (p : Nat) (hp : p < idxs.length) :
    (getN (MulOp.hvp_backward j g) (idxs.getD p 0)).grad_dot =
      ensure_epoch_zero (getN g (idxs.getD p 0)).grad_dot
          (getN g (idxs.getD p 0)).gdot_epoch g.cur_gdot_epoch_ +
        ((getN g j).grad_dot * prodExcept (idxs.map fun t => (getN g t).value) p +
          (getN g j).gradient *
            crossSum (idxs.map fun t => (getN g t).value)
              (idxs.map fun t => (getN g t).dot) p) ∧
    (getN (MulOp.hvp_backward j g) (idxs.getD p 0)).gradient =
      ensure_epoch_zero (getN g (idxs.getD p 0)).gradient
          (getN g (idxs.getD p 0)).grad_epoch g.cur_grad_epoch_ +
        (getN g j).gradient * prodExcept (idxs.map fun t => (getN g t).value) p := by
  have hlen_in : (getN g j).inputs.length = idxs.length := by
    rw [hins, List.length_map]
  have hne2 : ¬ (getN g j).inputs.length = 2 := by omega
  have hok : _nary_ok (getN g j) = true := by
    cases idxs with
    | nil => exact absurd hm (by decide)
    | cons t r => simp [_nary_ok, hins]
  have hgetr : ∀ i, i < idxs.length →
      (getN g j).inputs.getD i none = some (idxs.getD i 0) := by
    intro i hi
    rw [hins, List.getD_eq_getElem?_getD, List.getElem?_map, List.getElem?_eq_getElem hi,
      List.getD_eq_getElem idxs 0 hi]
    rfl
  have hdist : ∀ i k, i < idxs.length → k < idxs.length → i ≠ k →
      idxs.getD i 0 ≠ idxs.getD k 0 := by
    intro i k hi hk hik
    rw [List.getD_eq_getElem idxs 0 hi, List.getD_eq_getElem idxs 0 hk]
    intro e
    exact hik (hnd.getElem_inj_iff.mp e)
  have htm : ∀ q, q < idxs.length → idxs.getD q 0 ∈ idxs := by
    intro q hq
    rw [List.getD_eq_getElem idxs 0 hq]
    exact List.getElem_mem hq
  have htj : ∀ q, q < idxs.length → idxs.getD q 0 ≠ j := by
    intro q hq e
    exact hj (e ▸ htm q hq)
  set V := idxs.map (fun t => (getN g t).value) with hV
  set D := idxs.map (fun t => (getN g t).dot) with hD
  have hmV : V.length = idxs.length := by
    rw [hV]
    exact List.length_map _ _
  have hpV : p < V.length := by
    rw [hmV]
    exact hp
  have hVg : ((getN g j).inputs.map fun r => (deref g r).value) = V := by
    rw [hins, List.map_map]
    rfl
  have hDg : ((getN g j).inputs.map fun r => (deref g r).dot) = D := by
    rw [hins, List.map_map]
    rfl
  rw [mulHvp_as_foldl j g hok hne2, hVg, hDg, hlen_in]
  have hsplit : List.range idxs.length =
      List.range p ++ p :: (List.range (idxs.length - (p + 1))).map fun q => p + (q + 1) := by
    conv_lhs => rw [show idxs.length = p + ((idxs.length - (p + 1)) + 1) from by omega]
    rw [List.range_add, List.range_succ_eq_map, List.map_cons, List.map_map]
    simp [Function.comp]
  rw [hsplit, List.foldl_append, List.foldl_cons]
  have hpreT := mulHvp_prefix j idxs.length g V D (preList V) (sufList V)
    (List.range p) g (idxs.getD p 0) (by
      intro x hx u hru
      have hxp : x < p := List.mem_range.mp hx
      have hxm : x < idxs.length := by omega
      rw [hgetr x hxm] at hru
      obtain rfl : u = idxs.getD x 0 := (Option.some.inj hru).symm
      exact hdist x p hxm hp (by omega))
  have hpreJ := mulHvp_prefix j idxs.length g V D (preList V) (sufList V)
    (List.range p) g j (by
      intro x hx u hru
      have hxp : x < p := List.mem_range.mp hx
      have hxm : x < idxs.length := by omega
      rw [hgetr x hxm] at hru
      obtain rfl : u = idxs.getD x 0 := (Option.some.inj hru).symm
      exact htj x hxm)
  have hul : idxs.getD p 0 <
      ((List.range p).foldl (mulHvpStep j idxs.length g V D (preList V) (sufList V))
        g).nodes.length := by
    rw [hpreT.2.2.2]
    exact hrange _ (htm p hp)
  have hw := mulHvpStep_write j idxs.length g V D (preList V) (sufList V)
    ((List.range p).foldl (mulHvpStep j idxs.length g V D (preList V) (sufList V)) g)
    p (idxs.getD p 0) (hgetr p hp) (htj p hp) hul
  have hsufT := mulHvp_prefix j idxs.length g V D (preList V) (sufList V)
    ((List.range (idxs.length - (p + 1))).map fun q => p + (q + 1))
    (mulHvpStep j idxs.length g V D (preList V) (sufList V)
      ((List.range p).foldl (mulHvpStep j idxs.length g V D (preList V) (sufList V)) g) p)
    (idxs.getD p 0) (by
      intro x hx u hru
      obtain ⟨q, hq, rfl⟩ := List.mem_map.mp hx
      have hqm : q < idxs.length - (p + 1) := List.mem_range.mp hq
      have hxm : p + (q + 1) < idxs.length := by omega
      rw [hgetr _ hxm] at hru
      obtain rfl : u = idxs.getD (p + (q + 1)) 0 := (Option.some.inj hru).symm
      exact hdist _ _ hxm hp (by omega))
  rw [hsufT.1, hw.1, hw.2, hpreT.1, hpreJ.1, hpreT.2.1, hpreT.2.2.1,
    show idxs.length = V.length from hmV.symm,
    mulP_eq_prodExcept V p hpV, mulS_eq_crossSum V D p hpV]
  exact ⟨rfl, rfl⟩

end ChompAD

namespace ChompAD

/-- Witness graph for C2: three variables feeding a ternary Multiply. -/
def gW2 : ADGraph ℚ :=
  ⟨[⟨.Var, [], 2, 1, 0, 0, 1, 1, 0, 0⟩,
    ⟨.Var, [], 3, 5, 0, 0, 1, 1, 0, 0⟩,
    ⟨.Var, [], 7, 11, 0, 0, 1, 1, 0, 0⟩,
    ⟨.Multiply, [some 0, some 1, some 2], 42, 0, 4, 6, 1, 1, 1, 1⟩], 1, 1, 1, 1⟩

theorem C2_multiply_hvp_witness :
    (getN gW2 3).inputs = [0, 1, 2].map some ∧
    ((getN (MulOp.hvp_backward 3 gW2) ([0, 1, 2].getD 0 0)).grad_dot =
      ensure_epoch_zero (getN gW2 ([0, 1, 2].getD 0 0)).grad_dot
          (getN gW2 ([0, 1, 2].getD 0 0)).gdot_epoch gW2.cur_gdot_epoch_ +
        ((getN gW2 3).grad_dot * prodExcept ([0, 1, 2].map fun t => (getN gW2 t).value) 0 +
          (getN gW2 3).gradient *
            crossSum ([0, 1, 2].map fun t => (getN gW2 t).value)
              ([0, 1, 2].map fun t => (getN gW2 t).dot) 0) ∧
     (getN (MulOp.hvp_backward 3 gW2) ([0, 1, 2].getD 0 0)).gradient =
      ensure_epoch_zero (getN gW2 ([0, 1, 2].getD 0 0)).gradient
          (getN gW2 ([0, 1, 2].getD 0 0)).grad_epoch gW2.cur_grad_epoch_ +
        (getN gW2 3).gradient * prodExcept ([0, 1, 2].map fun t => (getN gW2 t).value) 0) :=
  ⟨by decide,
   C2_multiply_hvp 3 gW2 [0, 1, 2] (by decide) (by decide) (by decide) (by decide)
     (by decide) 0 (by decide)⟩

end ChompAD

namespace ChompAD

variable {α : Type} [LinearOrderedField α]

/-! ## C1: reverse VJP agrees with forward JVP over a whole DAG -/

/-- Raw adjoint-tangent pairing over the first `k` nodes. -/
def gradDotSum (h : ADGraph α) (k : Nat) : α :=
  ((List.range k).map fun t => (getN h t).gradient * (getN h t).dot).sum

/-- The pairing restricted to `Var` nodes with index at least `k`. -/
def varTail (h : ADGraph α) (k : Nat) : α :=
  ((List.range' k (h.nodes.length - k)).map fun t =>
    if (getN h t).op = .Var then (getN h t).gradient * (getN h t).dot else 0).sum

/-- Stale gradient slots (tag not current) hold zero — true of a freshly built
graph whose gradients are zero-initialised, and preserved by the reverse sweep
because every gradient write stamps the tag. -/
def StaleZero (h : ADGraph α) : Prop :=
  ∀ t, (getN h t).grad_epoch ≠ h.cur_grad_epoch_ → (getN h t).gradient = 0

/-- Tags whose passes do not distribute adjoints (no inputs / unknown). -/
def isLeaf : Operator → Bool
  | .cte | .Var | .other _ => true
  | _ => false

/-- The tangent value `forward_dot` stores at node `j` (for leaf tags: the
stored dot, which `forward_dot` only marks live).  Each branch is the exact
expression of the corresponding `forward_dot` body. -/
def dotValue (fs : RealFuns α) (h : ADGraph α) (j : Nat) : α :=
  match (getN h j).op with
  | .cte | .Var | .other _ => (getN h j).dot
  | .Add => (getN h j).inputs.foldl (fun sd r => sd + (deref h r).dot) 0
  | .Subtract =>
      match (getN h j).inputs with
      | [some ai, some bi] =>
          SubRule.dfa (getN h ai).value (getN h bi).value * (getN h ai).dot +
            SubRule.dfb (getN h ai).value (getN h bi).value * (getN h bi).dot
      | _ => (getN h j).dot
  | .Multiply =>
      if _nary_ok (getN h j) then
        let vals := (getN h j).inputs.map fun r => (deref h r).value
        let dots := (getN h j).inputs.map fun r => (deref h r).dot
        let pre := preList vals
        let suf := sufList vals
        let m := (getN h j).inputs.length
        (List.range m).foldl
          (fun ds i => ds + dots.getD i 0 * pre.getD i 1 * suf.getD (i + 1) 1) 0
      else (getN h j).dot
  | .Divide =>
      match (getN h j).inputs with
      | [some ai, some bi] =>
          let d := (getN h bi).value
          if d ≠ 0 then
            ((getN h ai).dot * d - (getN h ai).value * (getN h bi).dot) / (d * d)
          else 0
      | _ => (getN h j).dot
  | .Sin =>
      match (getN h j).inputs with
      | [some ai] => (SinRule fs).df (getN h ai).value * (getN h ai).dot
      | _ => (getN h j).dot
  | .Cos =>
      match (getN h j).inputs with
      | [some ai] => (CosRule fs).df (getN h ai).value * (getN h ai).dot
      | _ => (getN h j).dot
  | .Tan =>
      match (getN h j).inputs with
      | [some ai] =>
          let c := fs.cosF (getN h ai).value
          if c ≠ 0 then (getN h ai).dot / (c * c) else 0
      | _ => (getN h j).dot
  | .Exp =>
      match (getN h j).inputs with
      | [some ai] => (ExpRule fs).df (getN h ai).value * (getN h ai).dot
      | _ => (getN h j).dot
  | .Log =>
      match (getN h j).inputs with
      | [some ai] =>
          let x := (getN h ai).value
          if x ≠ 0 then (getN h ai).dot / x else 0
      | _ => (getN h j).dot
  | .Max =>
      match (getN h j).inputs with
      | [some ai, some bi] =>
          if (getN h ai).value ≥ (getN h bi).value then (getN h ai).dot else (getN h bi).dot
      | _ => (getN h j).dot
  | .Tanh =>
      match (getN h j).inputs with
      | [some ai] => (TanhRule fs).df (getN h ai).value * (getN h ai).dot
      | _ => (getN h j).dot
  | .Silu =>
      match (getN h j).inputs with
      | [some ai] => (SiLURule fs).df (getN h ai).value * (getN h ai).dot
      | _ => (getN h j).dot
  | .Gelu =>
      match (getN h j).inputs with
      | [some ai] => (GELURule fs).df (getN h ai).value * (getN h ai).dot
      | _ => (getN h j).dot
  | .Relu =>
      match (getN h j).inputs with
      | [some ai] => ReluRule.df (getN h ai).value * (getN h ai).dot
      | _ => (getN h j).dot
  | .Softmax =>
      if _nary_ok (getN h j) then
        let x := (getN h j).inputs.map fun r => (deref h r).value
        let xd := (getN h j).inputs.map fun r => (deref h r).dot
        let y := softmaxY fs x
        let yi := y.getD 0 0
        let m := (getN h j).inputs.length
        let sdot := (List.range m).foldl (fun s k => s + y.getD k 0 * xd.getD k 0) 0
        yi * (xd.getD 0 0 - sdot)
      else (getN h j).dot

theorem foldl_add_eq_sum {β : Type} (φ : β → α) :
    ∀ (l : List β) (c : α), l.foldl (fun s r => s + φ r) c = c + (l.map φ).sum := by
  intro l
  induction l with
  | nil => intro c; simp
  | cons r rs ih =>
      intro c
      simp only [List.foldl_cons, List.map_cons, List.sum_cons, ih, add_assoc]

theorem sum_update_one (c : α) :
    ∀ (k u : Nat) (f f2 : Nat → α), u < k → (∀ t, t ≠ u → f2 t = f t) →
      f2 u = f u + c →
      ((List.range k).map f2).sum = ((List.range k).map f).sum + c := by
  intro k
  induction k with
  | zero => intro u f f2 hu; omega
  | succ k ih =>
      intro u f f2 hu hne hu2
      rw [List.range_succ, List.map_append, List.map_append, List.sum_append, List.sum_append]
      by_cases huk : u = k
      · subst huk
        have h1 : (List.range u).map f2 = (List.range u).map f := by
          refine List.map_congr_left ?_
          intro t ht
          exact hne t (by have := List.mem_range.mp ht; omega)
        simp [h1, hu2]
        ring
      · have hu' : u < k := by omega
        rw [ih u f f2 hu' hne hu2]
        simp [hne k (by omega)]
        ring

theorem staleZero_of_tagged {h h2 : ADGraph α} (ht : Tagged h h2) (hs : StaleZero h) :
    StaleZero h2 := by
  intro t hst
  rcases (ht.2.2.2.2.2 t).2.2.1 with ⟨hg, he⟩ | he
  · exact hg.trans (hs t fun e => hst (he.trans (e.trans ht.2.2.2.1.symm)))
  · exact absurd (he.trans ht.2.2.2.1.symm) hst

end ChompAD

namespace ChompAD

variable {α : Type} [LinearOrderedField α]

theorem dot_updN (h2 : ADGraph α) (i : Nat) (f : ADNode α → ADNode α)
    (hf : ∀ nd, (f nd).dot = nd.dot) (t : Nat) :
    (getN (updN h2 i f) t).dot = (getN h2 t).dot := by
  rw [getN_updN]
  split
  · next hc =>
      obtain ⟨rfl, h2l⟩ := hc
      exact hf _
  · rfl

theorem val_updN (h2 : ADGraph α) (i : Nat) (f : ADNode α → ADNode α)
    (hf : ∀ nd, (f nd).value = nd.value) (t : Nat) :
    (getN (updN h2 i f) t).value = (getN h2 t).value := by
  rw [getN_updN]
  split
  · next hc =>
      obtain ⟨rfl, h2l⟩ := hc
      exact hf _
  · rfl

theorem val_touchVal (h2 : ADGraph α) (j t : Nat) :
    (getN (touchVal h2 j) t).value = (getN h2 t).value := by
  unfold touchVal
  apply val_updN
  intro nd
  rfl

theorem val_touchDot (h2 : ADGraph α) (j t : Nat) :
    (getN (touchDot h2 j) t).value = (getN h2 t).value := by
  unfold touchDot
  apply val_updN
  intro nd
  rfl

theorem val_setDot (h2 : ADGraph α) (j : Nat) (X : α) (t : Nat) :
    (getN (setDot h2 j X) t).value = (getN h2 t).value := by
  unfold setDot
  apply val_updN
  intro nd
  rfl

theorem dot_touchVal (h2 : ADGraph α) (j t : Nat) :
    (getN (touchVal h2 j) t).dot = (getN h2 t).dot := by
  unfold touchVal
  apply dot_updN
  intro nd
  rfl

theorem dot_touchDot (h2 : ADGraph α) (j t : Nat) :
    (getN (touchDot h2 j) t).dot = (getN h2 t).dot := by
  unfold touchDot
  apply dot_updN
  intro nd
  rfl

theorem dot_setVal (h2 : ADGraph α) (j : Nat) (X : α) (t : Nat) :
    (getN (setVal h2 j X) t).dot = (getN h2 t).dot := by
  unfold setVal
  apply dot_updN
  intro nd
  rfl

theorem getN_dotStep_ne (fs : RealFuns α) (j : Nat) (h : ADGraph α) (t : Nat) (hjt : j ≠ t) :
    getN (dotStep fs j h) t = getN h t := by
  have hcte : ∀ h2 : ADGraph α, getN (touchVal (touchDot h2 j) j) t = getN h2 t := by
    intro h2
    rw [getN_touchVal_ne hjt, getN_touchDot_ne hjt]
  have hts : ∀ (h2 : ADGraph α) (X : α), getN (touchVal (setDot h2 j X) j) t = getN h2 t := by
    intro h2 X
    rw [getN_touchVal_ne hjt, getN_setDot_ne _ hjt]
  unfold dotStep
  split
  · exact hcte h
  · exact hcte h
  · unfold AddOp.forward_dot
    split <;> first | exact hts _ _ | rfl
  · unfold BinaryOp.forward_dot
    split <;> first | exact hts _ _ | rfl
  · unfold MulOp.forward_dot
    split <;> first | exact hts _ _ | rfl
  · unfold DivOp.forward_dot
    split <;> first | exact hts _ _ | rfl
  · unfold UnaryOp.forward_dot
    split <;> first | exact hts _ _ | rfl
  · unfold UnaryOp.forward_dot
    split <;> first | exact hts _ _ | rfl
  · unfold TanOp.forward_dot
    split <;> first | exact hts _ _ | rfl
  · unfold UnaryOp.forward_dot
    split <;> first | exact hts _ _ | rfl
  · unfold LogOp.forward_dot
    split <;> first | exact hts _ _ | rfl
  · unfold MaxOp.forward_dot
    split <;> first | exact hts _ _ | rfl
  · unfold UnaryOp.forward_dot
    split <;> first | exact hts _ _ | rfl
  · unfold UnaryOp.forward_dot
    split <;> first | exact hts _ _ | rfl
  · unfold UnaryOp.forward_dot
    split <;> first | exact hts _ _ | rfl
  · unfold UnaryOp.forward_dot
    split <;> first | exact hts _ _ | rfl
  · unfold SoftmaxOp.forward_dot
    split <;> first | exact hts _ _ | rfl
  · rfl

theorem val_dotStep (fs : RealFuns α) (j : Nat) (h : ADGraph α) (t : Nat) :
    (getN (dotStep fs j h) t).value = (getN h t).value := by
  have hcte : ∀ h2 : ADGraph α, (getN (touchVal (touchDot h2 j) j) t).value = (getN h2 t).value := by
    intro h2
    rw [val_touchVal, val_touchDot]
  have hts : ∀ (h2 : ADGraph α) (X : α),
      (getN (touchVal (setDot h2 j X) j) t).value = (getN h2 t).value := by
    intro h2 X
    rw [val_touchVal, val_setDot]
  unfold dotStep
  split
  · exact hcte h
  · exact hcte h
  · unfold AddOp.forward_dot
    split <;> first | exact hts _ _ | rfl
  · unfold BinaryOp.forward_dot
    split <;> first | exact hts _ _ | rfl
  · unfold MulOp.forward_dot
    split <;> first | exact hts _ _ | rfl
  · unfold DivOp.forward_dot
    split <;> first | exact hts _ _ | rfl
  · unfold UnaryOp.forward_dot
    split <;> first | exact hts _ _ | rfl
  · unfold UnaryOp.forward_dot
    split <;> first | exact hts _ _ | rfl
  · unfold TanOp.forward_dot
    split <;> first | exact hts _ _ | rfl
  · unfold UnaryOp.forward_dot
    split <;> first | exact hts _ _ | rfl
  · unfold LogOp.forward_dot
    split <;> first | exact hts _ _ | rfl
  · unfold MaxOp.forward_dot
    split <;> first | exact hts _ _ | rfl
  · unfold UnaryOp.forward_dot
    split <;> first | exact hts _ _ | rfl
  · unfold UnaryOp.forward_dot
    split <;> first | exact hts _ _ | rfl
  · unfold UnaryOp.forward_dot
    split <;> first | exact hts _ _ | rfl
  · unfold UnaryOp.forward_dot
    split <;> first | exact hts _ _ | rfl
  · unfold SoftmaxOp.forward_dot
    split <;> first | exact hts _ _ | rfl
  · rfl

theorem dot_fwdStep (fs : RealFuns α) (j : Nat) (h : ADGraph α) (t : Nat) :
    (getN (forwardStep fs j h) t).dot = (getN h t).dot := by
  have htv : ∀ h2 : ADGraph α, (getN (touchVal h2 j) t).dot = (getN h2 t).dot := by
    intro h2
    rw [dot_touchVal]
  have hsv : ∀ (h2 : ADGraph α) (X : α), (getN (setVal h2 j X) t).dot = (getN h2 t).dot := by
    intro h2 X
    rw [dot_setVal]
  unfold forwardStep
  split
  · exact htv h
  · exact htv h
  · unfold AddOp.forward
    split <;> first | exact hsv _ _ | rfl
  · unfold BinaryOp.forward
    split <;> first | exact hsv _ _ | rfl
  · unfold MulOp.forward
    split <;> first | exact hsv _ _ | rfl
  · unfold BinaryOp.forward
    split <;> first | exact hsv _ _ | rfl
  · unfold UnaryOp.forward
    split <;> first | exact hsv _ _ | rfl
  · unfold UnaryOp.forward
    split <;> first | exact hsv _ _ | rfl
  · unfold UnaryOp.forward
    split <;> first | exact hsv _ _ | rfl
  · unfold UnaryOp.forward
    split <;> first | exact hsv _ _ | rfl
  · unfold UnaryOp.forward
    split <;> first | exact hsv _ _ | rfl
  · unfold MaxOp.forward
    split <;> first | exact hsv _ _ | rfl
  · unfold UnaryOp.forward
    split <;> first | exact hsv _ _ | rfl
  · unfold UnaryOp.forward
    split <;> first | exact hsv _ _ | rfl
  · unfold UnaryOp.forward
    split <;> first | exact hsv _ _ | rfl
  · unfold UnaryOp.forward
    split <;> first | exact hsv _ _ | rfl
  · unfold SoftmaxOp.forward
    split <;> first | exact hsv _ _ | rfl
  · rfl

end ChompAD

namespace ChompAD

variable {α : Type} [LinearOrderedField α]

theorem dotStep_at (fs : RealFuns α) (j : Nat) (h : ADGraph α)
    (hok : arity_ok (getN h j) = true) (hlen : j < h.nodes.length) :
    (getN (dotStep fs j h) j).dot = dotValue fs h j := by
  have hdw : ∀ X : α, (getN (touchVal (setDot h j X) j) j).dot = X := by
    intro X
    have hl2 : j < (setDot h j X).nodes.length := by
      simpa [setDot, length_updN] using hlen
    rw [getN_touchVal_self hl2, getN_setDot_self X hlen]
  have hdc : (getN (touchVal (touchDot h j) j) j).dot = (getN h j).dot := by
    rw [dot_touchVal, dot_touchDot]
  unfold dotStep
  split
  all_goals rename_i hop
  · unfold dotValue
    rw [hop]
    exact hdc
  · unfold dotValue
    rw [hop]
    exact hdc
  · simp only [arity_ok, hop] at hok
    simp only [AddOp.forward_dot, if_pos hok, dotValue, hop, hdw]
  · simp only [arity_ok, hop] at hok
    obtain ⟨ai, bi, hins⟩ := binary_ok_shape hok
    simp only [BinaryOp.forward_dot, dotValue, hop, hins, hdw]
  · simp only [arity_ok, hop] at hok
    simp only [MulOp.forward_dot, if_pos hok, dotValue, hop, hdw]
  · simp only [arity_ok, hop] at hok
    obtain ⟨ai, bi, hins⟩ := binary_ok_shape hok
    simp only [DivOp.forward_dot, dotValue, hop, hins, hdw]
  · simp only [arity_ok, hop] at hok
    obtain ⟨ai, hins⟩ := unary_ok_shape hok
    simp only [UnaryOp.forward_dot, dotValue, hop, hins, hdw]
  · simp only [arity_ok, hop] at hok
    obtain ⟨ai, hins⟩ := unary_ok_shape hok
    simp only [UnaryOp.forward_dot, dotValue, hop, hins, hdw]
  · simp only [arity_ok, hop] at hok
    obtain ⟨ai, hins⟩ := unary_ok_shape hok
    simp only [TanOp.forward_dot, dotValue, hop, hins, hdw]
  · simp only [arity_ok, hop] at hok
    obtain ⟨ai, hins⟩ := unary_ok_shape hok
    simp only [UnaryOp.forward_dot, dotValue, hop, hins, hdw]
  · simp only [arity_ok, hop] at hok
    obtain ⟨ai, hins⟩ := unary_ok_shape hok
    simp only [LogOp.forward_dot, dotValue, hop, hins, hdw]
  · simp only [arity_ok, hop] at hok
    obtain ⟨ai, bi, hins⟩ := binary_ok_shape hok
    simp only [MaxOp.forward_dot, dotValue, hop, hins, hdw]
  · simp only [arity_ok, hop] at hok
    obtain ⟨ai, hins⟩ := unary_ok_shape hok
    simp only [UnaryOp.forward_dot, dotValue, hop, hins, hdw]
  · simp only [arity_ok, hop] at hok
    obtain ⟨ai, hins⟩ := unary_ok_shape hok
    simp only [UnaryOp.forward_dot, dotValue, hop, hins, hdw]
  · simp only [arity_ok, hop] at hok
    obtain ⟨ai, hins⟩ := unary_ok_shape hok
    simp only [UnaryOp.forward_dot, dotValue, hop, hins, hdw]
  · simp only [arity_ok, hop] at hok
    obtain ⟨ai, hins⟩ := unary_ok_shape hok
    simp only [UnaryOp.forward_dot, dotValue, hop, hins, hdw]
  · simp only [arity_ok, hop] at hok
    simp only [SoftmaxOp.forward_dot, if_pos hok, dotValue, hop, hdw]
  · unfold dotValue
    rw [hop]

end ChompAD

namespace ChompAD

variable {α : Type} [LinearOrderedField α]

theorem dotValue_stable (fs : RealFuns α) (h1 h2 : ADGraph α) (j : Nat)
    (hok : arity_ok (getN h1 j) = true)
    (hop : (getN h2 j).op = (getN h1 j).op)
    (hins : (getN h2 j).inputs = (getN h1 j).inputs)
    (hdj : isLeaf (getN h1 j).op = true → (getN h2 j).dot = (getN h1 j).dot)
    (hio : ∀ u, some u ∈ (getN h1 j).inputs →
      (getN h2 u).value = (getN h1 u).value ∧ (getN h2 u).dot = (getN h1 u).dot) :
    dotValue fs h2 j = dotValue fs h1 j := by
  have hvals : (getN h1 j).inputs.map (fun r => (deref h2 r).value) =
      (getN h1 j).inputs.map fun r => (deref h1 r).value := by
    refine List.map_congr_left ?_
    intro r hr
    cases r with
    | none => rfl
    | some u => exact (hio u hr).1
  have hdots : (getN h1 j).inputs.map (fun r => (deref h2 r).dot) =
      (getN h1 j).inputs.map fun r => (deref h1 r).dot := by
    refine List.map_congr_left ?_
    intro r hr
    cases r with
    | none => rfl
    | some u => exact (hio u hr).2
  unfold dotValue
  rw [hop, hins]
  have hng : _nary_ok (getN h2 j) = _nary_ok (getN h1 j) := by
    unfold _nary_ok
    rw [hins]
  cases hopc : (getN h1 j).op
  · exact hdj (by rw [hopc]; rfl)
  · exact hdj (by rw [hopc]; rfl)
  · -- Add
    dsimp only
    rw [foldl_add_eq_sum, foldl_add_eq_sum, hdots]
  · -- Subtract
    simp only [arity_ok, hopc] at hok
    obtain ⟨ai, bi, hins2⟩ := binary_ok_shape hok
    have hma : some ai ∈ (getN h1 j).inputs := by rw [hins2]; simp
    have hmb : some bi ∈ (getN h1 j).inputs := by rw [hins2]; simp
    simp only [hins2, (hio ai hma).1, (hio ai hma).2, (hio bi hmb).1, (hio bi hmb).2]
  · -- Multiply
    dsimp only
    rw [hng]
    simp only [arity_ok, hopc] at hok
    rw [if_pos hok, if_pos hok, hvals, hdots]
  · -- Divide
    simp only [arity_ok, hopc] at hok
    obtain ⟨ai, bi, hins2⟩ := binary_ok_shape hok
    have hma : some ai ∈ (getN h1 j).inputs := by rw [hins2]; simp
    have hmb : some bi ∈ (getN h1 j).inputs := by rw [hins2]; simp
    simp only [hins2, (hio ai hma).1, (hio ai hma).2, (hio bi hmb).1, (hio bi hmb).2]
  · -- Sin
    simp only [arity_ok, hopc] at hok
    obtain ⟨ai, hins2⟩ := unary_ok_shape hok
    have hma : some ai ∈ (getN h1 j).inputs := by rw [hins2]; simp
    simp only [hins2, (hio ai hma).1, (hio ai hma).2]
  · -- Cos
    simp only [arity_ok, hopc] at hok
    obtain ⟨ai, hins2⟩ := unary_ok_shape hok
    have hma : some ai ∈ (getN h1 j).inputs := by rw [hins2]; simp
    simp only [hins2, (hio ai hma).1, (hio ai hma).2]
  · -- Tan
    simp only [arity_ok, hopc] at hok
    obtain ⟨ai, hins2⟩ := unary_ok_shape hok
    have hma : some ai ∈ (getN h1 j).inputs := by rw [hins2]; simp
    simp only [hins2, (hio ai hma).1, (hio ai hma).2]
  · -- Exp
    simp only [arity_ok, hopc] at hok
    obtain ⟨ai, hins2⟩ := unary_ok_shape hok
    have hma : some ai ∈ (getN h1 j).inputs := by rw [hins2]; simp
    simp only [hins2, (hio ai hma).1, (hio ai hma).2]
  · -- Log
    simp only [arity_ok, hopc] at hok
    obtain ⟨ai, hins2⟩ := unary_ok_shape hok
    have hma : some ai ∈ (getN h1 j).inputs := by rw [hins2]; simp
    simp only [hins2, (hio ai hma).1, (hio ai hma).2]
  · -- Max
    simp only [arity_ok, hopc] at hok
    obtain ⟨ai, bi, hins2⟩ := binary_ok_shape hok
    have hma : some ai ∈ (getN h1 j).inputs := by rw [hins2]; simp
    have hmb : some bi ∈ (getN h1 j).inputs := by rw [hins2]; simp
    simp only [hins2, (hio ai hma).1, (hio ai hma).2, (hio bi hmb).1, (hio bi hmb).2]
  · -- Tanh
    simp only [arity_ok, hopc] at hok
    obtain ⟨ai, hins2⟩ := unary_ok_shape hok
    have hma : some ai ∈ (getN h1 j).inputs := by rw [hins2]; simp
    simp only [hins2, (hio ai hma).1, (hio ai hma).2]
  · -- Silu
    simp only [arity_ok, hopc] at hok
    obtain ⟨ai, hins2⟩ := unary_ok_shape hok
    have hma : some ai ∈ (getN h1 j).inputs := by rw [hins2]; simp
    simp only [hins2, (hio ai hma).1, (hio ai hma).2]
  · -- Gelu
    simp only [arity_ok, hopc] at hok
    obtain ⟨ai, hins2⟩ := unary_ok_shape hok
    have hma : some ai ∈ (getN h1 j).inputs := by rw [hins2]; simp
    simp only [hins2, (hio ai hma).1, (hio ai hma).2]
  · -- Relu
    simp only [arity_ok, hopc] at hok
    obtain ⟨ai, hins2⟩ := unary_ok_shape hok
    have hma : some ai ∈ (getN h1 j).inputs := by rw [hins2]; simp
    simp only [hins2, (hio ai hma).1, (hio ai hma).2]
  · -- Softmax
    dsimp only
    rw [hng]
    simp only [arity_ok, hopc] at hok
    rw [if_pos hok, if_pos hok, hvals, hdots]
  · exact hdj (by rw [hopc]; rfl)

end ChompAD

namespace ChompAD

variable {α : Type} [LinearOrderedField α]

theorem len_accGrad (h : ADGraph α) (u : Nat) (d : α) :
    (accGrad h u d).nodes.length = h.nodes.length := by
  unfold accGrad addGrad ensGrad
  rw [length_updN, length_updN]

theorem dot_accGrad (h : ADGraph α) (u : Nat) (d : α) (t : Nat) :
    (getN (accGrad h u d) t).dot = (getN h t).dot := by
  unfold accGrad
  calc (getN (addGrad (ensGrad h u) u d) t).dot
      = (getN (ensGrad h u) t).dot := by
        unfold addGrad
        apply dot_updN
        intro nd
        rfl
    _ = (getN h t).dot := by
        unfold ensGrad
        apply dot_updN
        intro nd
        rfl

theorem val_accGrad (h : ADGraph α) (u : Nat) (d : α) (t : Nat) :
    (getN (accGrad h u d) t).value = (getN h t).value := by
  unfold accGrad
  calc (getN (addGrad (ensGrad h u) u d) t).value
      = (getN (ensGrad h u) t).value := by
        unfold addGrad
        apply val_updN
        intro nd
        rfl
    _ = (getN h t).value := by
        unfold ensGrad
        apply val_updN
        intro nd
        rfl

theorem accGrad_out (h : ADGraph α) (u : Nat) (d : α) (hul : ¬ u < h.nodes.length) :
    accGrad h u d = h := by
  unfold accGrad addGrad ensGrad
  rw [updN_of_length_le _ (le_of_not_lt hul), updN_of_length_le _ (le_of_not_lt hul)]

theorem staleZero_accGrad (h : ADGraph α) (u : Nat) (d : α) (hsz : StaleZero h) :
    StaleZero (accGrad h u d) := by
  intro t ht
  by_cases hul : u < h.nodes.length
  · by_cases hut : u = t
    · subst hut
      rw [getN_accGrad_self d hul] at ht
      exact absurd rfl ht
    · rw [getN_accGrad_ne d hut] at ht ⊢
      exact hsz t ht
  · rw [accGrad_out h u d hul] at ht ⊢
    exact hsz t ht

theorem gds_accGrad (h : ADGraph α) (u : Nat) (d : α) (k : Nat)
    (hu : u < k) (hul : u < h.nodes.length) (hsz : StaleZero h) :
    gradDotSum (accGrad h u d) k = gradDotSum h k + d * (getN h u).dot := by
  unfold gradDotSum
  refine sum_update_one (d * (getN h u).dot) k u _ _ hu ?_ ?_
  · intro t ht
    rw [getN_accGrad_ne d fun e => ht e.symm]
  · rw [getN_accGrad_self d hul]
    have hez : ensure_epoch_zero (getN h u).gradient (getN h u).grad_epoch
        h.cur_grad_epoch_ = (getN h u).gradient := by
      unfold ensure_epoch_zero
      split
      · rfl
      · next hne => exact (hsz u hne).symm
    show (ensure_epoch_zero (getN h u).gradient (getN h u).grad_epoch
        h.cur_grad_epoch_ + d) * (getN h u).dot = _
    rw [hez]
    ring

theorem grad_accGrad_ne (h : ADGraph α) (u : Nat) (d : α) (t : Nat) (hut : u ≠ t) :
    (getN (accGrad h u d) t).gradient = (getN h t).gradient := by
  rw [getN_accGrad_ne d hut]

theorem getD_map_none {β : Type} (f : Option Nat → β) :
    ∀ (l : List (Option Nat)) (i : Nat), (l.map f).getD i (f none) = f (l.getD i none) := by
  intro l
  induction l with
  | nil => intro i; cases i <;> rfl
  | cons r rs ih =>
      intro i
      cases i with
      | zero => rfl
      | succ i2 => exact ih i2

theorem sum_map_sub {β : Type} (f g : β → α) :
    ∀ l : List β, (l.map fun x => f x - g x).sum = (l.map f).sum - (l.map g).sum := by
  intro l
  induction l with
  | nil => simp
  | cons x xs ih =>
      simp only [List.map_cons, List.sum_cons, ih]
      ring

theorem sum_ite_head (c : α) (m : Nat) (hm : 0 < m) :
    ((List.range m).map fun k => if k = 0 then c else 0).sum = c := by
  have h1 : m = (m - 1) + 1 := by omega
  rw [h1, List.range_succ_eq_map, List.map_cons, List.sum_cons, List.map_map]
  have h2 : ((List.range (m - 1)).map ((fun k => if k = 0 then c else 0) ∘ (· + 1))).sum = 0 := by
    have h3 : (List.range (m - 1)).map ((fun k => if k = 0 then c else 0) ∘ (· + 1)) =
        (List.range (m - 1)).map fun _ => (0 : α) := by
      refine List.map_congr_left ?_
      intro q hq
      simp [Function.comp]
    rw [h3]
    induction (List.range (m - 1)) with
    | nil => rfl
    | cons q qs ih => simpa using ih
  rw [h2]
  simp

end ChompAD

namespace ChompAD

variable {α : Type} [LinearOrderedField α]

theorem bsum_add_fold (j : Nat) (w : α) :
    ∀ (rs : List (Option Nat)) (h : ADGraph α),
      (∀ r ∈ rs, ∃ u, r = some u ∧ u < j) → j < h.nodes.length → StaleZero h →
      (getN h j).gradient = w →
      gradDotSum (rs.foldl (fun h2 r => accGradO h2 r (getN h2 j).gradient) h) j =
          gradDotSum h j + w * (rs.map fun r => (deref h r).dot).sum ∧
        StaleZero (rs.foldl (fun h2 r => accGradO h2 r (getN h2 j).gradient) h) ∧
        (∀ t, (getN (rs.foldl (fun h2 r => accGradO h2 r (getN h2 j).gradient) h) t).dot =
          (getN h t).dot) ∧
        (rs.foldl (fun h2 r => accGradO h2 r (getN h2 j).gradient) h).nodes.length =
          h.nodes.length := by
  intro rs
  induction rs with
  | nil =>
      intro h _ hjl hsz hw
      exact ⟨by simp, hsz, fun t => rfl, rfl⟩
  | cons r rs ih =>
      intro h htopo hjl hsz hw
      obtain ⟨u, rfl, hu⟩ := htopo r (by simp)
      simp only [List.foldl_cons, List.map_cons, List.sum_cons]
      have hstep : accGradO h (some u) (getN h j).gradient = accGrad h u w := by
        rw [hw]
        rfl
      rw [hstep]
      have hul : u < h.nodes.length := lt_trans hu hjl
      have hsz2 := staleZero_accGrad h u w hsz
      have hw2 : (getN (accGrad h u w) j).gradient = w := by
        rw [grad_accGrad_ne h u w j (by omega)]
        exact hw
      have hjl2 : j < (accGrad h u w).nodes.length := by
        rw [len_accGrad]
        exact hjl
      obtain ⟨hs, hz, hd, hl⟩ := ih (accGrad h u w)
        (fun r2 hr2 => htopo r2 (by simp [hr2])) hjl2 hsz2 hw2
      refine ⟨?_, hz, ?_, ?_⟩
      · rw [hs, gds_accGrad h u w j hu hul hsz]
        have hmap : (rs.map fun r2 => (deref (accGrad h u w) r2).dot) =
            rs.map fun r2 => (deref h r2).dot := by
          refine List.map_congr_left ?_
          intro r2 hr2
          cases r2 with
          | none => rfl
          | some u2 => exact dot_accGrad h u w u2
        rw [hmap, show (deref h (some u)).dot = (getN h u).dot from rfl]
        ring
      · intro t
        rw [hd t, dot_accGrad]
      · rw [hl, len_accGrad]

theorem bsum_mul_fold (j : Nat) (w : α) (C : Nat → α) (ρ : Nat → Option Nat) :
    ∀ (L : List Nat) (h : ADGraph α),
      (∀ i ∈ L, ∃ u, ρ i = some u ∧ u < j) → j < h.nodes.length → StaleZero h →
      (getN h j).gradient = w →
      gradDotSum (L.foldl (fun h2 i => accGradO h2 (ρ i) ((getN h2 j).gradient * C i)) h) j =
          gradDotSum h j + (L.map fun i => w * C i * (deref h (ρ i)).dot).sum ∧
        StaleZero (L.foldl (fun h2 i => accGradO h2 (ρ i) ((getN h2 j).gradient * C i)) h) ∧
        (∀ t, (getN (L.foldl (fun h2 i => accGradO h2 (ρ i) ((getN h2 j).gradient * C i)) h)
          t).dot = (getN h t).dot) ∧
        (L.foldl (fun h2 i => accGradO h2 (ρ i) ((getN h2 j).gradient * C i)) h).nodes.length =
          h.nodes.length := by
  intro L
  induction L with
  | nil =>
      intro h _ hjl hsz hw
      exact ⟨by simp, hsz, fun t => rfl, rfl⟩
  | cons i L ih =>
      intro h htopo hjl hsz hw
      obtain ⟨u, hri, hu⟩ := htopo i (by simp)
      simp only [List.foldl_cons, List.map_cons, List.sum_cons, hri]
      have hstep : accGradO h (some u) ((getN h j).gradient * C i) = accGrad h u (w * C i) := by
        rw [hw]
        rfl
      rw [hstep]
      have hul : u < h.nodes.length := lt_trans hu hjl
      have hsz2 := staleZero_accGrad h u (w * C i) hsz
      have hw2 : (getN (accGrad h u (w * C i)) j).gradient = w := by
        rw [grad_accGrad_ne h u (w * C i) j (by omega)]
        exact hw
      have hjl2 : j < (accGrad h u (w * C i)).nodes.length := by
        rw [len_accGrad]
        exact hjl
      obtain ⟨hs, hz, hd, hl⟩ := ih (accGrad h u (w * C i))
        (fun i2 hi2 => htopo i2 (by simp [hi2])) hjl2 hsz2 hw2
      refine ⟨?_, hz, ?_, ?_⟩
      · rw [hs, gds_accGrad h u (w * C i) j hu hul hsz]
        have hmap : (L.map fun i2 => w * C i2 * (deref (accGrad h u (w * C i)) (ρ i2)).dot) =
            L.map fun i2 => w * C i2 * (deref h (ρ i2)).dot := by
          refine List.map_congr_left ?_
          intro i2 hi2
          cases hr2 : ρ i2 with
          | none => rfl
          | some u2 =>
              rw [show (deref (accGrad h u (w * C i)) (some u2)).dot =
                (getN (accGrad h u (w * C i)) u2).dot from rfl, dot_accGrad h u (w * C i) u2]
              rfl
        rw [hmap, show (deref h (some u)).dot = (getN h u).dot from rfl]
        ring
      · intro t
        rw [hd t, dot_accGrad]
      · rw [hl, len_accGrad]

theorem bsum_fix_fold (j : Nat) (W : Nat → α) (ρ : Nat → Option Nat) :
    ∀ (L : List Nat) (h : ADGraph α),
      (∀ i ∈ L, ∃ u, ρ i = some u ∧ u < j) → j < h.nodes.length → StaleZero h →
      gradDotSum (L.foldl (fun h2 k => accGradO h2 (ρ k) (W k)) h) j =
          gradDotSum h j + (L.map fun k => W k * (deref h (ρ k)).dot).sum ∧
        StaleZero (L.foldl (fun h2 k => accGradO h2 (ρ k) (W k)) h) ∧
        (∀ t, (getN (L.foldl (fun h2 k => accGradO h2 (ρ k) (W k)) h) t).dot =
          (getN h t).dot) ∧
        (L.foldl (fun h2 k => accGradO h2 (ρ k) (W k)) h).nodes.length = h.nodes.length := by
  intro L
  induction L with
  | nil =>
      intro h _ hjl hsz
      exact ⟨by simp, hsz, fun t => rfl, rfl⟩
  | cons k L ih =>
      intro h htopo hjl hsz
      obtain ⟨u, hrk, hu⟩ := htopo k (by simp)
      simp only [List.foldl_cons, List.map_cons, List.sum_cons, hrk]
      have hstep : accGradO h (some u) (W k) = accGrad h u (W k) := rfl
      rw [hstep]
      have hul : u < h.nodes.length := lt_trans hu hjl
      have hsz2 := staleZero_accGrad h u (W k) hsz
      have hjl2 : j < (accGrad h u (W k)).nodes.length := by
        rw [len_accGrad]
        exact hjl
      obtain ⟨hs, hz, hd, hl⟩ := ih (accGrad h u (W k))
        (fun i2 hi2 => htopo i2 (by simp [hi2])) hjl2 hsz2
      refine ⟨?_, hz, ?_, ?_⟩
      · rw [hs, gds_accGrad h u (W k) j hu hul hsz]
        have hmap : (L.map fun k2 => W k2 * (deref (accGrad h u (W k)) (ρ k2)).dot) =
            L.map fun k2 => W k2 * (deref h (ρ k2)).dot := by
          refine List.map_congr_left ?_
          intro k2 hk2
          cases hr2 : ρ k2 with
          | none => rfl
          | some u2 =>
              rw [show (deref (accGrad h u (W k)) (some u2)).dot =
                (getN (accGrad h u (W k)) u2).dot from rfl, dot_accGrad h u (W k) u2]
              rfl
        rw [hmap, show (deref h (some u)).dot = (getN h u).dot from rfl]
        ring
      · intro t
        rw [hd t, dot_accGrad]
      · rw [hl, len_accGrad]

end ChompAD

namespace ChompAD

variable {α : Type} [LinearOrderedField α]

theorem sum_map_mul_left2 {β : Type} (c : α) (f : β → α) :
    ∀ l : List β, (l.map fun x => c * f x).sum = c * (l.map f).sum := by
  intro l
  induction l with
  | nil => simp
  | cons x xs ih =>
      simp only [List.map_cons, List.sum_cons, ih]
      ring

theorem nary_pos {n : ADNode α} (h : _nary_ok n = true) : 0 < n.inputs.length := by
  unfold _nary_ok at h
  cases hi : n.inputs with
  | nil => rw [hi] at h; exact Bool.noConfusion h
  | cons r rs => simp [hi]

theorem getD_map_dot (h : ADGraph α) (l : List (Option Nat)) (i : Nat) :
    (l.map fun r => (deref h r).dot).getD i 0 = (deref h (l.getD i none)).dot :=
  getD_map_none _ l i

theorem getD_map_val (h : ADGraph α) (l : List (Option Nat)) (i : Nat) :
    (l.map fun r => (deref h r).value).getD i 0 = (deref h (l.getD i none)).value :=
  getD_map_none _ l i

theorem bsum_unary (R : URule α) (j : Nat) (h : ADGraph α) (ai : Nat)
    (hins : (getN h j).inputs = [some ai]) (hai : ai < j) (hjl : j < h.nodes.length)
    (hsz : StaleZero h) :
    gradDotSum (UnaryOp.backward R j h) j =
      gradDotSum h j + (getN h j).gradient * (R.df (getN h ai).value * (getN h ai).dot) := by
  simp only [UnaryOp.backward, hins]
  rw [gds_accGrad h ai ((getN h j).gradient * R.df (getN h ai).value) j hai
    (lt_trans hai hjl) hsz]
  ring

theorem bsum_binary (R : BRule α) (j : Nat) (h : ADGraph α) (ai bi : Nat)
    (hins : (getN h j).inputs = [some ai, some bi]) (hai : ai < j) (hbi : bi < j)
    (hjl : j < h.nodes.length) (hsz : StaleZero h) :
    gradDotSum (BinaryOp.backward R j h) j =
      gradDotSum h j + (getN h j).gradient *
        (R.dfa (getN h ai).value (getN h bi).value * (getN h ai).dot +
          R.dfb (getN h ai).value (getN h bi).value * (getN h bi).dot) := by
  simp only [BinaryOp.backward, hins]
  rw [gds_accGrad
    (accGrad h ai ((getN h j).gradient * R.dfa (getN h ai).value (getN h bi).value)) bi
    ((getN h j).gradient * R.dfb (getN h ai).value (getN h bi).value) j hbi
    (by rw [len_accGrad]; exact lt_trans hbi hjl) (staleZero_accGrad _ _ _ hsz),
    dot_accGrad,
    gds_accGrad h ai ((getN h j).gradient * R.dfa (getN h ai).value (getN h bi).value) j hai
      (lt_trans hai hjl) hsz]
  ring

theorem bsum_max (j : Nat) (h : ADGraph α) (ai bi : Nat)
    (hins : (getN h j).inputs = [some ai, some bi]) (hai : ai < j) (hbi : bi < j)
    (hjl : j < h.nodes.length) (hsz : StaleZero h) :
    gradDotSum (MaxOp.backward j h) j = gradDotSum h j + (getN h j).gradient *
      (if (getN h ai).value ≥ (getN h bi).value then (getN h ai).dot
       else (getN h bi).dot) := by
  simp only [MaxOp.backward, hins]
  split
  · rw [gds_accGrad h ai (getN h j).gradient j hai (lt_trans hai hjl) hsz]
  · rw [gds_accGrad h bi (getN h j).gradient j hbi (lt_trans hbi hjl) hsz]

theorem bsum_add (j : Nat) (h : ADGraph α)
    (htopo : ∀ r ∈ (getN h j).inputs, ∃ u, r = some u ∧ u < j)
    (hok : _nary_ok (getN h j) = true) (hjl : j < h.nodes.length) (hsz : StaleZero h) :
    gradDotSum (AddOp.backward j h) j = gradDotSum h j +
      (getN h j).gradient * (getN h j).inputs.foldl (fun sd r => sd + (deref h r).dot) 0 := by
  simp only [AddOp.backward, if_pos hok]
  rw [(bsum_add_fold j (getN h j).gradient (getN h j).inputs h htopo hjl hsz rfl).1,
    foldl_add_eq_sum, zero_add]

end ChompAD

namespace ChompAD

variable {α : Type} [LinearOrderedField α]

theorem bsum_mul (j : Nat) (h : ADGraph α)
    (htopo : ∀ r ∈ (getN h j).inputs, ∃ u, r = some u ∧ u < j)
    (hok : _nary_ok (getN h j) = true) (hjl : j < h.nodes.length) (hsz : StaleZero h) :
    gradDotSum (MulOp.backward j h) j = gradDotSum h j + (getN h j).gradient *
      ((List.range (getN h j).inputs.length).foldl
        (fun ds i => ds +
          ((getN h j).inputs.map fun r => (deref h r).dot).getD i 0 *
            (preList ((getN h j).inputs.map fun r => (deref h r).value)).getD i 1 *
            (sufList ((getN h j).inputs.map fun r => (deref h r).value)).getD (i + 1) 1) 0) := by
  simp only [MulOp.backward, if_pos hok]
  have hL : ∀ i ∈ List.range (getN h j).inputs.length,
      ∃ u, (getN h j).inputs.getD i none = some u ∧ u < j := by
    intro i hi
    have him : i < (getN h j).inputs.length := List.mem_range.mp hi
    have hmem : (getN h j).inputs.getD i none ∈ (getN h j).inputs := by
      rw [List.getD_eq_getElem _ _ him]
      exact List.getElem_mem him
    exact htopo _ hmem
  rw [(bsum_mul_fold j (getN h j).gradient
    (fun i => (preList ((getN h j).inputs.map fun r => (deref h r).value)).getD i 1 *
      (sufList ((getN h j).inputs.map fun r => (deref h r).value)).getD (i + 1) 1)
    (fun i => (getN h j).inputs.getD i none)
    (List.range (getN h j).inputs.length) h hL hjl hsz rfl).1]
  rw [foldl_add_eq_sum, zero_add]
  have hcong : ((List.range (getN h j).inputs.length).map fun i =>
      (getN h j).gradient *
        ((preList ((getN h j).inputs.map fun r => (deref h r).value)).getD i 1 *
          (sufList ((getN h j).inputs.map fun r => (deref h r).value)).getD (i + 1) 1) *
        (deref h ((getN h j).inputs.getD i none)).dot) =
      (List.range (getN h j).inputs.length).map fun i =>
        (getN h j).gradient *
          (((getN h j).inputs.map fun r => (deref h r).dot).getD i 0 *
            (preList ((getN h j).inputs.map fun r => (deref h r).value)).getD i 1 *
            (sufList ((getN h j).inputs.map fun r => (deref h r).value)).getD (i + 1) 1) := by
    refine List.map_congr_left ?_
    intro i hi
    rw [getD_map_dot]
    ring
  rw [hcong, sum_map_mul_left2]

theorem bsum_softmax (fs : RealFuns α) (j : Nat) (h : ADGraph α)
    (htopo : ∀ r ∈ (getN h j).inputs, ∃ u, r = some u ∧ u < j)
    (hok : _nary_ok (getN h j) = true) (hjl : j < h.nodes.length) (hsz : StaleZero h) :
    gradDotSum (SoftmaxOp.backward fs j h) j = gradDotSum h j + (getN h j).gradient *
      ((softmaxY fs ((getN h j).inputs.map fun r => (deref h r).value)).getD 0 0 *
        (((getN h j).inputs.map fun r => (deref h r).dot).getD 0 0 -
          (List.range (getN h j).inputs.length).foldl
            (fun s k => s +
              (softmaxY fs ((getN h j).inputs.map fun r => (deref h r).value)).getD k 0 *
                ((getN h j).inputs.map fun r => (deref h r).dot).getD k 0) 0)) := by
  simp only [SoftmaxOp.backward, if_pos hok]
  have hL : ∀ i ∈ List.range (getN h j).inputs.length,
      ∃ u, (getN h j).inputs.getD i none = some u ∧ u < j := by
    intro i hi
    have him : i < (getN h j).inputs.length := List.mem_range.mp hi
    have hmem : (getN h j).inputs.getD i none ∈ (getN h j).inputs := by
      rw [List.getD_eq_getElem _ _ him]
      exact List.getElem_mem him
    exact htopo _ hmem
  rw [(bsum_fix_fold j
    (fun k => (getN h j).gradient *
      ((softmaxY fs ((getN h j).inputs.map fun r => (deref h r).value)).getD 0 0 *
          (if k = 0 then 1 else 0) -
        (softmaxY fs ((getN h j).inputs.map fun r => (deref h r).value)).getD 0 0 *
          (softmaxY fs ((getN h j).inputs.map fun r => (deref h r).value)).getD k 0))
    (fun k => (getN h j).inputs.getD k none)
    (List.range (getN h j).inputs.length) h hL hjl hsz).1]
  rw [foldl_add_eq_sum, zero_add]
  have hcong : ((List.range (getN h j).inputs.length).map fun k =>
      (getN h j).gradient *
        ((softmaxY fs ((getN h j).inputs.map fun r => (deref h r).value)).getD 0 0 *
            (if k = 0 then 1 else 0) -
          (softmaxY fs ((getN h j).inputs.map fun r => (deref h r).value)).getD 0 0 *
            (softmaxY fs ((getN h j).inputs.map fun r => (deref h r).value)).getD k 0) *
        (deref h ((getN h j).inputs.getD k none)).dot) =
      (List.range (getN h j).inputs.length).map fun k =>
        (getN h j).gradient *
          ((if k = 0 then
              (softmaxY fs ((getN h j).inputs.map fun r => (deref h r).value)).getD 0 0 *
                ((getN h j).inputs.map fun r => (deref h r).dot).getD 0 0
            else 0) -
            (softmaxY fs ((getN h j).inputs.map fun r => (deref h r).value)).getD 0 0 *
              ((softmaxY fs ((getN h j).inputs.map fun r => (deref h r).value)).getD k 0 *
                ((getN h j).inputs.map fun r => (deref h r).dot).getD k 0)) := by
    refine List.map_congr_left ?_
    intro k hk
    rw [show (deref h ((getN h j).inputs.getD k none)).dot =
      ((getN h j).inputs.map fun r => (deref h r).dot).getD k 0 from
      (getD_map_dot h _ k).symm]
    by_cases hk0 : k = 0
    · subst hk0
      rw [if_pos rfl, if_pos rfl]
      ring
    · simp only [if_neg hk0]
      ring
  rw [hcong, sum_map_mul_left2, sum_map_sub,
    sum_ite_head _ _ (nary_pos hok), sum_map_mul_left2]
  ring

end ChompAD

namespace ChompAD

variable {α : Type} [LinearOrderedField α]

theorem backStep_sum (fs : RealFuns α) (j : Nat) (h : ADGraph α)
    (hkn : knownOp (getN h j).op = true) (hok : arity_ok (getN h j) = true)
    (hnl : isLeaf (getN h j).op = false)
    (htopo : ∀ r ∈ (getN h j).inputs, ∃ u, r = some u ∧ u < j)
    (hjl : j < h.nodes.length) (hsz : StaleZero h) :
    gradDotSum (backStep fs j h) j =
      gradDotSum h j + (getN h j).gradient * dotValue fs h j := by
  have hbnd : ∀ u, some u ∈ (getN h j).inputs → u < j := by
    intro u hu
    obtain ⟨u2, he, hl⟩ := htopo (some u) hu
    have := Option.some.inj he
    omega
  unfold backStep
  split
  all_goals rename_i hop
  · simp [isLeaf, hop] at hnl
  · simp [isLeaf, hop] at hnl
  · -- Add
    simp only [arity_ok, hop] at hok
    rw [bsum_add j h htopo hok hjl hsz]
    simp only [dotValue, hop]
  · -- Subtract
    simp only [arity_ok, hop] at hok
    obtain ⟨ai, bi, hins⟩ := binary_ok_shape hok
    have hai : ai < j := hbnd ai (by rw [hins]; simp)
    have hbi : bi < j := hbnd bi (by rw [hins]; simp)
    rw [bsum_binary SubRule j h ai bi hins hai hbi hjl hsz]
    simp only [dotValue, hop, hins]
  · -- Multiply
    simp only [arity_ok, hop] at hok
    rw [bsum_mul j h htopo hok hjl hsz]
    simp only [dotValue, hop, if_pos hok]
  · -- Divide
    simp only [arity_ok, hop] at hok
    obtain ⟨ai, bi, hins⟩ := binary_ok_shape hok
    have hai : ai < j := hbnd ai (by rw [hins]; simp)
    have hbi : bi < j := hbnd bi (by rw [hins]; simp)
    rw [bsum_binary DivRule j h ai bi hins hai hbi hjl hsz]
    simp only [dotValue, hop, hins, DivRule]
    by_cases hb : (getN h bi).value = 0
    · simp [hb]
    · simp only [ne_eq, hb, not_false_iff, if_true]
      field_simp
      ring
  · -- Sin
    simp only [arity_ok, hop] at hok
    obtain ⟨ai, hins⟩ := unary_ok_shape hok
    have hai : ai < j := hbnd ai (by rw [hins]; simp)
    rw [bsum_unary (SinRule fs) j h ai hins hai hjl hsz]
    simp only [dotValue, hop, hins]
  · -- Cos
    simp only [arity_ok, hop] at hok
    obtain ⟨ai, hins⟩ := unary_ok_shape hok
    have hai : ai < j := hbnd ai (by rw [hins]; simp)
    rw [bsum_unary (CosRule fs) j h ai hins hai hjl hsz]
    simp only [dotValue, hop, hins]
  · -- Tan
    simp only [arity_ok, hop] at hok
    obtain ⟨ai, hins⟩ := unary_ok_shape hok
    have hai : ai < j := hbnd ai (by rw [hins]; simp)
    rw [bsum_unary (TanRule fs) j h ai hins hai hjl hsz]
    simp only [dotValue, hop, hins, TanRule]
    by_cases hc : fs.cosF (getN h ai).value = 0
    · simp [hc]
    · simp only [ne_eq, hc, not_false_iff, if_true]
      rw [one_div_mul_eq_div]
  · -- Exp
    simp only [arity_ok, hop] at hok
    obtain ⟨ai, hins⟩ := unary_ok_shape hok
    have hai : ai < j := hbnd ai (by rw [hins]; simp)
    rw [bsum_unary (ExpRule fs) j h ai hins hai hjl hsz]
    simp only [dotValue, hop, hins]
  · -- Log
    simp only [arity_ok, hop] at hok
    obtain ⟨ai, hins⟩ := unary_ok_shape hok
    have hai : ai < j := hbnd ai (by rw [hins]; simp)
    rw [bsum_unary (LogRule fs) j h ai hins hai hjl hsz]
    simp only [dotValue, hop, hins, LogRule]
    by_cases hx : (getN h ai).value = 0
    · simp [hx]
    · simp only [ne_eq, hx, not_false_iff, if_true]
      rw [one_div_mul_eq_div]
  · -- Max
    simp only [arity_ok, hop] at hok
    obtain ⟨ai, bi, hins⟩ := binary_ok_shape hok
    have hai : ai < j := hbnd ai (by rw [hins]; simp)
    have hbi : bi < j := hbnd bi (by rw [hins]; simp)
    rw [bsum_max j h ai bi hins hai hbi hjl hsz]
    simp only [dotValue, hop, hins]
  · -- Tanh
    simp only [arity_ok, hop] at hok
    obtain ⟨ai, hins⟩ := unary_ok_shape hok
    have hai : ai < j := hbnd ai (by rw [hins]; simp)
    rw [bsum_unary (TanhRule fs) j h ai hins hai hjl hsz]
    simp only [dotValue, hop, hins]
  · -- Silu
    simp only [arity_ok, hop] at hok
    obtain ⟨ai, hins⟩ := unary_ok_shape hok
    have hai : ai < j := hbnd ai (by rw [hins]; simp)
    rw [bsum_unary (SiLURule fs) j h ai hins hai hjl hsz]
    simp only [dotValue, hop, hins]
  · -- Gelu
    simp only [arity_ok, hop] at hok
    obtain ⟨ai, hins⟩ := unary_ok_shape hok
    have hai : ai < j := hbnd ai (by rw [hins]; simp)
    rw [bsum_unary (GELURule fs) j h ai hins hai hjl hsz]
    simp only [dotValue, hop, hins]
  · -- Relu
    simp only [arity_ok, hop] at hok
    obtain ⟨ai, hins⟩ := unary_ok_shape hok
    have hai : ai < j := hbnd ai (by rw [hins]; simp)
    rw [bsum_unary ReluRule j h ai hins hai hjl hsz]
    simp only [dotValue, hop, hins]
  · -- Softmax
    simp only [arity_ok, hop] at hok
    rw [bsum_softmax fs j h htopo hok hjl hsz]
    simp only [dotValue, hop, if_pos hok]
  · simp [knownOp, hop] at hkn

end ChompAD

namespace ChompAD

variable {α : Type} [LinearOrderedField α]

theorem gds_succ (h : ADGraph α) (k : Nat) :
    gradDotSum h (k + 1) = gradDotSum h k + (getN h k).gradient * (getN h k).dot := by
  unfold gradDotSum
  rw [List.range_succ, List.map_append, List.sum_append]
  simp

theorem varTail_succ (h : ADGraph α) (k : Nat) (hk : k < h.nodes.length) :
    varTail h k =
      (if (getN h k).op = .Var then (getN h k).gradient * (getN h k).dot else 0) +
        varTail h (k + 1) := by
  unfold varTail
  have h1 : h.nodes.length - k = (h.nodes.length - (k + 1)) + 1 := by omega
  rw [h1, List.range'_succ, List.map_cons, List.sum_cons]

theorem gds_congr {h1 h2 : ADGraph α} (k : Nat)
    (he : ∀ t, t < k → getN h2 t = getN h1 t) : gradDotSum h2 k = gradDotSum h1 k := by
  unfold gradDotSum
  refine congrArg _ (List.map_congr_left ?_)
  intro t ht
  rw [he t (List.mem_range.mp ht)]

theorem varTail_congr {h1 h2 : ADGraph α} (k : Nat)
    (hlen : h2.nodes.length = h1.nodes.length)
    (he : ∀ t, k ≤ t → getN h2 t = getN h1 t) : varTail h2 k = varTail h1 k := by
  unfold varTail
  rw [hlen]
  refine congrArg _ (List.map_congr_left ?_)
  intro t ht
  rw [he t (List.mem_range'_1.mp ht).1]

theorem revSweep_sum (fs : RealFuns α) :
    ∀ (j : Nat) (h : ADGraph α),
      j < h.nodes.length →
      (∀ t, t < h.nodes.length → knownOp (getN h t).op = true ∧ arity_ok (getN h t) = true) →
      (∀ t, ∀ r ∈ (getN h t).inputs, ∃ u, r = some u ∧ u < t) →
      (∀ t, t < h.nodes.length → (getN h t).dot = dotValue fs h t) →
      (∀ t, (getN h t).op = .cte → (getN h t).dot = 0) →
      StaleZero h →
      varTail (revSweepAux fs j h) 0 = gradDotSum h (j + 1) + varTail h (j + 1) := by
  intro j
  induction j with
  | zero =>
      intro h hjl hwf htopo hde hcte hsz
      have hins0 : (getN h 0).inputs = [] := by
        cases hi : (getN h 0).inputs with
        | nil => rfl
        | cons r rs =>
            obtain ⟨u, _, hu⟩ := htopo 0 r (by rw [hi]; simp)
            omega
      obtain ⟨hkn0, hok0⟩ := hwf 0 hjl
      have hid : backStep fs 0 h = h := by
        unfold backStep
        split
        all_goals rename_i hop
        all_goals first
          | rfl
          | simp [arity_ok, hop, _unary_ok, _binary_ok, _nary_ok, hins0] at hok0
      show varTail (backStep fs 0 h) 0 = _
      rw [hid, varTail_succ h 0 hjl]
      rw [gds_succ h 0, show gradDotSum h 0 = (0 : α) from rfl]
      by_cases hv : (getN h 0).op = .Var
      · rw [if_pos hv]
        ring
      · rw [if_neg hv]
        have hc : (getN h 0).op = .cte := by
          cases hop : (getN h 0).op
          · rfl
          · exact absurd hop hv
          · simp [arity_ok, hop, _nary_ok, hins0] at hok0
          · simp [arity_ok, hop, _binary_ok, hins0] at hok0
          · simp [arity_ok, hop, _nary_ok, hins0] at hok0
          · simp [arity_ok, hop, _binary_ok, hins0] at hok0
          · simp [arity_ok, hop, _unary_ok, hins0] at hok0
          · simp [arity_ok, hop, _unary_ok, hins0] at hok0
          · simp [arity_ok, hop, _unary_ok, hins0] at hok0
          · simp [arity_ok, hop, _unary_ok, hins0] at hok0
          · simp [arity_ok, hop, _unary_ok, hins0] at hok0
          · simp [arity_ok, hop, _binary_ok, hins0] at hok0
          · simp [arity_ok, hop, _unary_ok, hins0] at hok0
          · simp [arity_ok, hop, _unary_ok, hins0] at hok0
          · simp [arity_ok, hop, _unary_ok, hins0] at hok0
          · simp [arity_ok, hop, _unary_ok, hins0] at hok0
          · simp [arity_ok, hop, _nary_ok, hins0] at hok0
          · simp [knownOp, hop] at hkn0
        rw [hcte 0 hc, mul_zero]
        ring
  | succ j ih =>
      intro h hjl hwf htopo hde hcte hsz
      have hss := sameStruct_backStep fs (j + 1) h
      have hvd := sameVD_backStep fs (j + 1) h
      have hsz2 : StaleZero (backStep fs (j + 1) h) :=
        staleZero_of_tagged (tagged_backStep fs (j + 1) h) hsz
      have hlen2 : (backStep fs (j + 1) h).nodes.length = h.nodes.length := hss.1
      have hjl2 : j < (backStep fs (j + 1) h).nodes.length := by
        rw [hlen2]
        omega
      have harity : ∀ t, arity_ok (getN (backStep fs (j + 1) h) t) = arity_ok (getN h t) := by
        intro t
        unfold arity_ok _unary_ok _binary_ok _nary_ok
        rw [(hss.2.2.2.2.2 t).1, (hss.2.2.2.2.2 t).2]
      have hwf2 : ∀ t, t < (backStep fs (j + 1) h).nodes.length →
          knownOp (getN (backStep fs (j + 1) h) t).op = true ∧
            arity_ok (getN (backStep fs (j + 1) h) t) = true := by
        intro t ht
        rw [hlen2] at ht
        refine ⟨?_, ?_⟩
        · rw [(hss.2.2.2.2.2 t).1]
          exact (hwf t ht).1
        · rw [harity t]
          exact (hwf t ht).2
      have htopo2 : ∀ t, ∀ r ∈ (getN (backStep fs (j + 1) h) t).inputs,
          ∃ u, r = some u ∧ u < t := by
        intro t
        rw [(hss.2.2.2.2.2 t).2]
        exact htopo t
      have hde2 : ∀ t, t < (backStep fs (j + 1) h).nodes.length →
          (getN (backStep fs (j + 1) h) t).dot = dotValue fs (backStep fs (j + 1) h) t := by
        intro t ht
        rw [hlen2] at ht
        rw [(hvd t).2.1, hde t ht]
        refine (dotValue_stable fs h (backStep fs (j + 1) h) t (hwf t ht).2
          (hss.2.2.2.2.2 t).1 (hss.2.2.2.2.2 t).2 (fun _ => (hvd t).2.1) ?_).symm
        intro u hu
        exact ⟨(hvd u).1, (hvd u).2.1⟩
      have hcte2 : ∀ t, (getN (backStep fs (j + 1) h) t).op = .cte →
          (getN (backStep fs (j + 1) h) t).dot = 0 := by
        intro t hc
        rw [(hvd t).2.1]
        exact hcte t ((hss.2.2.2.2.2 t).1.symm.trans hc)
      have hunt : ∀ t, j + 1 ≤ t → getN (backStep fs (j + 1) h) t = getN h t := by
        intro t ht
        refine untouched_backStep fs (j + 1) h t ?_
        intro hmem
        obtain ⟨u, he, hu⟩ := htopo (j + 1) (some t) hmem
        have := Option.some.inj he
        omega
      have hvt : varTail (backStep fs (j + 1) h) (j + 1) = varTail h (j + 1) :=
        varTail_congr _ hlen2 hunt
      obtain ⟨hkn1, hok1⟩ := hwf (j + 1) hjl
      show varTail (revSweepAux fs j (backStep fs (j + 1) h)) 0 = _
      rw [ih (backStep fs (j + 1) h) hjl2 hwf2 htopo2 hde2 hcte2 hsz2, hvt]
      by_cases hleaf : isLeaf (getN h (j + 1)).op = true
      · have hid : backStep fs (j + 1) h = h := by
          unfold backStep
          split
          all_goals rename_i hop
          all_goals first
            | rfl
            | simp [isLeaf, hop] at hleaf
        rw [hid, gds_succ h (j + 1), varTail_succ h (j + 1) hjl]
        by_cases hv : (getN h (j + 1)).op = .Var
        · rw [if_pos hv]
          ring
        · rw [if_neg hv]
          have hc : (getN h (j + 1)).op = .cte := by
            cases hop : (getN h (j + 1)).op
            · rfl
            · exact absurd hop hv
            · simp [isLeaf, hop] at hleaf
            · simp [isLeaf, hop] at hleaf
            · simp [isLeaf, hop] at hleaf
            · simp [isLeaf, hop] at hleaf
            · simp [isLeaf, hop] at hleaf
            · simp [isLeaf, hop] at hleaf
            · simp [isLeaf, hop] at hleaf
            · simp [isLeaf, hop] at hleaf
            · simp [isLeaf, hop] at hleaf
            · simp [isLeaf, hop] at hleaf
            · simp [isLeaf, hop] at hleaf
            · simp [isLeaf, hop] at hleaf
            · simp [isLeaf, hop] at hleaf
            · simp [isLeaf, hop] at hleaf
            · simp [isLeaf, hop] at hleaf
            · simp [knownOp, hop] at hkn1
          rw [hcte (j + 1) hc, mul_zero]
          ring
      · have hnleaf : isLeaf (getN h (j + 1)).op = false := by
          revert hleaf
          cases isLeaf (getN h (j + 1)).op <;> simp
        have hbs := backStep_sum fs (j + 1) h hkn1 hok1 hnleaf (htopo (j + 1)) hjl hsz
        rw [hbs, ← hde (j + 1) hjl, gds_succ h (j + 1), varTail_succ h (j + 1) hjl]
        have hnv : ¬ (getN h (j + 1)).op = .Var := by
          intro hv
          rw [hv] at hnleaf
          exact Bool.noConfusion hnleaf
        rw [if_neg hnv]
        ring

end ChompAD

/-! ## Assembling the scheduler passes for the conservation identity (C1) -/

namespace ChompAD

variable {α : Type} [LinearOrderedField α]

theorem arity_congr {n1 n2 : ADNode α} (hop : n1.op = n2.op)
    (hins : n1.inputs = n2.inputs) : arity_ok n1 = arity_ok n2 := by
  unfold arity_ok _unary_ok _binary_ok _nary_ok
  rw [hop, hins]

theorem dotValue_leaf (fs : RealFuns α) (h : ADGraph α) (t : Nat)
    (hl : isLeaf (getN h t).op = true) : dotValue fs h t = (getN h t).dot := by
  unfold dotValue
  split
  all_goals try rfl
  all_goals rename_i hop
  all_goals simp [isLeaf, hop] at hl

theorem getN_out (g : ADGraph α) (t : Nat) (h : g.nodes.length ≤ t) :
    getN g t = dfltNode := by
  unfold getN
  exact List.getD_eq_default _ _ h

theorem gds_zero (h : ADGraph α) :
    ∀ k, (∀ t, t < k → (getN h t).gradient = 0) → gradDotSum h k = 0 := by
  intro k
  induction k with
  | zero => intro _; rfl
  | succ k ih =>
      intro hz
      rw [gds_succ, ih (fun t ht => hz t (by omega)), hz k (by omega)]
      ring

theorem varTail_end (h : ADGraph α) : varTail h h.nodes.length = 0 := by
  unfold varTail
  rw [Nat.sub_self]
  rfl

/-- The forward sweep preserves structure, gradients and tangents of every
node (it only writes `value`/`val_epoch`). -/
theorem fwdSweep_pres (fs : RealFuns α) (g : ADGraph α) :
    (∀ t, (getN (fwdSweep fs g) t).op = (getN g t).op ∧
      (getN (fwdSweep fs g) t).inputs = (getN g t).inputs ∧
      (getN (fwdSweep fs g) t).gradient = (getN g t).gradient ∧
      (getN (fwdSweep fs g) t).dot = (getN g t).dot) ∧
    (fwdSweep fs g).nodes.length = g.nodes.length := by
  unfold fwdSweep
  refine foldl_pres
    (P := fun a b => (∀ t, (getN b t).op = (getN a t).op ∧
      (getN b t).inputs = (getN a t).inputs ∧
      (getN b t).gradient = (getN a t).gradient ∧
      (getN b t).dot = (getN a t).dot) ∧ b.nodes.length = a.nodes.length)
    ?_ ?_ _ _ ?_ g
  · intro a b c hab hbc
    exact ⟨fun t => ⟨(hbc.1 t).1.trans (hab.1 t).1, (hbc.1 t).2.1.trans (hab.1 t).2.1,
      (hbc.1 t).2.2.1.trans (hab.1 t).2.2.1, (hbc.1 t).2.2.2.trans (hab.1 t).2.2.2⟩,
      hbc.2.trans hab.2⟩
  · intro a
    exact ⟨fun t => ⟨rfl, rfl, rfl, rfl⟩, rfl⟩
  · intro h x _
    exact ⟨fun t => ⟨((sameStruct_forwardStep fs x h).2.2.2.2.2 t).1,
      ((sameStruct_forwardStep fs x h).2.2.2.2.2 t).2,
      (sameGrads_forwardStep fs x h t).1, dot_fwdStep fs x h t⟩,
      (sameStruct_forwardStep fs x h).1⟩

/-- Unfolding `backwardPass`: bump the gradient epoch, seed the output
adjoint through `set_epoch_value`, reverse-sweep from the last node. -/
theorem backwardPass_eq (fs : RealFuns α) (g : ADGraph α) :
    backwardPass fs g = revSweepAux fs (g.nodes.length - 1)
      (updN { g with cur_grad_epoch_ := g.cur_grad_epoch_ + 1 }
        (g.nodes.length - 1) fun nd =>
        { nd with
          gradient :=
            (set_epoch_value nd.gradient nd.grad_epoch (g.cur_grad_epoch_ + 1) 1).1,
          grad_epoch :=
            (set_epoch_value nd.gradient nd.grad_epoch (g.cur_grad_epoch_ + 1) 1).2 }) :=
  rfl

/-- Invariant carried through the tangent sweep: after processing the first
`k` nodes, structure, gradients, values and leaf tangents are untouched, the
unprocessed tail is literally unchanged, and every processed node holds the
tangent value prescribed by its `forward_dot` rule. -/
theorem dotSweep_inv (fs : RealFuns α) (g : ADGraph α)
    (hwf : ∀ t, t < g.nodes.length →
      knownOp (getN g t).op = true ∧ arity_ok (getN g t) = true)
    (htopo : ∀ t, ∀ r ∈ (getN g t).inputs, ∃ u, r = some u ∧ u < t) :
    ∀ k, k ≤ g.nodes.length →
      (∀ t, k ≤ t →
        getN ((List.range k).foldl (fun h j => dotStep fs j h) g) t = getN g t) ∧
      ((List.range k).foldl (fun h j => dotStep fs j h) g).nodes.length =
        g.nodes.length ∧
      (∀ t, (getN ((List.range k).foldl (fun h j => dotStep fs j h) g) t).op =
          (getN g t).op ∧
        (getN ((List.range k).foldl (fun h j => dotStep fs j h) g) t).inputs =
          (getN g t).inputs) ∧
      (∀ t, (getN ((List.range k).foldl (fun h j => dotStep fs j h) g) t).gradient =
        (getN g t).gradient) ∧
      (∀ t, (getN ((List.range k).foldl (fun h j => dotStep fs j h) g) t).value =
        (getN g t).value) ∧
      (∀ t, isLeaf (getN g t).op = true →
        (getN ((List.range k).foldl (fun h j => dotStep fs j h) g) t).dot =
          (getN g t).dot) ∧
      (∀ t, t < k →
        (getN ((List.range k).foldl (fun h j => dotStep fs j h) g) t).dot =
          dotValue fs ((List.range k).foldl (fun h j => dotStep fs j h) g) t) := by
  intro k
  induction k with
  | zero =>
      intro _
      exact ⟨fun t _ => rfl, rfl, fun t => ⟨rfl, rfl⟩, fun t => rfl, fun t => rfl,
        fun t _ => rfl, fun t ht => absurd ht (by omega)⟩
  | succ k ih =>
      intro hk1
      obtain ⟨hfr, hlen, hsi, hgr, hvv, hld, hde⟩ := ih (by omega)
      simp only [List.range_succ, List.foldl_append, List.foldl_cons, List.foldl_nil]
      set G := (List.range k).foldl (fun h j => dotStep fs j h) g with hG
      have hkN : k < g.nodes.length := by omega
      have hokG : arity_ok (getN G k) = true := by
        rw [arity_congr (hsi k).1 (hsi k).2]
        exact (hwf k hkN).2
      have hkl : k < G.nodes.length := by rw [hlen]; exact hkN
      have hss := (sameStruct_dotStep fs k G).2.2.2.2.2
      have hfr' : ∀ t, k ≠ t → getN (dotStep fs k G) t = getN G t := fun t hne =>
        getN_dotStep_ne fs k G t hne
      have hbelow : ∀ t', ∀ u, some u ∈ (getN G t').inputs → u < t' := by
        intro t' u hu
        rw [(hsi t').2] at hu
        obtain ⟨u2, he, hlt⟩ := htopo t' (some u) hu
        have : u = u2 := Option.some.inj he
        omega
      refine ⟨?_, ?_, ?_, ?_, ?_, ?_, ?_⟩
      · intro t ht
        rw [hfr' t (by omega), hfr t (by omega)]
      · exact (sameStruct_dotStep fs k G).1.trans hlen
      · intro t
        exact ⟨(hss t).1.trans (hsi t).1, (hss t).2.trans (hsi t).2⟩
      · intro t
        exact (sameGrads_dotStep fs k G t).1.trans (hgr t)
      · intro t
        exact (val_dotStep fs k G t).trans (hvv t)
      · intro t hlf
        by_cases htk : t = k
        · rw [htk] at hlf ⊢
          rw [dotStep_at fs k G hokG hkl,
            dotValue_leaf fs G k (by rw [(hsi k).1]; exact hlf)]
          exact hld k hlf
        · rw [hfr' t (fun e => htk e.symm)]
          exact hld t hlf
      · intro t ht
        by_cases htk : t = k
        · rw [htk]
          rw [dotStep_at fs k G hokG hkl]
          refine (dotValue_stable fs G (dotStep fs k G) k hokG (hss k).1 (hss k).2
            ?_ ?_).symm
          · intro hlf2
            rw [dotStep_at fs k G hokG hkl, dotValue_leaf fs G k hlf2]
          · intro u hu
            have hun : k ≠ u := by have := hbelow k u hu; omega
            rw [hfr' u hun]
            exact ⟨rfl, rfl⟩
        · have htk2 : t < k := by omega
          have hrec := hfr' t (fun e => htk e.symm)
          rw [hrec, hde t htk2]
          have hokGt : arity_ok (getN G t) = true := by
            rw [arity_congr (hsi t).1 (hsi t).2]
            exact (hwf t (by omega)).2
          refine (dotValue_stable fs G (dotStep fs k G) t hokGt
            (by rw [hrec]) (by rw [hrec]) (fun _ => by rw [hrec]) ?_).symm
          intro u hu
          have hun : k ≠ u := by have := hbelow t u hu; omega
          rw [hfr' u hun]
          exact ⟨rfl, rfl⟩

/-- **C1.** For any DAG of supported operators (every node carries a known tag
with valid arity, inputs are non-null and point strictly below the node) whose
single output is the last node, with zero-initialised gradients and zero
tangents on constant nodes: after a forward pass, a forward_dot pass and a
backward pass seeded with `gradient_output = 1` in the scheduler's required
orders, the sum over all `Var` nodes `i` of `gradient_i * xdot_i` equals the
tangent `dot` computed at the output node — the reverse VJP agrees with the
forward JVP. -/
theorem C1_reverse_vjp_matches_jvp (fs : RealFuns α) (g0 : ADGraph α)
    (hN : 0 < g0.nodes.length)
    (hwf : ∀ t, t < g0.nodes.length →
      knownOp (getN g0 t).op = true ∧ arity_ok (getN g0 t) = true)
    (htopo : ∀ t, t < g0.nodes.length →
      ∀ r ∈ (getN g0 t).inputs, ∃ u, r = some u ∧ u < t)
    (hg0 : ∀ t, t < g0.nodes.length → (getN g0 t).gradient = 0)
    (hcte : ∀ t, t < g0.nodes.length →
      (getN g0 t).op = .cte → (getN g0 t).dot = 0) :
    varTail (backwardPass fs (dotPass fs (forwardPass fs g0))) 0 =
      (getN (dotPass fs (forwardPass fs g0)) (g0.nodes.length - 1)).dot := by
  -- unbounded forms of the pointwise hypotheses (out-of-range reads default)
  have hg0' : ∀ t, (getN g0 t).gradient = 0 := by
    intro t
    by_cases ht : t < g0.nodes.length
    · exact hg0 t ht
    · rw [getN_out g0 t (by omega)]; rfl
  have htopo' : ∀ t, ∀ r ∈ (getN g0 t).inputs, ∃ u, r = some u ∧ u < t := by
    intro t r hr
    by_cases ht : t < g0.nodes.length
    · exact htopo t ht r hr
    · rw [getN_out g0 t (by omega)] at hr
      simp [dfltNode] at hr
  -- stage 1: the forward pass only writes primal values
  have hfwd := fwdSweep_pres fs { g0 with cur_val_epoch_ := g0.cur_val_epoch_ + 1 }
  have hF : ∀ t, (getN (forwardPass fs g0) t).op = (getN g0 t).op ∧
      (getN (forwardPass fs g0) t).inputs = (getN g0 t).inputs ∧
      (getN (forwardPass fs g0) t).gradient = (getN g0 t).gradient ∧
      (getN (forwardPass fs g0) t).dot = (getN g0 t).dot := hfwd.1
  have hFlen : (forwardPass fs g0).nodes.length = g0.nodes.length := hfwd.2
  -- stage 2: the forward_dot pass computes the tangent rule at every node
  have hwfF : ∀ t, t < (forwardPass fs g0).nodes.length →
      knownOp (getN (forwardPass fs g0) t).op = true ∧
      arity_ok (getN (forwardPass fs g0) t) = true := by
    intro t ht
    rw [hFlen] at ht
    constructor
    · rw [(hF t).1]; exact (hwf t ht).1
    · rw [arity_congr (hF t).1 (hF t).2.1]; exact (hwf t ht).2
  have htopoF : ∀ t, ∀ r ∈ (getN (forwardPass fs g0) t).inputs,
      ∃ u, r = some u ∧ u < t := by
    intro t r hr
    rw [(hF t).2.1] at hr
    exact htopo' t r hr
  have hsw := dotSweep_inv fs
    { forwardPass fs g0 with cur_dot_epoch_ := (forwardPass fs g0).cur_dot_epoch_ + 1 }
    hwfF htopoF
    ({ forwardPass fs g0 with
        cur_dot_epoch_ := (forwardPass fs g0).cur_dot_epoch_ + 1 } : ADGraph α).nodes.length
    le_rfl
  obtain ⟨-, hDlen0, hDsi0, hDgr0, hDvv0, hDld0, hDde0⟩ := hsw
  have hDlen : (dotPass fs (forwardPass fs g0)).nodes.length = g0.nodes.length := by
    have h1 : (dotPass fs (forwardPass fs g0)).nodes.length =
        (forwardPass fs g0).nodes.length := hDlen0
    rw [h1, hFlen]
  have hDsi : ∀ t, (getN (dotPass fs (forwardPass fs g0)) t).op = (getN g0 t).op ∧
      (getN (dotPass fs (forwardPass fs g0)) t).inputs = (getN g0 t).inputs := by
    intro t
    have h1 : (getN (dotPass fs (forwardPass fs g0)) t).op =
          (getN (forwardPass fs g0) t).op ∧
        (getN (dotPass fs (forwardPass fs g0)) t).inputs =
          (getN (forwardPass fs g0) t).inputs := hDsi0 t
    exact ⟨h1.1.trans (hF t).1, h1.2.trans (hF t).2.1⟩
  have hDgr : ∀ t, (getN (dotPass fs (forwardPass fs g0)) t).gradient = 0 := by
    intro t
    have h1 : (getN (dotPass fs (forwardPass fs g0)) t).gradient =
        (getN (forwardPass fs g0) t).gradient := hDgr0 t
    rw [h1, (hF t).2.2.1]
    exact hg0' t
  have hDde : ∀ t, t < g0.nodes.length →
      (getN (dotPass fs (forwardPass fs g0)) t).dot =
        dotValue fs (dotPass fs (forwardPass fs g0)) t := by
    intro t ht
    exact hDde0 t (lt_of_lt_of_eq ht hFlen.symm)
  have hDcte : ∀ t, (getN (dotPass fs (forwardPass fs g0)) t).op = .cte →
      (getN (dotPass fs (forwardPass fs g0)) t).dot = 0 := by
    intro t hc
    by_cases ht : t < g0.nodes.length
    · have hc0 : (getN g0 t).op = .cte := by rw [← (hDsi t).1]; exact hc
      have hlf : isLeaf (getN (forwardPass fs g0) t).op = true := by
        rw [(hF t).1, hc0]; rfl
      have h1 : (getN (dotPass fs (forwardPass fs g0)) t).dot =
          (getN (forwardPass fs g0) t).dot := hDld0 t hlf
      rw [h1, (hF t).2.2.2]
      exact hcte t ht hc0
    · have h2 : (getN (dotPass fs (forwardPass fs g0)) t).op =
          (getN g0 t).op := (hDsi t).1
      rw [h2, getN_out g0 t (by omega)] at hc
      simp [dfltNode] at hc
  -- stage 3: the backward pass
  set gD := dotPass fs (forwardPass fs g0) with hgDdef
  rw [backwardPass_eq, hDlen]
  set g2 := updN { gD with cur_grad_epoch_ := gD.cur_grad_epoch_ + 1 }
    (g0.nodes.length - 1) (fun nd =>
      { nd with
        gradient :=
          (set_epoch_value nd.gradient nd.grad_epoch (gD.cur_grad_epoch_ + 1) 1).1,
        grad_epoch :=
          (set_epoch_value nd.gradient nd.grad_epoch (gD.cur_grad_epoch_ + 1) 1).2 })
    with hg2def
  have hg2len : g2.nodes.length = g0.nodes.length := by
    rw [hg2def, length_updN]
    exact hDlen
  have hg2ne : ∀ t, t ≠ g0.nodes.length - 1 → getN g2 t = getN gD t := by
    intro t hne
    rw [hg2def, getN_updN_ne (fun e => hne e.symm)]
    rfl
  have hjlB : g0.nodes.length - 1 <
      ({ gD with cur_grad_epoch_ := gD.cur_grad_epoch_ + 1 } : ADGraph α).nodes.length := by
    show g0.nodes.length - 1 < gD.nodes.length
    rw [hDlen]
    omega
  have hg2self : getN g2 (g0.nodes.length - 1) =
      { getN gD (g0.nodes.length - 1) with gradient := 1, grad_epoch := gD.cur_grad_epoch_ + 1 } := by
    rw [hg2def, getN_updN_self hjlB]
    rfl
  have hg2vd : ∀ t, (getN g2 t).op = (getN gD t).op ∧
      (getN g2 t).inputs = (getN gD t).inputs ∧
      (getN g2 t).value = (getN gD t).value ∧
      (getN g2 t).dot = (getN gD t).dot := by
    intro t
    by_cases htN : t = g0.nodes.length - 1
    · rw [htN, hg2self]
      exact ⟨rfl, rfl, rfl, rfl⟩
    · rw [hg2ne t htN]
      exact ⟨rfl, rfl, rfl, rfl⟩
  have hgrN : (getN g2 (g0.nodes.length - 1)).gradient = 1 := by
    rw [hg2self]
  have hgr2 : ∀ t, t ≠ g0.nodes.length - 1 → (getN g2 t).gradient = 0 := by
    intro t hne
    rw [hg2ne t hne]
    exact hDgr t
  have hcur2 : g2.cur_grad_epoch_ = gD.cur_grad_epoch_ + 1 := by
    rw [hg2def, updN_cur_grad]
  have hwf2 : ∀ t, t < g2.nodes.length →
      knownOp (getN g2 t).op = true ∧ arity_ok (getN g2 t) = true := by
    intro t ht
    rw [hg2len] at ht
    constructor
    · rw [(hg2vd t).1, (hDsi t).1]; exact (hwf t ht).1
    · rw [arity_congr ((hg2vd t).1.trans (hDsi t).1) ((hg2vd t).2.1.trans (hDsi t).2)]
      exact (hwf t ht).2
  have htopo2 : ∀ t, ∀ r ∈ (getN g2 t).inputs, ∃ u, r = some u ∧ u < t := by
    intro t r hr
    rw [(hg2vd t).2.1, (hDsi t).2] at hr
    exact htopo' t r hr
  have hde2 : ∀ t, t < g2.nodes.length → (getN g2 t).dot = dotValue fs g2 t := by
    intro t ht
    rw [hg2len] at ht
    have hokD : arity_ok (getN gD t) = true := by
      rw [arity_congr (hDsi t).1 (hDsi t).2]
      exact (hwf t ht).2
    rw [(hg2vd t).2.2.2, hDde t ht]
    exact (dotValue_stable fs gD g2 t hokD (hg2vd t).1 (hg2vd t).2.1
      (fun _ => (hg2vd t).2.2.2) (fun u _ => ⟨(hg2vd u).2.2.1, (hg2vd u).2.2.2⟩)).symm
  have hcte2 : ∀ t, (getN g2 t).op = .cte → (getN g2 t).dot = 0 := by
    intro t hc
    rw [(hg2vd t).1] at hc
    rw [(hg2vd t).2.2.2]
    exact hDcte t hc
  have hsz2 : StaleZero g2 := by
    intro t hst
    by_cases htN : t = g0.nodes.length - 1
    · rw [htN, hg2self, hcur2] at hst
      exact absurd rfl hst
    · rw [hg2ne t htN]
      exact hDgr t
  have hjl : g0.nodes.length - 1 < g2.nodes.length := by
    rw [hg2len]
    omega
  rw [revSweep_sum fs (g0.nodes.length - 1) g2 hjl hwf2 htopo2 hde2 hcte2 hsz2]
  rw [gds_succ g2 (g0.nodes.length - 1),
    gds_zero g2 (g0.nodes.length - 1) (fun t ht => hgr2 t (by omega)),
    hgrN, one_mul]
  have hN1 : g0.nodes.length - 1 + 1 = g0.nodes.length := by omega
  have hvt0 : varTail g2 g0.nodes.length = 0 := by
    have h0 := varTail_end g2
    rwa [hg2len] at h0
  rw [hN1, hvt0, (hg2vd (g0.nodes.length - 1)).2.2.2]
  ring

/-- Witness graph for C1: two `Var` leaves with tangents `1` and `3` feeding an
`Add` output node. -/
def gW1 : ADGraph ℚ :=
  ⟨[⟨.Var, [], 2, 1, 0, 0, 0, 0, 0, 0⟩,
    ⟨.Var, [], 5, 3, 0, 0, 0, 0, 0, 0⟩,
    ⟨.Add, [some 0, some 1], 0, 0, 0, 0, 0, 0, 0, 0⟩], 0, 0, 0, 0⟩

/-- C1 witness: the conservation identity instantiated on `gW1`. -/
theorem C1_reverse_vjp_matches_jvp_witness :
    varTail (backwardPass fsQ (dotPass fsQ (forwardPass fsQ gW1))) 0 =
      (getN (dotPass fsQ (forwardPass fsQ gW1)) (gW1.nodes.length - 1)).dot :=
  C1_reverse_vjp_matches_jvp fsQ gW1 (by decide) (by decide)
    (by
      intro t ht r hr
      have ht3 : t < 3 := ht
      interval_cases t
      · simp [gW1, getN] at hr
      · simp [gW1, getN] at hr
      · simp [gW1, getN] at hr
        rcases hr with h0 | h1
        · exact ⟨0, by rw [h0], by omega⟩
        · exact ⟨1, by rw [h1], by omega⟩)
    (by decide) (by decide)

end ChompAD

